import Mathlib

/-!
# sdlterm: glyph atlas, scrollback history and mouse selection

A shallow embedding of the rendering core of `sdlterm` (`sdlfox.c`, `main.c`),
of the bell statement of `sdlterm.c` and of the configuration-file reader
`ini.c`, and theorems about them.

Conventions of the embedding
* C `int` values are `Int`; `/` and `%` on them are `Int.tdiv` and `Int.tmod`
  (truncation toward zero, as in C).
* `Uint16` and `size_t` fields are `Nat`, with an explicit `% 65536` or
  `% 2 ^ 64` at the places where the C code stores a computed value in them.
* A C array of which only a prefix is initialised is a `List`; an array that
  is kept together with its length field is a `List` too, the field being the
  length of the list.
* Undefined behaviour (a write past the end of an array, a division by zero)
  is the result `none`.
* Calls into SDL, SDL_ttf and libvterm that draw are recorded as a list of
  effects returned next to the new state.
-/

namespace Sdlterm

/-! ## `sdlfox.c`: the glyph atlas -/

/-- The SDL point: a pixel position. -/
structure SDL_Point where
  x : Int
  y : Int
deriving DecidableEq, Repr

/-- The SDL rectangle: top-left corner and size in pixels. -/
structure SDL_Rect where
  x : Int
  y : Int
  w : Int
  h : Int
deriving DecidableEq, Repr

/-- The renderer, as far as the atlas reads it: `SDL_GetRendererOutputSize`. -/
structure SDL_Renderer where
  width : Int
  height : Int
deriving DecidableEq, Repr

/-- The `struct FOX_Page`. `atlas` is the whole `Uint32` array that `create_page`
allocates (zeroed by `SDL_calloc`); `num_glyphs` and `glyph_capacity` are the
`Uint16` fields. The texture itself is not modelled; what is copied onto it is
recorded as an effect. -/
structure FOX_Page where
  atlas : List Nat
  num_glyphs : Nat
  glyph_capacity : Nat
  texture_width : Int
  texture_height : Int
deriving DecidableEq, Repr

/-- The `int glyph_capacity` local of `create_page`:
`(texture_width / font_width) * (texture_height / font_height)` for the
1000x1000 texture. -/
def create_page_capacity (font_width font_height : Int) : Int :=
  Int.tdiv 1000 font_width * Int.tdiv 1000 font_height

/-- The function `create_page`. The result is undefined when a glyph dimension is zero
(division by zero) or the computed capacity is negative (the allocation size
wraps around). The `int` capacity sizes the `atlas` array; the `Uint16` field
`glyph_capacity` receives it by an implicit narrowing conversion. -/
def create_page (font_width font_height : Int) : Option FOX_Page :=
  if font_width = 0 ∨ font_height = 0 then none
  else
    let glyph_capacity := create_page_capacity font_width font_height
    if glyph_capacity < 0 then none
    else some
      { atlas := List.replicate glyph_capacity.toNat 0
        num_glyphs := 0
        glyph_capacity := (glyph_capacity % 65536).toNat
        texture_width := 1000
        texture_height := 1000 }

/-- The `struct FOX_Font`. `pages` holds `pages[0 .. num_pages)` of the C array
`struct FOX_Page *pages[10]`, so `num_pages` is its length. -/
structure FOX_Font where
  pages : List FOX_Page
  font_height : Int
  font_width : Int
deriving DecidableEq, Repr

/-- The `num_pages` field of `struct FOX_Font`. -/
def FOX_Font.num_pages (font : FOX_Font) : Nat := font.pages.length

/-- The font right after `FOX_OpenFont`: `num_pages = 0`. -/
def FOX_OpenFont (font_width font_height : Int) : FOX_Font :=
  { pages := [], font_height := font_height, font_width := font_width }

/-- What the atlas code asks SDL to do, in call order. -/
inductive FOX_Effect where
  /-- The call `create_glyph`: the font rasterizes a glyph (`TTF_RenderGlyph32_Blended`). -/
  | create_glyph (glyph : Nat)
  /-- The `SDL_RenderCopy` of a fresh glyph onto the texture of page `page`. -/
  | copy_to_page (page : Nat) (dstrect : SDL_Rect)
  /-- The `SDL_RenderCopy` from the texture of page `page` to the render target. -/
  | copy_to_screen (page : Nat) (srcrect dstrect : SDL_Rect)
deriving DecidableEq, Repr

/-- The function `position_is_within_bounds`: `position->x < width and position->y < height`. -/
def position_is_within_bounds (renderer : SDL_Renderer) (position : SDL_Point) : Bool :=
  decide (position.x < renderer.width) && decide (position.y < renderer.height)

/-- The function `append_page`: `pages[num_pages++] = create_page(..)`. The array has 10
slots and the code has no bound check, so the write is undefined once
`num_pages` is 10. Returns the font and the index of the new page. -/
def append_page (font : FOX_Font) : Option (FOX_Font × Nat) :=
  if font.pages.length < 10 then
    match create_page font.font_width font.font_height with
    | some page => some ({ font with pages := font.pages ++ [page] }, font.pages.length)
    | none => none
  else none

/-- The loop of `find_free_page`: index of the first page with
`num_glyphs < glyph_capacity`. -/
def first_free_page : List FOX_Page → Option Nat
  | [] => none
  | page :: rest =>
    if page.num_glyphs < page.glyph_capacity then some 0
    else (first_free_page rest).map (· + 1)

/-- The function `find_free_page`: the first page with room, else `append_page`. -/
def find_free_page (font : FOX_Font) : Option (FOX_Font × Nat) :=
  match first_free_page font.pages with
  | some i => some (font, i)
  | none => append_page font

/-- The conversion of an `int` to `unsigned int` (32 bits). -/
def to_uint32 (a : Int) : Nat := (a % 2 ^ 32).toNat

/-- The conversion of an `unsigned int` (32 bits) to `int`. -/
def to_int32 (n : Nat) : Int := if n < 2 ^ 31 then (n : Int) else (n : Int) - 2 ^ 32

/-- The `dstrect` of `append_glyph`: `{num_glyphs * font_width % texture_width,
num_glyphs * font_height / texture_height, font_width, font_height}`, where
`num_glyphs` is a `Uint16` promoted to `int`, so the arithmetic is that of
`int` (taken exactly: an `int` overflow is undefined and needs a glyph
dimension of 32768 or more). -/
def append_glyph_dstrect (font : FOX_Font) (page : FOX_Page) : SDL_Rect :=
  { x := Int.tmod (page.num_glyphs * font.font_width) page.texture_width
    y := Int.tdiv (page.num_glyphs * font.font_height) page.texture_height
    w := font.font_width
    h := font.font_height }

/-- The function `get_srcrect`: `{index * font_width % texture_width,
index * font_height / texture_height, font_width, font_height}`, where `index`
is a `Uint32`, so the products, the remainder and the quotient are those of
`unsigned int`, modulo `2 ^ 32`, converted to `int` when stored in the
rectangle. -/
def get_srcrect (font : FOX_Font) (page : FOX_Page) (index : Nat) : SDL_Rect :=
  { x := to_int32 ((index * to_uint32 font.font_width) % 2 ^ 32 %
      to_uint32 page.texture_width)
    y := to_int32 ((index * to_uint32 font.font_height) % 2 ^ 32 /
      to_uint32 page.texture_height)
    w := font.font_width
    h := font.font_height }

/-- The function `append_glyph`: rasterize, take the first page with room, store the
codepoint at slot `num_glyphs`, copy the bitmap, increment `num_glyphs`.
Returns the font, the page index, the slot and the effects. A store past the
end of the `atlas` array is undefined. -/
def append_glyph (font : FOX_Font) (glyph : Nat) :
    Option (FOX_Font × Nat × Nat × List FOX_Effect) :=
  match find_free_page font with
  | none => none
  | some (font1, i) =>
    match font1.pages[i]? with
    | none => none
    | some page =>
      if page.num_glyphs < page.atlas.length then
        let dstrect := append_glyph_dstrect font1 page
        let page1 : FOX_Page :=
          { page with
            atlas := page.atlas.set page.num_glyphs glyph
            num_glyphs := (page.num_glyphs + 1) % 65536 }
        some ({ font1 with pages := font1.pages.set i page1 }, i, page.num_glyphs,
          [FOX_Effect.create_glyph glyph, FOX_Effect.copy_to_page i dstrect])
      else none

/-- The inner loop of `find_glyph` over the slots `atlas[0 .. num_glyphs)`:
the first slot holding `glyph`. -/
def find_slot (glyph : Nat) : List Nat → Option Nat
  | [] => none
  | a :: rest => if a = glyph then some 0 else (find_slot glyph rest).map (· + 1)

/-- The slots of a page that are in use: `atlas[0 .. num_glyphs)`. -/
def FOX_Page.used (page : FOX_Page) : List Nat := page.atlas.take page.num_glyphs

/-- The outer loop of `find_glyph` over the pages. -/
def find_glyph_pages (glyph : Nat) : List FOX_Page → Option (Nat × Nat)
  | [] => none
  | page :: rest =>
    match find_slot glyph page.used with
    | some ch => some (0, ch)
    | none => (find_glyph_pages glyph rest).map (fun r => (r.1 + 1, r.2))

/-- The function `find_glyph`: the first (page, slot), in page-then-slot order, whose atlas
entry equals `glyph`; `none` is `SDL_FALSE`. -/
def find_glyph (font : FOX_Font) (glyph : Nat) : Option (Nat × Nat) :=
  find_glyph_pages glyph font.pages

/-- The tail of `render_glyph`: blit slot `index` of page `i` to `position`. -/
def blit_glyph (font : FOX_Font) (position : SDL_Point) (i index : Nat) :
    Option FOX_Effect :=
  match font.pages[i]? with
  | none => none
  | some page =>
    some (FOX_Effect.copy_to_screen i (get_srcrect font page index)
      { x := position.x, y := position.y, w := font.font_width, h := font.font_height })

/-- The function `render_glyph`: look the glyph up, append it when it is not cached, blit. -/
def render_glyph (font : FOX_Font) (position : SDL_Point) (glyph : Nat) :
    Option (FOX_Font × List FOX_Effect) :=
  match find_glyph font glyph with
  | some (i, index) =>
    (blit_glyph font position i index).map (fun e => (font, [e]))
  | none =>
    match append_glyph font glyph with
    | none => none
    | some (font1, i, index, effects) =>
      (blit_glyph font1 position i index).map (fun e => (font1, effects ++ [e]))

/-- The function `FOX_DrawGlyph`. `provided` is `TTF_GlyphIsProvided32` of the font. -/
def FOX_DrawGlyph (renderer : SDL_Renderer) (provided : Nat → Bool) (font : FOX_Font)
    (position : SDL_Point) (glyph : Nat) : Option (FOX_Font × List FOX_Effect) :=
  if ¬ position_is_within_bounds renderer position then some (font, [])
  else if ¬ provided glyph then some (font, [])
  else render_glyph font position glyph

/-- A sequence of `FOX_DrawGlyph` calls, in order, with the effects of all. -/
def FOX_DrawGlyphs (renderer : SDL_Renderer) (provided : Nat → Bool) :
    FOX_Font → List (SDL_Point × Nat) → Option (FOX_Font × List FOX_Effect)
  | font, [] => some (font, [])
  | font, d :: rest =>
    match FOX_DrawGlyph renderer provided font d.1 d.2 with
    | none => none
    | some (font1, e1) =>
      match FOX_DrawGlyphs renderer provided font1 rest with
      | none => none
      | some (font2, e2) => some (font2, e1 ++ e2)

/-- The number of rasterizations (`create_glyph` calls) among the effects. -/
def rasterizations (effects : List FOX_Effect) : Nat :=
  (effects.filter (fun e => match e with
    | FOX_Effect.create_glyph _ => true
    | _ => false)).length

/-! ### Predicates on atlas states -/

/-- The `Uint16` fields of every page hold 16-bit values. -/
def FOX_Font.well_typed (font : FOX_Font) : Prop :=
  ∀ page ∈ font.pages, page.num_glyphs < 65536 ∧ page.glyph_capacity < 65536

/-- The codepoint is recorded in a used slot of some page. -/
def FOX_Font.cached (font : FOX_Font) (glyph : Nat) : Prop :=
  ∃ page ∈ font.pages, glyph ∈ page.used

instance (font : FOX_Font) : Decidable font.well_typed :=
  inferInstanceAs (Decidable (∀ page ∈ font.pages, _))

instance (font : FOX_Font) (glyph : Nat) : Decidable (font.cached glyph) :=
  inferInstanceAs (Decidable (∃ page ∈ font.pages, _))

/-- The page after `append_glyph` stored `glyph` in its next slot. -/
def FOX_Page.store (page : FOX_Page) (glyph : Nat) : FOX_Page :=
  { page with
    atlas := page.atlas.set page.num_glyphs glyph
    num_glyphs := (page.num_glyphs + 1) % 65536 }

/-- A font with one 2x2-slot page that caches the codepoints 65 and 66. -/
def font_with_two_glyphs : FOX_Font :=
  { pages := [{ atlas := [65, 66, 0, 0], num_glyphs := 2, glyph_capacity := 4,
                texture_width := 1000, texture_height := 1000 }]
    font_height := 500
    font_width := 500 }

/-! ### Packing of distinct glyphs into pages -/

/-- The pages hold the codepoints `gs` in order, `C` to a page: every page has
capacity `C` and an atlas array of `A` entries, every page but the last is
full, and no page is empty. -/
def Packed (C A : Nat) : List FOX_Page → List Nat → Prop
  | [], gs => gs = []
  | page :: rest, gs =>
    gs ≠ [] ∧ page.glyph_capacity = C ∧ page.atlas.length = A ∧
      page.num_glyphs = min C gs.length ∧ page.used = gs.take C ∧
      Packed C A rest (gs.drop C)

/-- Draws of the `n` distinct codepoints `0, 1, .., n - 1`, all at the origin. -/
def glyph_draws (n : Nat) : List (SDL_Point × Nat) :=
  (List.range n).map (fun g => (⟨0, 0⟩, g))

/-! ## `main.c`: scrollback history and mouse selection -/

/-- The libvterm cell position. -/
structure VTermPos where
  row : Int
  col : Int
deriving DecidableEq, Repr

/-- The libvterm rectangle of cells. -/
structure VTermRect where
  start_row : Int
  end_row : Int
  start_col : Int
  end_col : Int
deriving DecidableEq, Repr

/-- The colour of a cell after `vterm_state_convert_color_to_rgb`. -/
structure VTermColor where
  red : Nat
  green : Nat
  blue : Nat
deriving DecidableEq, Repr

/-- The attribute bits of a cell that `main.c` reads. -/
structure VTermScreenCellAttrs where
  bold : Bool
  underline : Bool
  italic : Bool
  reverse : Bool
deriving DecidableEq, Repr

/-- The libvterm screen cell: codepoints, attributes and colours. -/
structure VTermScreenCell where
  chars : List Nat
  attrs : VTermScreenCellAttrs
  fg : VTermColor
  bg : VTermColor
deriving DecidableEq, Repr

/-- The live screen of the engine, as `vterm_screen_get_cell` reads it. -/
abbrev VTermScreen := VTermPos → VTermScreenCell

/-- One call `render_terminal_cell(cell, position)`. -/
structure RenderCall where
  cell : VTermScreenCell
  position : VTermPos
deriving DecidableEq, Repr

/-- The `struct TerminalHistoryItem`: the owned array `line`; its `length`
field is the length of the list. -/
structure TerminalHistoryItem where
  line : List VTermScreenCell
deriving DecidableEq, Repr

/-- The `length` field of `struct TerminalHistoryItem`. -/
def TerminalHistoryItem.length (item : TerminalHistoryItem) : Nat := item.line.length

/-- The `struct TerminalHistory`. `elements` holds the stored lines
`elements[0 .. length)`, so the `length` field is the length of the list;
`size` is the allocated capacity. -/
structure TerminalHistory where
  elements : List TerminalHistoryItem
  size : Nat
  offset : Nat
  infinite : Bool
deriving DecidableEq, Repr

/-- The `length` field of `struct TerminalHistory`. -/
def TerminalHistory.length (history : TerminalHistory) : Nat := history.elements.length

/-- The history of a terminal that has not pushed a line yet (zeroed global). -/
def TerminalHistory.empty : TerminalHistory :=
  { elements := [], size := 0, offset := 0, infinite := false }

/-- The `configuration.history` struct. -/
structure HistoryConfiguration where
  limit : Nat
  infinite : Bool
  enable : Bool
deriving DecidableEq, Repr

/-- The function `terminal_sb_pushline`. Nothing happens when history is disabled.
Otherwise the capacity grows to `(size + 100) * 2` when `length == size`, and
the `cols` cells are copied into a new last element. The call is undefined for
a negative `cols` and when `cells` holds fewer than `cols` cells. The
allocations are taken to succeed, so the `size_t` capacity does not wrap. -/
def terminal_sb_pushline (configuration : HistoryConfiguration) (history : TerminalHistory)
    (cols : Int) (cells : List VTermScreenCell) : Option TerminalHistory :=
  if ¬ configuration.enable then some history
  else if cols < 0 ∨ (cells.length : Int) < cols then none
  else
    let size := if history.length = history.size then (history.size + 100) * 2 else history.size
    some { history with
      size := size
      elements := history.elements ++ [{ line := cells.take cols.toNat }] }

/-- A sequence of scrollback-push notifications `(cols, cells)`, in order. -/
def terminal_sb_pushlines (configuration : HistoryConfiguration) :
    TerminalHistory → List (Int × List VTermScreenCell) → Option TerminalHistory
  | history, [] => some history
  | history, p :: rest =>
    match terminal_sb_pushline configuration history p.1 p.2 with
    | none => none
    | some history1 => terminal_sb_pushlines configuration history1 rest

/-- The inner loop of the first loop of `render_terminal_history`: the cells of
one history line, drawn in viewport row `row` at columns `0 .. item.length`. -/
def render_history_item (item : TerminalHistoryItem) (row : Nat) : List RenderCall :=
  item.line.enum.map (fun c => { cell := c.2, position := { row := row, col := c.1 } })

/-- The first loop of `render_terminal_history`, with `fuel` iterations left
before `pos.row` reaches `terminal.rows`. It stops early when `index == length`;
reading `elements[index]` past the stored lines is undefined. Returns the calls
and the final `pos.row`. -/
def render_history_lines (history : TerminalHistory) :
    Nat → Nat → Nat → Option (List RenderCall × Nat)
  | 0, _, row => some ([], row)
  | fuel + 1, index, row =>
    if index = history.length then some ([], row)
    else
      match history.elements[index]? with
      | none => none
      | some item =>
        match render_history_lines history fuel (index + 1) (row + 1) with
        | none => none
        | some (calls, last) => some (render_history_item item row ++ calls, last)

/-- The second loop of `render_terminal_history`: the viewport rows
`offset .. rows` are drawn from the live screen rows `0 .. rows - offset`. -/
def render_live_rows (screen : VTermScreen) (rows cols : Int) (offset : Nat) :
    List RenderCall :=
  (List.range (rows.toNat - offset)).flatMap (fun (i : Nat) =>
    (List.range cols.toNat).map (fun (col : Nat) =>
      { cell := screen { row := (i : Int), col := (col : Int) }
        position := { row := ((offset + i : Nat) : Int), col := (col : Int) } }))

/-- The function `render_terminal_history`. `index = length - offset` is a
`size_t` subtraction, taken modulo `2 ^ 64`. -/
def render_terminal_history (screen : VTermScreen) (history : TerminalHistory)
    (rows cols : Int) : Option (List RenderCall) :=
  let index := (((history.length : Int) - (history.offset : Int)) % 2 ^ 64).toNat
  match render_history_lines history rows.toNat index 0 with
  | none => none
  | some (calls, row) => some (calls ++ render_live_rows screen rows cols row)

/-- The `SDL_MOUSEWHEEL` branch of `update_terminal_emulator`, the state part:
`offset += event.wheel.y` under the guard, a `size_t` addition modulo `2 ^ 64`. -/
def mouse_wheel_offset (history : TerminalHistory) (y : Int) : TerminalHistory :=
  if (y > 0 ∧ history.offset < history.length) ∨ (y < 0 ∧ history.offset > 0) then
    { history with offset := (((history.offset : Int) + y) % 2 ^ 64).toNat }
  else history

/-- The `SDL_MOUSEWHEEL` branch of `update_terminal_emulator`: update the
offset, then `render_terminal_history()`. -/
def on_mouse_wheel (screen : VTermScreen) (history : TerminalHistory) (rows cols : Int)
    (y : Int) : Option (TerminalHistory × List RenderCall) :=
  let history1 := mouse_wheel_offset history y
  (render_terminal_history screen history1 rows cols).map (fun calls => (history1, calls))

/-- The offset the specification asks for: `offset + delta` clamped to
`[0, length]`. -/
def clamped_offset (offset length : Nat) (delta : Int) : Int :=
  max 0 (min (length : Int) ((offset : Int) + delta))

/-- The `struct MouseState`. -/
structure MouseState where
  position : SDL_Point
  cell : VTermPos
  lmb : Bool
  rmb : Bool
  mmb : Bool
  rect : VTermRect
deriving DecidableEq, Repr

/-- The function `map_to_row`: `y / FOX_GlyphHeight(font)`. -/
def map_to_row (glyph_height : Int) (y : Int) : Int := Int.tdiv y glyph_height

/-- The function `map_to_col`: `x / FOX_GlyphWidth(font)`. -/
def map_to_col (glyph_width : Int) (x : Int) : Int := Int.tdiv x glyph_width

/-- The function `highlight_cells`: the cells of rows `start_row .. end_row` and
columns `start_col .. end_col`, both inclusive, row by row; with `highlight`
the copy of the cell that is rendered has its `reverse` attribute flipped. -/
def highlight_cells (screen : VTermScreen) (rect : VTermRect) (highlight : Bool) :
    List RenderCall :=
  (List.range (rect.end_row + 1 - rect.start_row).toNat).flatMap (fun (i : Nat) =>
    (List.range (rect.end_col + 1 - rect.start_col).toNat).map (fun (j : Nat) =>
      let pos : VTermPos := { row := rect.start_row + (i : Int), col := rect.start_col + (j : Int) }
      let cell := screen pos
      { cell := if highlight then
          { cell with attrs := { cell.attrs with reverse := !cell.attrs.reverse } }
          else cell
        position := pos }))

/-- The `SDL_MOUSEBUTTONDOWN` branch of `update_terminal_emulator`. -/
def on_mouse_button_down (mouse : MouseState) (button : Nat) : MouseState :=
  if button = 1 then
    { mouse with
      lmb := true
      rect := { start_row := mouse.cell.row, end_row := mouse.cell.row
                start_col := mouse.cell.col, end_col := mouse.cell.col } }
  else if button = 2 then { mouse with mmb := true }
  else if button = 3 then { mouse with rmb := true }
  else mouse

/-- The rectangle update of the `SDL_MOUSEMOTION` branch while the left button
is down: each axis compares the current cell with the rectangle's start. -/
def drag_rect (rect : VTermRect) (cell : VTermPos) : VTermRect :=
  let rect1 : VTermRect :=
    if cell.row > rect.start_row then { rect with end_row := cell.row }
    else { rect with start_row := cell.row }
  if cell.col > rect1.start_col then { rect1 with end_col := cell.col }
  else { rect1 with start_col := cell.col }

/-- The `SDL_MOUSEMOTION` branch of `update_terminal_emulator`, for a font with
the given glyph box; dividing by a zero glyph dimension is undefined. Returns
the mouse state and the cells rendered by the two `highlight_cells` calls. -/
def on_mouse_motion (glyph_width glyph_height : Int) (screen : VTermScreen)
    (mouse : MouseState) (x y : Int) : Option (MouseState × List RenderCall) :=
  if glyph_width = 0 ∨ glyph_height = 0 then none
  else
    let cell : VTermPos := { row := map_to_row glyph_height y, col := map_to_col glyph_width x }
    let mouse1 : MouseState := { mouse with position := { x := x, y := y }, cell := cell }
    if mouse1.lmb then
      let rect := drag_rect mouse1.rect cell
      some ({ mouse1 with rect := rect },
        highlight_cells screen mouse1.rect false ++ highlight_cells screen rect true)
    else some (mouse1, [])

/-- A sequence of mouse motions `(x, y)`, in order; the final mouse state. -/
def on_mouse_motions (glyph_width glyph_height : Int) (screen : VTermScreen) :
    MouseState → List (Int × Int) → Option MouseState
  | mouse, [] => some mouse
  | mouse, m :: rest =>
    match on_mouse_motion glyph_width glyph_height screen mouse m.1 m.2 with
    | none => none
    | some (mouse1, _) => on_mouse_motions glyph_width glyph_height screen mouse1 rest

/-- The rectangle is normalized: start at most end on both axes. -/
def VTermRect.normalized (rect : VTermRect) : Prop :=
  rect.start_row ≤ rect.end_row ∧ rect.start_col ≤ rect.end_col

instance (rect : VTermRect) : Decidable rect.normalized :=
  inferInstanceAs (Decidable (_ ∧ _))

/-! ### Scrollback history and mouse selection -/

/-- A cell holding the single codepoint `ch`, white on black, no attributes. -/
def plain_cell (ch : Nat) : VTermScreenCell :=
  { chars := [ch]
    attrs := { bold := false, underline := false, italic := false, reverse := false }
    fg := { red := 255, green := 255, blue := 255 }
    bg := { red := 0, green := 0, blue := 0 } }

/-- A live screen whose every cell holds a space. -/
def blank_screen : VTermScreen := fun _ => plain_cell 32

/-- A history of three stored lines `ab`, `c`, `de`, viewed at offset 2. -/
def history_of_three : TerminalHistory :=
  { elements := [{ line := [plain_cell 97, plain_cell 98] }, { line := [plain_cell 99] },
                 { line := [plain_cell 100, plain_cell 101] }]
    size := 200
    offset := 2
    infinite := false }

/-- A mouse state with no button down, the pointer over cell (row 5, col 5) of
8x16 glyph boxes. -/
def mouse_at_5_5 : MouseState :=
  { position := { x := 40, y := 80 }
    cell := { row := 5, col := 5 }
    lmb := false, rmb := false, mmb := false
    rect := { start_row := 0, end_row := 0, start_col := 0, end_col := 0 } }

/-- The calls of the first loop of `render_terminal_history` for the history
lines `items`, drawn in the viewport rows `row, row + 1, ..`. -/
def render_history_items (items : List TerminalHistoryItem) (row : Nat) : List RenderCall :=
  (items.enumFrom row).flatMap (fun p => render_history_item p.2 p.1)

/-- The history lines visible in a viewport of `rows` rows at the current
offset: at most `rows` lines from index `length - offset` on. -/
def TerminalHistory.visible (history : TerminalHistory) (rows : Int) :
    List TerminalHistoryItem :=
  (history.elements.drop (history.length - history.offset)).take rows.toNat

/-- The history line that a push of `(cols, cells)` stores. -/
def pushed_item (p : Int × List VTermScreenCell) : TerminalHistoryItem :=
  { line := p.2.take p.1.toNat }

/-- Three scrollback pushes: the lines `ab`, `c` and `de`. -/
def three_pushes : List (Int × List VTermScreenCell) :=
  [(2, [plain_cell 97, plain_cell 98]), (1, [plain_cell 99]),
   (2, [plain_cell 100, plain_cell 101])]

/-! ### `ini.c`: the configuration-file reader -/

/-- The `enum IniFileItemKind`. -/
inductive IniFileItemKind where
  | IniFile_Section
  | IniFile_Item
deriving DecidableEq, Repr

/-- The `struct IniFileItem`; a `NULL` value is `none`. -/
structure IniFileItem where
  kind : IniFileItemKind
  name : String
  value : Option String
deriving DecidableEq, Repr

/-- The `struct IniFile`. `items` holds the slots `items[0 .. num_items)` of
the C array; a slot that was counted but never written (the struct comes from
`SDL_malloc`) is `none`. -/
structure IniFile where
  items : List (Option IniFileItem)
deriving DecidableEq, Repr

/-- The `num_items` field of `struct IniFile`. -/
def IniFile.num_items (ini : IniFile) : Nat := ini.items.length

/-- The loop of `ini_get_value` from some slot on, with the current value of
`in_section`. The outer `none` is an undefined result (the loop read a slot
that was never written), `some none` is the return value `NULL`. -/
def ini_get_value_loop (section_name key : String) :
    Bool → List (Option IniFileItem) → Option (Option String)
  | _, [] => some none
  | _, none :: _ => none
  | in_section, some item :: rest =>
    match item.kind with
    | IniFileItemKind.IniFile_Section =>
      ini_get_value_loop section_name key (decide (item.name = section_name)) rest
    | IniFileItemKind.IniFile_Item =>
      if in_section = true ∧ item.name = key then some item.value
      else ini_get_value_loop section_name key in_section rest

/-- The function `ini_get_value`. -/
def ini_get_value (ini : IniFile) (section_name key : String) : Option (Option String) :=
  ini_get_value_loop section_name key false ini.items

/-- The item at index `i` lies under a section header named `section`: a
header with that name stands at some index `j < i`, and no section header
stands strictly between `j` and `i`. -/
def under_section (items : List IniFileItem) (section_name : String) (i : Nat) : Prop :=
  ∃ j header, j < i ∧ items[j]? = some header ∧
    header.kind = IniFileItemKind.IniFile_Section ∧ header.name = section_name ∧
    ∀ k item, j < k → k < i → items[k]? = some item →
      item.kind ≠ IniFileItemKind.IniFile_Section

/-- The item at index `i` is a key line named `key` under a section header
named `section`. -/
def key_under_section (items : List IniFileItem) (section_name key : String) (i : Nat) : Prop :=
  (∃ item, items[i]? = some item ∧ item.kind = IniFileItemKind.IniFile_Item ∧
    item.name = key) ∧ under_section items section_name i

/-- An ini file of fully written slots. -/
def IniFile.of_items (items : List IniFileItem) : IniFile := { items := items.map some }

/-- The lines `a = 0`, `[window]`, `width = 800`, `[font]`, `width = 7`,
`[window]`, `width = 640`, `height = 480` as items. -/
def sample_items : List IniFileItem :=
  [⟨IniFileItemKind.IniFile_Item, "a", some "0"⟩,
   ⟨IniFileItemKind.IniFile_Section, "window", none⟩,
   ⟨IniFileItemKind.IniFile_Item, "width", some "800"⟩,
   ⟨IniFileItemKind.IniFile_Section, "font", none⟩,
   ⟨IniFileItemKind.IniFile_Item, "width", some "7"⟩,
   ⟨IniFileItemKind.IniFile_Section, "window", none⟩,
   ⟨IniFileItemKind.IniFile_Item, "width", some "640"⟩,
   ⟨IniFileItemKind.IniFile_Item, "height", some "480"⟩]

/-- The item at index `i` is in the wanted section when the scan starts with
`in_section = b`: either `b` holds and no header stands before `i`, or the
item lies under a header named `section`. -/
def under_section_from (b : Bool) (items : List IniFileItem) (section_name : String)
    (i : Nat) : Prop :=
  (b = true ∧ ∀ k item, k < i → items[k]? = some item →
    item.kind ≠ IniFileItemKind.IniFile_Section) ∨ under_section items section_name i

/-! ### Slot rectangles of the atlas -/

/-- The rectangles overlap (share a pixel), as `SDL_HasIntersection`. -/
def SDL_Rect.overlaps (a b : SDL_Rect) : Prop :=
  a.x < b.x + b.w ∧ b.x < a.x + a.w ∧ a.y < b.y + b.h ∧ b.y < a.y + a.h

instance (a b : SDL_Rect) : Decidable (a.overlaps b) :=
  inferInstanceAs (Decidable (_ ∧ _ ∧ _ ∧ _))

/-- The rectangle lies inside a texture of the given size. -/
def SDL_Rect.inside (a : SDL_Rect) (width height : Int) : Prop :=
  0 ≤ a.x ∧ 0 ≤ a.y ∧ a.x + a.w ≤ width ∧ a.y + a.h ≤ height

instance (a : SDL_Rect) (width height : Int) : Decidable (a.inside width height) :=
  inferInstanceAs (Decidable (_ ∧ _ ∧ _ ∧ _))

/-- A page of a 1000x1000 texture with `n` glyphs of capacity 4 in use. -/
def page_with (atlas : List Nat) (n : Nat) : FOX_Page :=
  { atlas := atlas, num_glyphs := n, glyph_capacity := 4,
    texture_width := 1000, texture_height := 1000 }

/-! ### Viewport rows and history capacity -/

/-- The calls for viewport row `r` as the specification describes them: with
`h = min(offset, rows)`, a row `r < h` shows the history line of index
`length - offset + r` over its stored width, a row `r >= h` shows the live
screen row `r - h` over `cols` columns. -/
def viewport_row (screen : VTermScreen) (history : TerminalHistory) (rows cols : Int)
    (r : Nat) : List RenderCall :=
  if r < min history.offset rows.toNat then
    match history.elements[history.length - history.offset + r]? with
    | some item => render_history_item item r
    | none => []
  else
    (List.range cols.toNat).map (fun (col : Nat) =>
      { cell := screen { row := ((r - min history.offset rows.toNat : Nat) : Int),
                         col := (col : Int) }
        position := { row := (r : Int), col := (col : Int) } })

/-! ### The loop tail of `update_terminal_emulator`: timers, cursor, bell, release -/

/-- The SDL colour. -/
structure SDL_Color where
  r : Nat
  g : Nat
  b : Nat
  a : Nat
deriving DecidableEq, Repr

/-- The `struct TerminalCursor`; `ticks` is a `Uint32`. -/
structure TerminalCursor where
  cell : SDL_Point
  visible : Bool
  ticks : Nat
deriving DecidableEq, Repr

/-- The `struct TerminalBell`; `ticks` is a `Uint32`. -/
structure TerminalBell where
  active : Bool
  ticks : Nat
deriving DecidableEq, Repr

/-- The data fields of the global `terminal` (`struct TerminalEmulator`);
`batch_flush` and `batch_rect` are the members of its `batch` struct, `ticks`
and `ticks_resize` are `Uint32`. The SDL and libvterm handles are not part of
the state: what is asked of them is returned as effects. -/
structure TerminalEmulator where
  history : TerminalHistory
  bell : TerminalBell
  mouse : MouseState
  cursor : TerminalCursor
  batch_flush : Bool
  batch_rect : VTermRect
  x : Int
  y : Int
  width : Int
  height : Int
  rows : Int
  cols : Int
  ticks : Nat
  ticks_resize : Nat
  fullscreen : Bool
  dirty : Bool
deriving DecidableEq, Repr

/-- What `main.c` asks of SDL, the pseudo-terminal and the engine, in call
order. -/
inductive TerminalEffect where
  /-- The call `render_terminal_cell(cell, position)`. -/
  | render_terminal_cell (cell : VTermScreenCell) (position : VTermPos)
  /-- The call `flood_cell(position, color)` made outside `render_terminal_cell`. -/
  | flood_cell (position : VTermPos) (color : SDL_Color)
  /-- The call `clear_terminal_window()`. -/
  | clear_terminal_window
  /-- The call `ioctl(fd, TIOCSWINSZ, &winsize)`; the fields of `struct winsize`
  are `unsigned short`. -/
  | ioctl_TIOCSWINSZ (ws_col ws_row ws_xpixel ws_ypixel : Nat)
  /-- The call `vterm_set_size(vterm, rows, cols)`. -/
  | vterm_set_size (rows cols : Int)
  /-- The call `SDL_RenderPresent(renderer)`. -/
  | SDL_RenderPresent
deriving DecidableEq, Repr

/-- The loop of `render_terminal_rect`: the cells of rows
`start_row .. end_row - 1` and columns `start_col .. end_col - 1`, row by row
(the rectangle is half-open). -/
def render_terminal_rect (screen : VTermScreen) (rect : VTermRect) : List RenderCall :=
  (List.range (rect.end_row - rect.start_row).toNat).flatMap (fun (i : Nat) =>
    (List.range (rect.end_col - rect.start_col).toNat).map (fun (j : Nat) =>
      let pos : VTermPos :=
        { row := rect.start_row + (i : Int), col := rect.start_col + (j : Int) }
      { cell := screen pos, position := pos }))

/-- The function `render_terminal_screen`: `render_terminal_rect` of
`{0, 0, cols, rows}`. -/
def render_terminal_screen (screen : VTermScreen) (rows cols : Int) : List RenderCall :=
  render_terminal_rect screen
    { start_row := 0, end_row := rows, start_col := 0, end_col := cols }

/-- The function `render_terminal_cursor(enabled)`: flood the cursor cell in
white, or render the cell in its normal form. -/
def render_terminal_cursor (screen : VTermScreen) (cursor : TerminalCursor)
    (enabled : Bool) : List TerminalEffect :=
  let position : VTermPos := { row := cursor.cell.y, col := cursor.cell.x }
  if enabled then
    [TerminalEffect.flood_cell position { r := 255, g := 255, b := 255, a := 255 }]
  else [TerminalEffect.render_terminal_cell (screen position) position]

/-- The callback `terminal_movecursor(pos, oldpos, visible)`. -/
def terminal_movecursor (screen : VTermScreen) (t : TerminalEmulator)
    (pos _oldpos : VTermPos) (_visible : Int) : TerminalEmulator × List TerminalEffect :=
  let cursor : TerminalCursor :=
    { cell := { x := pos.col, y := pos.row }, ticks := t.ticks, visible := true }
  ({ t with cursor := cursor, dirty := true },
    render_terminal_cursor screen t.cursor false ++ render_terminal_cursor screen cursor true)

/-- The callback `terminal_bell`: it records the tick and sets the bell active;
it calls nothing. -/
def terminal_bell (t : TerminalEmulator) : TerminalEmulator × List TerminalEffect :=
  ({ t with bell := { ticks := t.ticks, active := true } }, [])

/-- The bell statement of `TERM_Update` in `sdlterm.c`:
`if (bell.active && ticks > bell.ticks + 250) bell.active = false;` with
`Uint32` ticks. -/
def TERM_Update_bell (ticks : Nat) (bell : TerminalBell) : TerminalBell :=
  if bell.active = true ∧ ticks > (bell.ticks + 250) % 2 ^ 32 then
    { bell with active := false }
  else bell

/-- The SDL window event ids that `handle_window_event` distinguishes. -/
inductive SDL_WindowEventID where
  | SDL_WINDOWEVENT_MOVED
  | SDL_WINDOWEVENT_SIZE_CHANGED
  | SDL_WINDOWEVENT_FOCUS_LOST
  | SDL_WINDOWEVENT_OTHER
deriving DecidableEq, Repr

/-- The SDL window event: the time SDL stamped it with (in ticks), its id and
its two data fields. -/
structure SDL_WindowEvent where
  timestamp : Nat
  event : SDL_WindowEventID
  data1 : Int
  data2 : Int
deriving DecidableEq, Repr

/-- The function `handle_window_event`, for a font with the given glyph box;
`map_to_col` and `map_to_row` divide by the glyph dimensions, which is
undefined for a zero dimension. The event's own timestamp is not read: the
resize is stamped with `terminal.ticks`, the tick sampled at the end of the
previous loop iteration. -/
def handle_window_event (glyph_width glyph_height : Int) (t : TerminalEmulator)
    (event : SDL_WindowEvent) : Option TerminalEmulator :=
  match event.event with
  | SDL_WindowEventID.SDL_WINDOWEVENT_MOVED => some { t with x := event.data1, y := event.data2 }
  | SDL_WindowEventID.SDL_WINDOWEVENT_SIZE_CHANGED =>
    if glyph_width = 0 ∨ glyph_height = 0 then none
    else some
      { t with
        width := event.data1
        height := event.data2
        cols := map_to_col glyph_width event.data1
        rows := map_to_row glyph_height event.data2
        ticks_resize := t.ticks }
  | _ => some t

/-- The conversion of a `Uint32` to `float` (24 significant bits, round to
nearest, ties to even), as a natural number: exact below `2 ^ 24`. -/
def float_of_uint32 (n : Nat) : Nat :=
  if n < 2 ^ 24 then n
  else
    let e := Nat.log2 n - 23
    let q := n / 2 ^ e
    let r := n % 2 ^ e
    if 2 * r > 2 ^ e ∨ (2 * r = 2 ^ e ∧ q % 2 = 1) then (q + 1) * 2 ^ e else q * 2 ^ e

/-- The `Uint32` difference `a - b`. -/
def uint32_sub (a b : Nat) : Nat := (((a : Int) - (b : Int)) % 2 ^ 32).toNat

/-- The block "Apply resize event" of `update_terminal_emulator`. `screen` is
the engine's screen as the redraw reads it. -/
def apply_resize_event (screen : VTermScreen) (t : TerminalEmulator) :
    TerminalEmulator × List TerminalEffect :=
  if t.ticks_resize > 0 ∧ uint32_sub t.ticks t.ticks_resize > 500 then
    ({ t with ticks_resize := 0, dirty := true },
      [TerminalEffect.ioctl_TIOCSWINSZ (t.cols % 65536).toNat (t.rows % 65536).toNat
          (t.width % 65536).toNat (t.height % 65536).toNat,
       TerminalEffect.vterm_set_size t.rows t.cols,
       TerminalEffect.clear_terminal_window] ++
      (render_terminal_screen screen t.rows t.cols).map
        (fun call => TerminalEffect.render_terminal_cell call.cell call.position))
  else (t, [])

/-- The block "Update terminal cell cursor" of `update_terminal_emulator`.
`interval` is `configuration.cursor.interval`, a `float` that is only ever
assigned from `SDL_strtol`, so a whole number; the `Uint32` tick difference is
converted to `float` for the comparison. -/
def update_terminal_cursor (interval : Int) (screen : VTermScreen) (t : TerminalEmulator) :
    TerminalEmulator × List TerminalEffect :=
  if (float_of_uint32 (uint32_sub t.ticks t.cursor.ticks) : Int) > interval then
    let cursor : TerminalCursor := { t.cursor with ticks := t.ticks }
    if interval > 0 then
      let cursor1 : TerminalCursor := { cursor with visible := !cursor.visible }
      ({ t with cursor := cursor1, dirty := true },
        render_terminal_cursor screen cursor1 cursor1.visible)
    else ({ t with cursor := cursor }, [])
  else (t, [])

/-- The block "Trigger screen refresh" of `update_terminal_emulator`. -/
def trigger_screen_refresh (t : TerminalEmulator) : TerminalEmulator × List TerminalEffect :=
  if t.dirty then ({ t with dirty := false }, [TerminalEffect.SDL_RenderPresent])
  else (t, [])

/-- The tail of `update_terminal_emulator` after the event loop: sample the
tick (`now` is `SDL_GetTicks()`), apply a pending resize, update the cursor,
present. -/
def update_terminal_emulator_timers (interval : Int) (screen : VTermScreen)
    (t : TerminalEmulator) (now : Nat) : TerminalEmulator × List TerminalEffect :=
  let r1 := apply_resize_event screen { t with ticks := now }
  let r2 := update_terminal_cursor interval screen r1.1
  let r3 := trigger_screen_refresh r2.1
  (r3.1, r1.2 ++ r2.2 ++ r3.2)

/-- A terminal state with everything zeroed (the static global), of 80x25
cells, the cursor visible. -/
def blank_terminal : TerminalEmulator :=
  { history := TerminalHistory.empty
    bell := { active := false, ticks := 0 }
    mouse := mouse_at_5_5
    cursor := { cell := { x := 0, y := 0 }, visible := true, ticks := 0 }
    batch_flush := false
    batch_rect := { start_row := 0, end_row := 0, start_col := 0, end_col := 0 }
    x := 0, y := 0, width := 640, height := 400, rows := 25, cols := 80
    ticks := 0, ticks_resize := 0, fullscreen := false, dirty := false }

/-- One step of the cursor's life: a loop iteration whose tail samples the tick
`now`, or a cursor-move notification of the engine. -/
inductive CursorStep where
  | loop_iteration (now : Nat)
  | movecursor (pos oldpos : VTermPos) (visible : Int)
deriving DecidableEq, Repr

/-- The state after a sequence of cursor steps. -/
def run_cursor_steps (interval : Int) (screen : VTermScreen) :
    TerminalEmulator → List CursorStep → TerminalEmulator
  | t, [] => t
  | t, CursorStep.loop_iteration now :: rest =>
    run_cursor_steps interval screen (update_terminal_emulator_timers interval screen t now).1
      rest
  | t, CursorStep.movecursor pos oldpos visible :: rest =>
    run_cursor_steps interval screen (terminal_movecursor screen t pos oldpos visible).1 rest

/-- A terminal whose last loop iteration sampled tick 1000 and whose cursor
was last toggled at tick 1000. -/
def terminal_at_1000 : TerminalEmulator :=
  { blank_terminal with
    ticks := 1000
    cursor := { cell := { x := 0, y := 0 }, visible := true, ticks := 1000 } }

/-- Modelled from the spec: the engine's text extraction
`vterm_screen_get_text` (libvterm, an interface the repository consumes): the
characters, and nothing but the characters, of the cells of the rectangle in
row-major order, the rectangle being read under the half-open convention of
`render_terminal_rect` (rows `start_row .. end_row - 1`, columns
`start_col .. end_col - 1`). -/
def vterm_screen_get_text (screen : VTermScreen) (rect : VTermRect) : List Nat :=
  (render_terminal_rect screen rect).flatMap (fun call => call.cell.chars)

/-- What the `SDL_MOUSEBUTTONUP` branch does: the new mouse state, the cells
rendered, the text passed to `SDL_SetClipboardText` (if it is called) and the
text written to the child process (if any). -/
structure MouseButtonUp where
  mouse : MouseState
  rendered : List RenderCall
  clipboard : Option (List Nat)
  written : Option (List Nat)
deriving DecidableEq, Repr

/-- The `SDL_MOUSEBUTTONUP` branch of `update_terminal_emulator`.
`clipboard_text` is what `SDL_GetClipboardText` returns. On the primary button
the text extracted over `terminal.mouse.rect` is set as clipboard content (the
buffer is taken to hold exactly the extracted text). -/
def on_mouse_button_up (screen : VTermScreen) (clipboard_text : List Nat) (mouse : MouseState)
    (button : Nat) : MouseButtonUp :=
  if button = 1 then
    { mouse := { mouse with lmb := false }
      rendered := highlight_cells screen mouse.rect false
      clipboard := some (vterm_screen_get_text screen mouse.rect)
      written := none }
  else if button = 2 then
    { mouse := { mouse with mmb := false }, rendered := [], clipboard := none, written := none }
  else if button = 3 then
    { mouse := { mouse with rmb := false }, rendered := [], clipboard := none,
      written := some clipboard_text }
  else { mouse := mouse, rendered := [], clipboard := none, written := none }

/-- A live screen whose cell at (row, col) holds the codepoint
`100 * row + col`. -/
def grid_screen : VTermScreen := fun pos => plain_cell (100 * pos.row.toNat + pos.col.toNat)

/-- The codepoints of the cells a list of render calls draws, in order. -/
def rendered_chars (calls : List RenderCall) : List Nat :=
  calls.flatMap (fun call => call.cell.chars)

/-! ### Resize debouncing -/

/-- One iteration of the main loop, as far as window events go: the window
events drained by the event loop, in order, and the tick `SDL_GetTicks()`
sampled after the drain. -/
structure LoopIteration where
  events : List SDL_WindowEvent
  now : Nat
deriving DecidableEq, Repr

/-- The event loop of `update_terminal_emulator` over the window events of one
iteration. -/
def handle_window_events (glyph_width glyph_height : Int) :
    TerminalEmulator → List SDL_WindowEvent → Option TerminalEmulator
  | t, [] => some t
  | t, event :: rest =>
    match handle_window_event glyph_width glyph_height t event with
    | none => none
    | some t1 => handle_window_events glyph_width glyph_height t1 rest

/-- One call of `update_terminal_emulator` in which only window events arrive
(the child process is silent): the event loop, then the tail. -/
def update_terminal_emulator_window (glyph_width glyph_height interval : Int)
    (screen : VTermScreen) (t : TerminalEmulator) (iteration : LoopIteration) :
    Option (TerminalEmulator × List TerminalEffect) :=
  match handle_window_events glyph_width glyph_height t iteration.events with
  | none => none
  | some t1 => some (update_terminal_emulator_timers interval screen t1 iteration.now)

/-- A run of the main loop over several iterations, with all effects in order. -/
def run_loop (glyph_width glyph_height interval : Int) (screen : VTermScreen) :
    TerminalEmulator → List LoopIteration → Option (TerminalEmulator × List TerminalEffect)
  | t, [] => some (t, [])
  | t, iteration :: rest =>
    match update_terminal_emulator_window glyph_width glyph_height interval screen t
        iteration with
    | none => none
    | some (t1, e1) =>
      match run_loop glyph_width glyph_height interval screen t1 rest with
      | none => none
      | some (t2, e2) => some (t2, e1 ++ e2)

/-- The effects of a structural resize among a list of effects: the
`TIOCSWINSZ` updates, the `vterm_set_size` calls and the window clears. -/
def structural_resizes (effects : List TerminalEffect) : List TerminalEffect :=
  effects.filter (fun e => match e with
    | TerminalEffect.ioctl_TIOCSWINSZ _ _ _ _ => true
    | TerminalEffect.vterm_set_size _ _ => true
    | TerminalEffect.clear_terminal_window => true
    | _ => false)

/-- The test of the block "Apply resize event" when the tick `now` has been
sampled: a resize is pending and more than 500 ticks have passed since the
tick recorded for it. -/
def resize_fires (t : TerminalEmulator) (now : Nat) : Prop :=
  t.ticks_resize > 0 ∧ uint32_sub now t.ticks_resize > 500

instance (t : TerminalEmulator) (now : Nat) : Decidable (resize_fires t now) :=
  inferInstanceAs (Decidable (_ ∧ _))

/-- The iteration `final` is the first one of `iterations ++ [final]` whose
tail sees a pending resize whose recorded tick lies more than 500 ticks back:
the burst is still going on during `iterations` and is over in `final`. -/
def resize_fires_first_in (glyph_width glyph_height interval : Int) (screen : VTermScreen) :
    TerminalEmulator → List LoopIteration → LoopIteration → Prop
  | t, [], final =>
    match handle_window_events glyph_width glyph_height t final.events with
    | none => False
    | some t1 => resize_fires t1 final.now
  | t, iteration :: rest, final =>
    match handle_window_events glyph_width glyph_height t iteration.events with
    | none => False
    | some t1 =>
      ¬ resize_fires t1 iteration.now ∧
      resize_fires_first_in glyph_width glyph_height interval screen
        (update_terminal_emulator_timers interval screen t1 iteration.now).1 rest final

/-- The effects of one structural resize to the given sizes: the window-size
update of the pseudo-terminal, the engine resize, the clear and the full
redraw of `rows x cols` cells. -/
def structural_resize_effects (screen : VTermScreen) (dims : Int × Int × Int × Int) :
    List TerminalEffect :=
  [TerminalEffect.ioctl_TIOCSWINSZ (dims.2.1 % 65536).toNat (dims.1 % 65536).toNat
      (dims.2.2.1 % 65536).toNat (dims.2.2.2 % 65536).toNat,
   TerminalEffect.vterm_set_size dims.1 dims.2.1,
   TerminalEffect.clear_terminal_window] ++
  (render_terminal_screen screen dims.1 dims.2.1).map
    (fun call => TerminalEffect.render_terminal_cell call.cell call.position)

/-- The size fields `(rows, cols, width, height)` of the terminal. -/
def TerminalEmulator.dims (t : TerminalEmulator) : Int × Int × Int × Int :=
  (t.rows, t.cols, t.width, t.height)

/-- The size fields after a list of `SIZE_CHANGED` events: those computed from
the last event, or the old ones when there is no event. -/
def dims_after (glyph_width glyph_height : Int) (dims : Int × Int × Int × Int)
    (events : List SDL_WindowEvent) : Int × Int × Int × Int :=
  match events.getLast? with
  | none => dims
  | some e => (map_to_row glyph_height e.data2, map_to_col glyph_width e.data1, e.data1, e.data2)

/-- A `SIZE_CHANGED` event stamped by SDL at `timestamp`. -/
def size_changed (timestamp : Nat) (width height : Int) : SDL_WindowEvent :=
  { timestamp := timestamp, event := SDL_WindowEventID.SDL_WINDOWEVENT_SIZE_CHANGED,
    data1 := width, data2 := height }

/-- A burst of two resize events 499 ms apart, seen by a loop whose iterations
end at the ticks 1010, 1495, 1505 and 2000. -/
def burst_499_apart : List LoopIteration :=
  [{ events := [size_changed 1000 16 32], now := 1010 },
   { events := [], now := 1495 },
   { events := [size_changed 1499 24 48], now := 1505 },
   { events := [], now := 2000 }]

/-- A resize event in the first loop iteration, while `terminal.ticks` is
still 0, followed by quiet iterations. -/
def burst_at_startup : List LoopIteration :=
  [{ events := [size_changed 5 16 32], now := 10 },
   { events := [], now := 600 },
   { events := [], now := 5000 }]

/-- Deciding `resize_fires_first_in` by running the loop's two steps. -/
def resize_fires_first_in_decidable (glyph_width glyph_height interval : Int)
    (screen : VTermScreen) (final : LoopIteration) :
    ∀ (iterations : List LoopIteration) (t : TerminalEmulator),
      Decidable (resize_fires_first_in glyph_width glyph_height interval screen t iterations final)
  | [], t =>
    match h : handle_window_events glyph_width glyph_height t final.events with
    | none => isFalse (by simp only [resize_fires_first_in, h, not_false_eq_true])
    | some t1 =>
      decidable_of_iff (resize_fires t1 final.now) (by simp only [resize_fires_first_in, h])
  | iteration :: rest, t =>
    match h : handle_window_events glyph_width glyph_height t iteration.events with
    | none => isFalse (by simp only [resize_fires_first_in, h, not_false_eq_true])
    | some t1 =>
      have := resize_fires_first_in_decidable glyph_width glyph_height interval screen final rest
        (update_terminal_emulator_timers interval screen t1 iteration.now).1
      decidable_of_iff
        (¬ resize_fires t1 iteration.now ∧
          resize_fires_first_in glyph_width glyph_height interval screen
            (update_terminal_emulator_timers interval screen t1 iteration.now).1 rest final)
        (by simp only [resize_fires_first_in, h])

instance (glyph_width glyph_height interval : Int) (screen : VTermScreen)
    (t : TerminalEmulator) (iterations : List LoopIteration) (final : LoopIteration) :
    Decidable (resize_fires_first_in glyph_width glyph_height interval screen t iterations final) :=
  resize_fires_first_in_decidable glyph_width glyph_height interval screen final iterations t

/-- A burst of two resize events whose last iteration ends at tick 1210, and
the first quiet iteration that ends more than 500 ticks later. -/
def burst_200_apart : List LoopIteration :=
  [{ events := [size_changed 1000 16 32], now := 1010 },
   { events := [size_changed 1200 24 48], now := 1210 }]

/-! ### Highlighting during a drag -/

/-- The colours `render_terminal_cell` computes for a cell: the foreground and
the background colour (converted to RGB, alpha 255), each channel complemented
(`~` on a `Uint8`) when the cell's `reverse` attribute is set. -/
def render_terminal_cell_colors (cell : VTermScreenCell) : SDL_Color × SDL_Color :=
  let fgcolor : SDL_Color :=
    { r := cell.fg.red % 256, g := cell.fg.green % 256, b := cell.fg.blue % 256, a := 255 }
  let bgcolor : SDL_Color :=
    { r := cell.bg.red % 256, g := cell.bg.green % 256, b := cell.bg.blue % 256, a := 255 }
  if cell.attrs.reverse then
    ({ fgcolor with r := 255 - fgcolor.r, g := 255 - fgcolor.g, b := 255 - fgcolor.b },
     { bgcolor with r := 255 - bgcolor.r, g := 255 - bgcolor.g, b := 255 - bgcolor.b })
  else (fgcolor, bgcolor)

/-- The copy of a cell with its `reverse` attribute flipped. -/
def VTermScreenCell.flip_reverse (cell : VTermScreenCell) : VTermScreenCell :=
  { cell with attrs := { cell.attrs with reverse := !cell.attrs.reverse } }

/-- The cell that the last of the calls at position `pos` rendered, if any call
rendered that position: what the window shows there afterwards. -/
def last_render (calls : List RenderCall) (pos : VTermPos) : Option VTermScreenCell :=
  ((calls.filter (fun call => decide (call.position = pos))).getLast?).map RenderCall.cell

/-- A sequence of mouse motions `(x, y)`, in order: the final mouse state and
all the cells rendered. -/
def on_mouse_motions_calls (glyph_width glyph_height : Int) (screen : VTermScreen) :
    MouseState → List (Int × Int) → Option (MouseState × List RenderCall)
  | mouse, [] => some (mouse, [])
  | mouse, m :: rest =>
    match on_mouse_motion glyph_width glyph_height screen mouse m.1 m.2 with
    | none => none
    | some (mouse1, calls1) =>
      match on_mouse_motions_calls glyph_width glyph_height screen mouse1 rest with
      | none => none
      | some (mouse2, calls2) => some (mouse2, calls1 ++ calls2)

/-- A drag: the primary button goes down, the mouse moves, the primary button
goes up. The final mouse state and all the cells rendered, in order. -/
def drag_and_release (glyph_width glyph_height : Int) (screen : VTermScreen)
    (clipboard_text : List Nat) (mouse : MouseState) (motions : List (Int × Int)) :
    Option (MouseState × List RenderCall) :=
  match on_mouse_motions_calls glyph_width glyph_height screen
      (on_mouse_button_down mouse 1) motions with
  | none => none
  | some (mouse1, calls) =>
    some ((on_mouse_button_up screen clipboard_text mouse1 1).mouse,
      calls ++ (on_mouse_button_up screen clipboard_text mouse1 1).rendered)

/-- A live screen with a reversed cell at (6, 6) among plain ones. -/
def screen_with_reversed_cell : VTermScreen := fun pos =>
  if pos = { row := 6, col := 6 } then (plain_cell 120).flip_reverse else plain_cell 97

/-! ### The whole of `update_terminal_emulator`: output, events, present -/

/-- The function `clear_terminal_window`: clear the render target, set the
dirty flag. -/
def clear_terminal_window (t : TerminalEmulator) : TerminalEmulator × List TerminalEffect :=
  ({ t with dirty := true }, [TerminalEffect.clear_terminal_window])

/-- The function `flood_cell`: fill the cell's rectangle, set the dirty flag. -/
def flood_cell (t : TerminalEmulator) (position : VTermPos) (color : SDL_Color) :
    TerminalEmulator × List TerminalEffect :=
  ({ t with dirty := true }, [TerminalEffect.flood_cell position color])

/-- The function `render_terminal_cell`: flood the cell with its background,
draw its glyph, set the dirty flag. -/
def render_terminal_cell (t : TerminalEmulator) (cell : VTermScreenCell)
    (position : VTermPos) : TerminalEmulator × List TerminalEffect :=
  ({ t with dirty := true }, [TerminalEffect.render_terminal_cell cell position])

/-- A sequence of `render_terminal_cell` calls, in order, as the rendering
loops make them. -/
def render_terminal_cells :
    TerminalEmulator → List RenderCall → TerminalEmulator × List TerminalEffect
  | t, [] => (t, [])
  | t, call :: rest =>
    let r1 := render_terminal_cell t call.cell call.position
    let r2 := render_terminal_cells r1.1 rest
    (r2.1, r1.2 ++ r2.2)

/-- The notifications of the engine (`VTermScreenCallbacks`), with their
arguments. -/
inductive VTermScreenCallback where
  | damage (rect : VTermRect)
  | moverect (dest src : VTermRect)
  | movecursor (pos oldpos : VTermPos) (visible : Int)
  | settermprop
  | bell
  | sb_pushline (cols : Int) (cells : List VTermScreenCell)
  | sb_popline
  | sb_clear
deriving DecidableEq, Repr

/-- The callback `terminal_damage`: `render_terminal_rect(&rect)`. -/
def terminal_damage (screen : VTermScreen) (t : TerminalEmulator) (rect : VTermRect) :
    TerminalEmulator × List TerminalEffect :=
  render_terminal_cells t (render_terminal_rect screen rect)

/-- The callback `terminal_moverect(dest, src)`: record the destination and
the pending flush; it calls nothing. -/
def terminal_moverect (t : TerminalEmulator) (dest _src : VTermRect) :
    TerminalEmulator × List TerminalEffect :=
  ({ t with batch_rect := dest, batch_flush := true }, [])

/-- The callback `terminal_sb_clear`: `clear_terminal_window()`. -/
def terminal_sb_clear (t : TerminalEmulator) : TerminalEmulator × List TerminalEffect :=
  clear_terminal_window t

/-- One notification of the engine, dispatched to its callback of `main.c`;
`terminal_settermprop` and `terminal_sb_popline` only return 0. -/
def vterm_callback (configuration : HistoryConfiguration) (screen : VTermScreen)
    (t : TerminalEmulator) : VTermScreenCallback → Option (TerminalEmulator × List TerminalEffect)
  | VTermScreenCallback.damage rect => some (terminal_damage screen t rect)
  | VTermScreenCallback.moverect dest src => some (terminal_moverect t dest src)
  | VTermScreenCallback.movecursor pos oldpos visible =>
    some (terminal_movecursor screen t pos oldpos visible)
  | VTermScreenCallback.settermprop => some (t, [])
  | VTermScreenCallback.bell => some (terminal_bell t)
  | VTermScreenCallback.sb_pushline cols cells =>
    match terminal_sb_pushline configuration t.history cols cells with
    | none => none
    | some history => some ({ t with history := history }, [])
  | VTermScreenCallback.sb_popline => some (t, [])
  | VTermScreenCallback.sb_clear => some (terminal_sb_clear t)

/-- The notifications the engine delivers while `vterm_input_write` processes
the child's output, in order. -/
def vterm_callbacks (configuration : HistoryConfiguration) (screen : VTermScreen) :
    TerminalEmulator → List VTermScreenCallback →
      Option (TerminalEmulator × List TerminalEffect)
  | t, [] => some (t, [])
  | t, callback :: rest =>
    match vterm_callback configuration screen t callback with
    | none => none
    | some (t1, e1) =>
      match vterm_callbacks configuration screen t1 rest with
      | none => none
      | some (t2, e2) => some (t2, e1 ++ e2)

/-- The flush of `update_terminal_emulator`:
`if (batch.flush) { batch.flush = false; render_terminal_rect(&batch.rect); }`. -/
def flush_batch (screen : VTermScreen) (t : TerminalEmulator) :
    TerminalEmulator × List TerminalEffect :=
  if t.batch_flush then
    render_terminal_cells { t with batch_flush := false }
      (render_terminal_rect screen t.batch_rect)
  else (t, [])

/-- The block "Terminal child process events" of `update_terminal_emulator`:
with a running child, the output read is fed to the engine, which delivers
`callbacks` (none when nothing was read), then the batch is flushed; without,
an `SDL_QUIT` event is pushed. The cells are read from one `screen`. -/
def process_child_output (configuration : HistoryConfiguration) (screen : VTermScreen)
    (t : TerminalEmulator) (running : Bool) (callbacks : List VTermScreenCallback) :
    Option (TerminalEmulator × List TerminalEffect) :=
  if running then
    match vterm_callbacks configuration screen t callbacks with
    | none => none
    | some (t1, e1) => some ((flush_batch screen t1).1, e1 ++ (flush_batch screen t1).2)
  else some (t, [])

/-- The SDL events that the event loop of `update_terminal_emulator`
distinguishes. Of a key press only whether it is F11 matters to the terminal
state; `clipboard_text` is what `SDL_GetClipboardText` returns at a button
release. -/
inductive SDL_Event where
  | SDL_QUIT
  | SDL_WINDOWEVENT (window : SDL_WindowEvent)
  | SDL_KEYDOWN (f11 : Bool)
  | SDL_MOUSEBUTTONDOWN (button : Nat)
  | SDL_MOUSEBUTTONUP (button : Nat) (clipboard_text : List Nat)
  | SDL_MOUSEMOTION (x y : Int)
  | SDL_MOUSEWHEEL (y : Int)
  | SDL_TEXTINPUT
  | other
deriving DecidableEq, Repr

/-- One arm of the `switch (event.type)` of the event loop. What is written to
the child process and to the clipboard is not recorded in the effects. -/
def handle_event (glyph_width glyph_height : Int) (screen : VTermScreen)
    (t : TerminalEmulator) : SDL_Event → Option (TerminalEmulator × List TerminalEffect)
  | SDL_Event.SDL_QUIT => some (t, [])
  | SDL_Event.SDL_WINDOWEVENT window =>
    match handle_window_event glyph_width glyph_height t window with
    | none => none
    | some t1 => some (t1, [])
  | SDL_Event.SDL_KEYDOWN f11 =>
    some (if f11 then { t with fullscreen := !t.fullscreen } else t, [])
  | SDL_Event.SDL_MOUSEBUTTONDOWN button =>
    some ({ t with mouse := on_mouse_button_down t.mouse button }, [])
  | SDL_Event.SDL_MOUSEBUTTONUP button clipboard_text =>
    let r := on_mouse_button_up screen clipboard_text t.mouse button
    some (render_terminal_cells { t with mouse := r.mouse } r.rendered)
  | SDL_Event.SDL_MOUSEMOTION x y =>
    match on_mouse_motion glyph_width glyph_height screen t.mouse x y with
    | none => none
    | some (mouse, calls) => some (render_terminal_cells { t with mouse := mouse } calls)
  | SDL_Event.SDL_MOUSEWHEEL y =>
    match on_mouse_wheel screen t.history t.rows t.cols y with
    | none => none
    | some (history, calls) => some (render_terminal_cells { t with history := history } calls)
  | SDL_Event.SDL_TEXTINPUT => some (t, [])
  | SDL_Event.other => some (t, [])

/-- The event loop of `update_terminal_emulator` over the events it drains. -/
def handle_events (glyph_width glyph_height : Int) (screen : VTermScreen) :
    TerminalEmulator → List SDL_Event → Option (TerminalEmulator × List TerminalEffect)
  | t, [] => some (t, [])
  | t, event :: rest =>
    match handle_event glyph_width glyph_height screen t event with
    | none => none
    | some (t1, e1) =>
      match handle_events glyph_width glyph_height screen t1 rest with
      | none => none
      | some (t2, e2) => some (t2, e1 ++ e2)

/-- What one call of `update_terminal_emulator` meets: whether the child is
running, the notifications the engine delivers for the output read, the SDL
events drained, and the tick `SDL_GetTicks()` sampled after the drain. -/
structure UpdateInput where
  running : Bool
  callbacks : List VTermScreenCallback
  events : List SDL_Event
  now : Nat
deriving DecidableEq, Repr

/-- The first half of `update_terminal_emulator`: the child's output and the
event loop. The third component is `keep_running`: false once an `SDL_QUIT`
event was drained, which includes the one pushed when the child is gone. -/
def update_terminal_emulator_events (glyph_width glyph_height : Int)
    (configuration : HistoryConfiguration) (screen : VTermScreen) (t : TerminalEmulator)
    (input : UpdateInput) : Option (TerminalEmulator × List TerminalEffect × Bool) :=
  match process_child_output configuration screen t input.running input.callbacks with
  | none => none
  | some (t1, e1) =>
    match handle_events glyph_width glyph_height screen t1 input.events with
    | none => none
    | some (t2, e2) =>
      some (t2, e1 ++ e2, input.running && !input.events.contains SDL_Event.SDL_QUIT)

/-- The blocks "Apply resize event" and "Update terminal cell cursor" of
`update_terminal_emulator`, after the tick has been sampled: the state and the
effects just before the block "Trigger screen refresh". -/
def update_terminal_emulator_before_refresh (interval : Int) (screen : VTermScreen)
    (t : TerminalEmulator) (now : Nat) : TerminalEmulator × List TerminalEffect :=
  let r1 := apply_resize_event screen { t with ticks := now }
  let r2 := update_terminal_cursor interval screen r1.1
  (r2.1, r1.2 ++ r2.2)

/-- The function `update_terminal_emulator`: one iteration of the main loop.
Returns the state, the effects in call order, and `keep_running`. -/
def update_terminal_emulator (glyph_width glyph_height interval : Int)
    (configuration : HistoryConfiguration) (screen : VTermScreen) (t : TerminalEmulator)
    (input : UpdateInput) : Option (TerminalEmulator × List TerminalEffect × Bool) :=
  match update_terminal_emulator_events glyph_width glyph_height configuration screen t
      input with
  | none => none
  | some (t1, e1, keep_running) =>
    some ((update_terminal_emulator_timers interval screen t1 input.now).1,
      e1 ++ (update_terminal_emulator_timers interval screen t1 input.now).2, keep_running)

/-- The number of `SDL_RenderPresent` calls among the effects. -/
def presents (effects : List TerminalEffect) : Nat :=
  effects.count TerminalEffect.SDL_RenderPresent

/-- The effect changes pixels of the render target. -/
def TerminalEffect.changes_pixels : TerminalEffect → Bool
  | TerminalEffect.render_terminal_cell _ _ => true
  | TerminalEffect.flood_cell _ _ => true
  | TerminalEffect.clear_terminal_window => true
  | _ => false

/-- The state after a sequence of move-rect notifications `(dest, src)`. -/
def terminal_moverects : TerminalEmulator → List (VTermRect × VTermRect) → TerminalEmulator
  | t, [] => t
  | t, m :: rest => terminal_moverects (terminal_moverect t m.1 m.2).1 rest

/-- The step `r` from state `t` keeps the dirty flag in step with the pixels:
the flag afterwards is set exactly when it was set before or the step changed
pixels, and the step does not present. -/
def dirty_tracks (t : TerminalEmulator) (r : TerminalEmulator × List TerminalEffect) : Prop :=
  r.1.dirty = (t.dirty || r.2.any TerminalEffect.changes_pixels) ∧ presents r.2 = 0

/-- An input of `update_terminal_emulator` with engine notifications, a mouse
motion and a key press. -/
def sample_update_input : UpdateInput :=
  { running := true
    callbacks := [VTermScreenCallback.damage ⟨0, 1, 0, 2⟩,
      VTermScreenCallback.moverect ⟨1, 2, 0, 1⟩ ⟨0, 1, 0, 1⟩, VTermScreenCallback.bell]
    events := [SDL_Event.SDL_MOUSEMOTION 8 16, SDL_Event.SDL_KEYDOWN false]
    now := 1500 }

/-- A history configuration with history enabled. -/
def history_enabled : HistoryConfiguration := { limit := 0, infinite := false, enable := true }

/-! ### The bound of the page array -/

/-- The index that `append_page` writes: `pages[num_pages++] = create_page(..)`
stores at the current `num_pages`. -/
def append_page_index (font : FOX_Font) : Nat := font.num_pages

/-! ### The loader `ini_load_file` -/

/-- The function `SDL_isspace`: space, `\t`, `\n`, `\v`, `\f`, `\r`. -/
def SDL_isspace (c : Char) : Bool :=
  decide (c.toNat = 32) || (decide (9 ≤ c.toNat) && decide (c.toNat ≤ 13))

/-- The line feed character. -/
def line_feed : Char := Char.ofNat 10

/-- One call `fgets(line, size + 1, fp)` on a stream that is not at its end:
at most `size` characters, up to and including the first line feed. Returns
the characters read and the rest of the stream. -/
def fgets : Nat → List Char → List Char × List Char
  | 0, stream => ([], stream)
  | _, [] => ([], [])
  | size + 1, c :: stream =>
    if c = line_feed then ([c], stream)
    else ((fgets size stream).1.cons c, (fgets size stream).2)

/-- The lines that the loop `while (fgets(line, sizeof(line), fp))` of
`ini_load_file` sees, `line` being 128 bytes long: `fgets` returns `NULL` at
the end of the stream. At most `fuel` lines are read; every call on a stream
that is not at its end consumes a character, so the length of the stream is
fuel enough. -/
def read_lines : Nat → List Char → List (List Char)
  | 0, _ => []
  | fuel + 1, stream =>
    if stream = [] then []
    else (fgets 127 stream).1 :: read_lines fuel (fgets 127 stream).2

/-- The buffer as the string functions of C see it: the characters before the
first NUL. -/
def c_string (buffer : List Char) : List Char := buffer.takeWhile (fun c => c ≠ Char.ofNat 0)

/-- The function `line_is_empty`: only white space up to the end of the string. -/
def line_is_empty (line : List Char) : Bool := (line.dropWhile SDL_isspace).isEmpty

/-- The function `line_is_comment`: `line[0] == '#'`. -/
def line_is_comment (line : List Char) : Bool := line.head? = some '#'

/-- The string with the white space at its end dropped: what is left of it
after a loop `while (SDL_isspace(*endptr)) { *endptr = 0; endptr--; }` that
starts at its last character and stops inside it. -/
def trim_end (text : List Char) : List Char := (text.reverse.dropWhile SDL_isspace).reverse

/-- The number of elements of the array `items` of `struct IniFile`:
`sizeof(ini->items)/sizeof(ini->items[0])`. -/
def ini_items_capacity : Nat := 32

/-- The statement `item->kind = ..; item->name = ..; item->value = ..;` on the
slot `&ini->items[index]` that the increment `num_items++` has just counted:
a store past the end of the array `items` is undefined. -/
def ini_store_item (ini : IniFile) (index : Nat) (item : IniFileItem) : Option IniFile :=
  if index < ini_items_capacity then some { items := ini.items ++ [some item] } else none

/-- The slot counted by `num_items++` is left as it came from `SDL_malloc`:
the `continue` of a line that does not parse. -/
def ini_skip_item (ini : IniFile) : IniFile := { items := ini.items ++ [none] }

/-- The body of the loop of `ini_load_file` for one line read by `fgets`.
Returns the file read so far and whether the loop goes on (`false` is the
`break`). The slot is counted before the line is looked at. For a key line
whose name is empty the scan `while (SDL_isspace(*endptr))` runs backwards out
of the buffer, which is undefined. -/
def ini_load_line (ini : IniFile) (buffer : List Char) : Option (IniFile × Bool) :=
  let line := c_string buffer
  if line_is_comment line ∨ line_is_empty line then some (ini, true)
  else if ini.num_items > ini_items_capacity then some (ini, false)
  else
    let index := ini.num_items
    if line.head? = some '[' then
      if ']' ∈ line then
        (ini_store_item ini index
          { kind := IniFileItemKind.IniFile_Section
            name := String.mk ((line.drop 1).takeWhile (fun c => c ≠ ']'))
            value := none }).map (fun ini1 => (ini1, true))
      else some (ini_skip_item ini, true)
    else
      let lineptr := line.dropWhile SDL_isspace
      if '=' ∈ lineptr then
        let name := lineptr.takeWhile (fun c => c ≠ '=')
        if name = [] then none
        else
          let value := (((lineptr.dropWhile (fun c => c ≠ '=')).drop 1).dropWhile SDL_isspace)
          (ini_store_item ini index
            { kind := IniFileItemKind.IniFile_Item
              name := String.mk (trim_end name)
              value := some (String.mk
                (if line_feed ∈ value then trim_end (value.takeWhile (fun c => c ≠ line_feed))
                 else value)) }).map (fun ini1 => (ini1, true))
      else some (ini_skip_item ini, true)

/-- The loop of `ini_load_file` over the lines read. -/
def ini_load_lines : IniFile → List (List Char) → Option IniFile
  | ini, [] => some ini
  | ini, line :: rest =>
    match ini_load_line ini line with
    | none => none
    | some (ini1, true) => ini_load_lines ini1 rest
    | some (ini1, false) => some ini1

/-- The function `ini_load_file` on a file that `fopen` opens, with the given
content; `none` is undefined behaviour. -/
def ini_load_file (content : List Char) : Option IniFile :=
  ini_load_lines { items := [] } (read_lines content.length content)

/-- The text of `n` key lines `k=v`. -/
def key_lines (n : Nat) : List Char := (List.range n).flatMap (fun _ => "k=v\n".data)

/-! ### UTF-8 decoding in `FOX_DrawText` -/

/-- The `FOX_Utf8` struct: `mask` and `lead` are `unsigned char`,
`bits_stored` is an `int`. -/
structure FOX_Utf8 where
  mask : Nat
  lead : Nat
  bits_stored : Int
deriving DecidableEq, Repr

/-- The entry `FOX_utf[0]`: the mask, lead bits and payload width of a
continuation byte. -/
def FOX_utf_0 : FOX_Utf8 := ⟨0x3f, 0x80, 6⟩

/-- The table `FOX_utf`, without its `NULL` terminator. -/
def FOX_utf : List FOX_Utf8 :=
  [FOX_utf_0, ⟨0x7f, 0, 7⟩, ⟨0x1f, 0xc0, 5⟩, ⟨0xf, 0xe0, 4⟩, ⟨0x7, 0xf0, 3⟩]

/-- The loop of `FOX_Utf8Length` from some entry of the table on: the number
of entries before the first one with `(ch & ~mask) == lead`. The operands are
promoted to `int`, so `~mask` is the complement on 32 bits. -/
def FOX_Utf8Length_loop (ch : Nat) : List FOX_Utf8 → Nat
  | [] => 0
  | u :: rest =>
    if ch &&& (2 ^ 32 - 1 - u.mask) = u.lead then 0 else FOX_Utf8Length_loop ch rest + 1

/-- The function `FOX_Utf8Length` of a byte. -/
def FOX_Utf8Length (ch : Nat) : Int :=
  if FOX_Utf8Length_loop ch FOX_utf > 4 then -1 else (FOX_Utf8Length_loop ch FOX_utf : Int)

/-- The conversion `(char)` of a byte, `char` being signed. -/
def to_char (byte : Nat) : Int := if byte < 128 then (byte : Int) else (byte : Int) - 256

/-- The loop of `FOX_Utf8Decode` over the bytes after the first, with `count`
iterations left: `shift -= FOX_utf[0]->bits_stored;
codep |= ((char)*sequence & FOX_utf[0]->mask) << shift`. Reading past the
buffer and shifting by a negative count are undefined. -/
def FOX_Utf8Decode_loop : Nat → Int → Nat → List Nat → Option Nat
  | 0, _, codep, _ => some codep
  | _ + 1, _, _, [] => none
  | count + 1, shift, codep, byte :: rest =>
    if shift - FOX_utf_0.bits_stored < 0 then none
    else
      FOX_Utf8Decode_loop count (shift - FOX_utf_0.bits_stored)
        ((codep ||| ((to_uint32 (to_char byte) &&& FOX_utf_0.mask) <<<
          (shift - FOX_utf_0.bits_stored).toNat)) % 2 ^ 32) rest

/-- The function `FOX_Utf8Decode` on the bytes from `sequence` to the end of
the buffer: the code point, and the offset from `sequence` of the byte that
`*endptr` is set to. Undefined for a first byte of length -1 (`FOX_utf[-1]`)
and of length 0 (shift by -6). -/
def FOX_Utf8Decode (sequence : List Nat) : Option (Nat × Nat) :=
  match sequence with
  | [] => none
  | first :: rest =>
    let bytes := FOX_Utf8Length first
    let shift := FOX_utf_0.bits_stored * (bytes - 1)
    if bytes < 0 then none
    else
      match FOX_utf[bytes.toNat]? with
      | none => none
      | some u =>
        if shift < 0 then none
        else
          match FOX_Utf8Decode_loop (bytes.toNat - 1) shift
              (((first &&& u.mask) <<< shift.toNat) % 2 ^ 32) rest with
          | none => none
          | some codep => some (codep, bytes.toNat - 1)

/-- The loop `for (; *text; text++) { ch = FOX_Utf8Decode(text, &text); .. }`
of `FOX_DrawText`, with `fuel` iterations left: the code points decoded from
the buffer, in order, up to the terminating NUL. Every iteration advances by
at least one byte. -/
def FOX_DrawText_loop : Nat → List Nat → Option (List Nat)
  | 0, _ => none
  | _ + 1, [] => none
  | fuel + 1, byte :: rest =>
    if byte = 0 then some []
    else
      match FOX_Utf8Decode (byte :: rest) with
      | none => none
      | some (ch, last) =>
        match FOX_DrawText_loop fuel ((byte :: rest).drop (last + 1)) with
        | none => none
        | some chars => some (ch :: chars)

/-- The code points that `FOX_DrawText` decodes from its formatted buffer. -/
def FOX_DrawText_decode (buffer : List Nat) : Option (List Nat) :=
  FOX_DrawText_loop (buffer.length + 1) buffer

/-- The standard UTF-8 encoding of a code point (RFC 3629): the reference of
the claim, not taken from the source. -/
def utf8_encode (c : Nat) : List Nat :=
  if c < 0x80 then [c]
  else if c < 0x800 then [0xc0 + c / 64, 0x80 + c % 64]
  else if c < 0x10000 then [0xe0 + c / 4096, 0x80 + c / 64 % 64, 0x80 + c % 64]
  else [0xf0 + c / 262144, 0x80 + c / 4096 % 64, 0x80 + c / 64 % 64, 0x80 + c % 64]

/-! # Theorems -/

/-! ## Lemmas on the atlas lookup -/

theorem find_slot_eq_none (glyph : Nat) (l : List Nat) :
    find_slot glyph l = none ↔ glyph ∉ l := by
  induction l with
  | nil => simp [find_slot]
  | cons a rest ih =>
    by_cases h : a = glyph
    · simp [find_slot, h]
    · have h2 : ¬ glyph = a := fun e => h e.symm
      simp [find_slot, h, h2, ih]

theorem find_slot_eq_some (glyph : Nat) (l : List Nat) (k : Nat) :
    find_slot glyph l = some k ↔
      l[k]? = some glyph ∧ ∀ j, j < k → l[j]? ≠ some glyph := by
  induction l generalizing k with
  | nil => simp [find_slot]
  | cons a rest ih =>
    by_cases h : a = glyph
    · simp only [find_slot, h, if_true, Option.some.injEq]
      constructor
      · intro e
        subst e
        simp
      · rintro ⟨_, h2⟩
        cases k with
        | zero => rfl
        | succ k => exact absurd (by simp) (h2 0 (Nat.succ_pos k))
    · simp only [find_slot, h, if_false, Option.map_eq_some']
      constructor
      · rintro ⟨k0, hk0, rfl⟩
        obtain ⟨h1, h2⟩ := (ih k0).1 hk0
        refine ⟨by simpa using h1, ?_⟩
        intro j hj
        cases j with
        | zero => simpa using h
        | succ j => simpa using h2 j (by omega)
      · rintro ⟨h1, h2⟩
        cases k with
        | zero => simp at h1; exact absurd h1 h
        | succ k =>
          refine ⟨k, (ih k).2 ⟨by simpa using h1, ?_⟩, rfl⟩
          intro j hj
          simpa using h2 (j + 1) (by omega)

theorem find_glyph_pages_eq_none (glyph : Nat) (pages : List FOX_Page) :
    find_glyph_pages glyph pages = none ↔ ∀ page ∈ pages, glyph ∉ page.used := by
  induction pages with
  | nil => simp [find_glyph_pages]
  | cons page rest ih =>
    cases hs : find_slot glyph page.used with
    | none =>
      have := (find_slot_eq_none glyph page.used).1 hs
      simp [find_glyph_pages, hs, ih, this]
    | some ch =>
      have h1 : glyph ∈ page.used := by
        by_contra hc
        rw [(find_slot_eq_none glyph page.used).2 hc] at hs
        cases hs
      simp [find_glyph_pages, hs, h1]

theorem find_glyph_pages_eq_some (glyph : Nat) (pages : List FOX_Page) (i index : Nat) :
    find_glyph_pages glyph pages = some (i, index) ↔
      ∃ page, pages[i]? = some page ∧ find_slot glyph page.used = some index ∧
        ∀ j page1, j < i → pages[j]? = some page1 → glyph ∉ page1.used := by
  induction pages generalizing i with
  | nil => simp [find_glyph_pages]
  | cons page rest ih =>
    cases hs : find_slot glyph page.used with
    | none =>
      have hn := (find_slot_eq_none glyph page.used).1 hs
      simp only [find_glyph_pages, hs, Option.map_eq_some']
      constructor
      · rintro ⟨⟨i0, ix0⟩, h0, he⟩
        simp only [Prod.mk.injEq] at he
        obtain ⟨rfl, rfl⟩ := he
        obtain ⟨page2, h1, h2, h3⟩ := (ih i0).1 h0
        refine ⟨page2, by simpa using h1, h2, ?_⟩
        intro j page1 hj hp
        cases j with
        | zero =>
          simp at hp
          subst hp
          exact hn
        | succ j => exact h3 j page1 (by omega) (by simpa using hp)
      · rintro ⟨page2, h1, h2, h3⟩
        cases i with
        | zero =>
          simp at h1
          subst h1
          rw [hs] at h2
          cases h2
        | succ i =>
          refine ⟨(i, index), (ih i).2 ⟨page2, by simpa using h1, h2, ?_⟩, rfl⟩
          intro j page1 hj hp
          exact h3 (j + 1) page1 (by omega) (by simpa using hp)
    | some ch =>
      have hm : glyph ∈ page.used := by
        by_contra hc
        rw [(find_slot_eq_none glyph page.used).2 hc] at hs
        cases hs
      simp only [find_glyph_pages, hs, Option.some.injEq, Prod.mk.injEq]
      constructor
      · rintro ⟨rfl, rfl⟩
        exact ⟨page, by simp, hs, by intro j _ hj; omega⟩
      · rintro ⟨page2, h1, h2, h3⟩
        cases i with
        | zero =>
          simp at h1
          subst h1
          rw [hs] at h2
          exact ⟨rfl, by simpa using h2⟩
        | succ i => exact absurd hm (h3 0 page (Nat.succ_pos i) (by simp))

theorem find_glyph_of_cached (font : FOX_Font) (glyph : Nat) (h : font.cached glyph) :
    ∃ i index page, find_glyph font glyph = some (i, index) ∧
      font.pages[i]? = some page ∧ page.used[index]? = some glyph ∧
      ∀ j page1 k, font.pages[j]? = some page1 → page1.used[k]? = some glyph →
        i < j ∨ (i = j ∧ index ≤ k) := by
  cases hf : find_glyph font glyph with
  | none =>
    obtain ⟨page, hp, hg⟩ := h
    exact absurd hg ((find_glyph_pages_eq_none glyph font.pages).1 hf page hp)
  | some r =>
    obtain ⟨i, index⟩ := r
    obtain ⟨page, h1, h2, h3⟩ := (find_glyph_pages_eq_some glyph font.pages i index).1 hf
    obtain ⟨h4, h5⟩ := (find_slot_eq_some glyph page.used index).1 h2
    refine ⟨i, index, page, rfl, h1, h4, ?_⟩
    intro j page1 k hj hk
    rcases Nat.lt_trichotomy i j with hlt | heq | hgt
    · exact Or.inl hlt
    · subst heq
      rw [h1] at hj
      cases hj
      refine Or.inr ⟨rfl, ?_⟩
      by_contra hc
      exact h5 k (by omega) hk
    · exact absurd (List.getElem?_mem hk) (h3 j page1 hgt hj)

theorem render_glyph_of_find (font : FOX_Font) (position : SDL_Point) (glyph i index : Nat)
    (page : FOX_Page) (hf : find_glyph font glyph = some (i, index))
    (hp : font.pages[i]? = some page) :
    render_glyph font position glyph = some (font,
      [FOX_Effect.copy_to_screen i (get_srcrect font page index)
        { x := position.x, y := position.y, w := font.font_width, h := font.font_height }]) := by
  simp [render_glyph, hf, blit_glyph, hp]

theorem rasterizations_append (a b : List FOX_Effect) :
    rasterizations (a ++ b) = rasterizations a + rasterizations b := by
  simp [rasterizations]

theorem FOX_DrawGlyph_of_cached (renderer : SDL_Renderer) (provided : Nat → Bool)
    (font : FOX_Font) (position : SDL_Point) (glyph : Nat) (h : font.cached glyph) :
    ∃ effects, FOX_DrawGlyph renderer provided font position glyph = some (font, effects) ∧
      rasterizations effects = 0 := by
  obtain ⟨i, index, page, hf, hp, _, _⟩ := find_glyph_of_cached font glyph h
  unfold FOX_DrawGlyph
  split
  · exact ⟨[], rfl, rfl⟩
  · split
    · exact ⟨[], rfl, rfl⟩
    · exact ⟨_, render_glyph_of_find font position glyph i index page hf hp, rfl⟩

theorem FOX_DrawGlyphs_of_cached (renderer : SDL_Renderer) (provided : Nat → Bool)
    (font : FOX_Font) (glyph : Nat) (h : font.cached glyph) (positions : List SDL_Point) :
    ∃ effects, FOX_DrawGlyphs renderer provided font
        (positions.map (fun p => (p, glyph))) = some (font, effects) ∧
      rasterizations effects = 0 := by
  induction positions with
  | nil => exact ⟨[], rfl, rfl⟩
  | cons p rest ih =>
    obtain ⟨e1, h1, r1⟩ := FOX_DrawGlyph_of_cached renderer provided font p glyph h
    obtain ⟨e2, h2, r2⟩ := ih
    refine ⟨e1 ++ e2, ?_, ?_⟩
    · simp only [List.map_cons, FOX_DrawGlyphs, h1, h2]
    · rw [rasterizations_append, r1, r2]

theorem first_free_page_eq_some (pages : List FOX_Page) (i : Nat)
    (h : first_free_page pages = some i) :
    ∃ page, pages[i]? = some page ∧ page.num_glyphs < page.glyph_capacity ∧
      ∀ j page1, j < i → pages[j]? = some page1 → ¬ page1.num_glyphs < page1.glyph_capacity := by
  induction pages generalizing i with
  | nil => simp [first_free_page] at h
  | cons page rest ih =>
    by_cases hp : page.num_glyphs < page.glyph_capacity
    · simp only [first_free_page, hp, if_true, Option.some.injEq] at h
      subst h
      exact ⟨page, by simp, hp, by intro j _ hj; omega⟩
    · simp only [first_free_page, hp, if_false, Option.map_eq_some'] at h
      obtain ⟨i0, h0, rfl⟩ := h
      obtain ⟨page2, h1, h2, h3⟩ := ih i0 h0
      refine ⟨page2, by simpa using h1, h2, ?_⟩
      intro j page1 hj hj1
      cases j with
      | zero =>
        simp at hj1
        subst hj1
        exact hp
      | succ j => exact h3 j page1 (by omega) (by simpa using hj1)

theorem first_free_page_eq_none (pages : List FOX_Page) (h : first_free_page pages = none) :
    ∀ page ∈ pages, ¬ page.num_glyphs < page.glyph_capacity := by
  induction pages with
  | nil => simp
  | cons page rest ih =>
    by_cases hp : page.num_glyphs < page.glyph_capacity
    · simp [first_free_page, hp] at h
    · simp only [first_free_page, hp, if_false, Option.map_eq_none'] at h
      intro page1 h1
      rcases List.mem_cons.1 h1 with rfl | h2
      · exact hp
      · exact ih h page1 h2

/-- What a successful `append_glyph` did, read off its definition. -/
theorem append_glyph_eq_some (font font1 : FOX_Font) (glyph i index : Nat)
    (effects : List FOX_Effect)
    (h : append_glyph font glyph = some (font1, i, index, effects)) :
    ∃ font0 page, find_free_page font = some (font0, i) ∧ font0.pages[i]? = some page ∧
      index = page.num_glyphs ∧ page.num_glyphs < page.atlas.length ∧
      font1 = { font0 with pages := font0.pages.set i (page.store glyph) } ∧
      effects = [FOX_Effect.create_glyph glyph,
        FOX_Effect.copy_to_page i (append_glyph_dstrect font0 page)] := by
  unfold append_glyph at h
  cases hf : find_free_page font with
  | none => simp [hf] at h
  | some r =>
    obtain ⟨font0, i0⟩ := r
    simp only [hf] at h
    cases hp : font0.pages[i0]? with
    | none => simp [hp] at h
    | some page =>
      simp only [hp] at h
      by_cases hlt : page.num_glyphs < page.atlas.length
      · simp only [hlt, if_true, Option.some.injEq, Prod.mk.injEq] at h
        obtain ⟨h1, h2, h3, h4⟩ := h
        subst h2
        exact ⟨font0, page, rfl, hp, h3.symm, hlt, h1.symm, h4.symm⟩
      · simp [hlt] at h

/-- The page `find_free_page` returns has fewer than 65535 glyphs when the
fields are 16-bit: it has room, or it is new. -/
theorem find_free_page_num_glyphs (font font0 : FOX_Font) (i : Nat) (page : FOX_Page)
    (ht : font.well_typed) (h : find_free_page font = some (font0, i))
    (hp : font0.pages[i]? = some page) : page.num_glyphs + 1 < 65536 := by
  unfold find_free_page at h
  cases hf : first_free_page font.pages with
  | some i0 =>
    simp only [hf, Option.some.injEq, Prod.mk.injEq] at h
    obtain ⟨rfl, rfl⟩ := h
    obtain ⟨page2, h1, h2, _⟩ := first_free_page_eq_some font.pages i0 hf
    rw [hp] at h1
    cases h1
    have := (ht page (List.getElem?_mem hp)).2
    omega
  | none =>
    simp only [hf, append_page] at h
    by_cases h10 : font.pages.length < 10
    · simp only [h10, if_true] at h
      cases hc : create_page font.font_width font.font_height with
      | none => simp [hc] at h
      | some page0 =>
        simp only [hc, Option.some.injEq, Prod.mk.injEq] at h
        obtain ⟨rfl, rfl⟩ := h
        simp at hp
        subst hp
        simp only [create_page] at hc
        split_ifs at hc
        simp only [Option.some.injEq] at hc
        subst hc
        simp
    · simp [h10] at h

theorem cached_after_append_glyph (font font1 : FOX_Font) (glyph i index : Nat)
    (effects : List FOX_Effect) (ht : font.well_typed)
    (h : append_glyph font glyph = some (font1, i, index, effects)) :
    font1.cached glyph ∧ i < font1.pages.length ∧ rasterizations effects = 1 := by
  obtain ⟨font0, page, h1, h2, _, h4, rfl, rfl⟩ :=
    append_glyph_eq_some font font1 glyph i index effects h
  have hn := find_free_page_num_glyphs font font0 i page ht h1 h2
  have hi : i < font0.pages.length := by
    by_contra hc
    rw [List.getElem?_eq_none (by omega)] at h2
    cases h2
  refine ⟨⟨page.store glyph, List.mem_iff_getElem?.2 ⟨i, ?_⟩, ?_⟩, by simpa using hi,
    by simp [rasterizations]⟩
  · simp [List.getElem?_set, hi]
  · simp only [FOX_Page.used, FOX_Page.store, Nat.mod_eq_of_lt hn]
    refine List.mem_iff_getElem?.2 ⟨page.num_glyphs, ?_⟩
    rw [List.getElem?_take]
    simp [h4]

theorem FOX_DrawGlyph_uncached (renderer : SDL_Renderer) (provided : Nat → Bool)
    (font font1 : FOX_Font) (position : SDL_Point) (glyph : Nat) (e1 : List FOX_Effect)
    (ht : font.well_typed) (hb : position_is_within_bounds renderer position = true)
    (hp : provided glyph = true) (hn : ¬ font.cached glyph)
    (h : FOX_DrawGlyph renderer provided font position glyph = some (font1, e1)) :
    font1.cached glyph ∧ rasterizations e1 = 1 := by
  have hf : find_glyph font glyph = none :=
    (find_glyph_pages_eq_none glyph font.pages).2 (fun page h1 h2 => hn ⟨page, h1, h2⟩)
  simp only [FOX_DrawGlyph, hb, hp, not_true_eq_false, if_false, render_glyph, hf] at h
  cases ha : append_glyph font glyph with
  | none => simp [ha] at h
  | some r =>
    obtain ⟨font2, i, index, effects⟩ := r
    simp only [ha, Option.map_eq_some', Prod.mk.injEq] at h
    obtain ⟨e, _, rfl, rfl⟩ := h
    obtain ⟨h1, _, h3⟩ := cached_after_append_glyph font font2 glyph i index effects ht ha
    refine ⟨h1, ?_⟩
    rw [rasterizations_append, h3]
    cases e <;> simp_all [rasterizations, blit_glyph]

/-- C3: a codepoint already recorded in some page is resolved by `render_glyph`
to the first (page, slot) holding it in page-then-slot order, the atlas is left
unchanged and nothing is rasterized; so any further draws of it rasterize
nothing, and drawing a codepoint that was not yet cached any number of times
(at least once, the first draw being one that the atlas has room for)
rasterizes it exactly once. -/
theorem C3_cached_glyph_is_not_rasterized_again :
    (∀ (font : FOX_Font) (position : SDL_Point) (glyph : Nat), font.cached glyph →
      ∃ i index page, find_glyph font glyph = some (i, index) ∧
        font.pages[i]? = some page ∧ page.used[index]? = some glyph ∧
        (∀ j page1 k, font.pages[j]? = some page1 → page1.used[k]? = some glyph →
          i < j ∨ (i = j ∧ index ≤ k)) ∧
        render_glyph font position glyph = some (font,
          [FOX_Effect.copy_to_screen i (get_srcrect font page index)
            { x := position.x, y := position.y,
              w := font.font_width, h := font.font_height }])) ∧
    (∀ (renderer : SDL_Renderer) (provided : Nat → Bool) (font : FOX_Font) (glyph : Nat)
        (positions : List SDL_Point), font.cached glyph →
      ∃ effects, FOX_DrawGlyphs renderer provided font
          (positions.map (fun p => (p, glyph))) = some (font, effects) ∧
        rasterizations effects = 0) ∧
    (∀ (renderer : SDL_Renderer) (provided : Nat → Bool) (font font1 : FOX_Font)
        (glyph : Nat) (position : SDL_Point) (positions : List SDL_Point)
        (e1 : List FOX_Effect),
      font.well_typed → ¬ font.cached glyph →
      position_is_within_bounds renderer position = true → provided glyph = true →
      FOX_DrawGlyph renderer provided font position glyph = some (font1, e1) →
      ∃ effects, FOX_DrawGlyphs renderer provided font
          ((position :: positions).map (fun p => (p, glyph))) = some (font1, effects) ∧
        rasterizations effects = 1) := by
  refine ⟨?_, ?_, ?_⟩
  · intro font position glyph h
    obtain ⟨i, index, page, h1, h2, h3, h4⟩ := find_glyph_of_cached font glyph h
    exact ⟨i, index, page, h1, h2, h3, h4,
      render_glyph_of_find font position glyph i index page h1 h2⟩
  · intro renderer provided font glyph positions h
    exact FOX_DrawGlyphs_of_cached renderer provided font glyph h positions
  · intro renderer provided font font1 glyph position positions e1 ht hn hb hp h
    obtain ⟨hc, hr⟩ :=
      FOX_DrawGlyph_uncached renderer provided font font1 position glyph e1 ht hb hp hn h
    obtain ⟨e2, h2, r2⟩ := FOX_DrawGlyphs_of_cached renderer provided font1 glyph hc positions
    refine ⟨e1 ++ e2, ?_, ?_⟩
    · simp only [List.map_cons, FOX_DrawGlyphs, h, h2]
    · rw [rasterizations_append, hr, r2]

/-- C3 at a concrete atlas: 66 is cached in `font_with_two_glyphs` and is drawn
without a change of the atlas; 67 is not cached and is rasterized once by
three draws. -/
theorem C3_cached_glyph_is_not_rasterized_again_witness :
    font_with_two_glyphs.cached 66 ∧
    render_glyph font_with_two_glyphs ⟨0, 0⟩ 66 = some (font_with_two_glyphs,
      [FOX_Effect.copy_to_screen 0 ⟨500, 0, 500, 500⟩ ⟨0, 0, 500, 500⟩]) ∧
    (∃ effects, FOX_DrawGlyphs ⟨800, 600⟩ (fun _ => true) font_with_two_glyphs
        ([⟨0, 0⟩, ⟨8, 0⟩].map (fun p => (p, 66))) = some (font_with_two_glyphs, effects) ∧
      rasterizations effects = 0) ∧
    (font_with_two_glyphs.well_typed ∧ ¬ font_with_two_glyphs.cached 67 ∧
      ∃ font1 effects, FOX_DrawGlyphs ⟨800, 600⟩ (fun _ => true) font_with_two_glyphs
        ((⟨0, 0⟩ :: [⟨8, 0⟩, ⟨16, 0⟩]).map (fun p => (p, 67))) = some (font1, effects) ∧
      rasterizations effects = 1) := by
  refine ⟨by decide, ?_, ?_, by decide, by decide, ?_⟩
  · obtain ⟨i, index, page, h1, h2, _, _, h5⟩ :=
      C3_cached_glyph_is_not_rasterized_again.1 font_with_two_glyphs ⟨0, 0⟩ 66 (by decide)
    have e1 : find_glyph font_with_two_glyphs 66 = some (0, 1) := by decide
    rw [e1] at h1
    simp only [Option.some.injEq, Prod.mk.injEq] at h1
    obtain ⟨rfl, rfl⟩ := h1
    have e2 : font_with_two_glyphs.pages[0]? = some
        { atlas := [65, 66, 0, 0], num_glyphs := 2, glyph_capacity := 4,
          texture_width := 1000, texture_height := 1000 } := rfl
    rw [e2] at h2
    cases h2
    rw [h5]
    decide
  · exact C3_cached_glyph_is_not_rasterized_again.2.1 ⟨800, 600⟩ (fun _ => true)
      font_with_two_glyphs 66 [⟨0, 0⟩, ⟨8, 0⟩] (by decide)
  · exact ⟨_, C3_cached_glyph_is_not_rasterized_again.2.2 ⟨800, 600⟩ (fun _ => true)
      font_with_two_glyphs _ 67 ⟨0, 0⟩ [⟨8, 0⟩, ⟨16, 0⟩] _
      (by decide) (by decide) (by decide) rfl rfl⟩

/-- For positive glyph dimensions `create_page` is defined, in natural numbers. -/
theorem create_page_of_pos (a b : Nat) (ha : 0 < a) (hb : 0 < b) :
    create_page (a : Int) (b : Int) = some
      { atlas := List.replicate ((1000 / a) * (1000 / b)) 0
        num_glyphs := 0
        glyph_capacity := ((1000 / a) * (1000 / b)) % 65536
        texture_width := 1000
        texture_height := 1000 } := by
  have ea : Int.tdiv 1000 (a : Int) = ((1000 / a : Nat) : Int) := by
    rw [Int.tdiv_eq_ediv (by norm_num) (Int.ofNat_nonneg a)]
    norm_cast
  have eb : Int.tdiv 1000 (b : Int) = ((1000 / b : Nat) : Int) := by
    rw [Int.tdiv_eq_ediv (by norm_num) (Int.ofNat_nonneg b)]
    norm_cast
  have hne : ¬ ((a : Int) = 0 ∨ (b : Int) = 0) := by omega
  have hc : create_page_capacity a b = (((1000 / a) * (1000 / b) : Nat) : Int) := by
    simp only [create_page_capacity, ea, eb]
    push_cast
    rfl
  have hnn : ¬ ((((1000 / a) * (1000 / b) : Nat) : Int) < 0) := by omega
  have hm : ((((1000 / a) * (1000 / b) : Nat) : Int) % 65536).toNat =
      ((1000 / a) * (1000 / b)) % 65536 := by omega
  simp only [create_page, hne, if_false, hc, hnn, Int.toNat_ofNat, hm]

/-- Where the product fits in 16 bits the stored capacity is the product. -/
theorem create_page_capacity_fits (a b : Nat) (ha : 0 < a) (hb : 0 < b)
    (hfit : (1000 / a) * (1000 / b) < 65536) :
    (create_page (a : Int) (b : Int)).map FOX_Page.glyph_capacity =
      some ((1000 / a) * (1000 / b)) := by
  rw [create_page_of_pos a b ha hb]
  simp [Nat.mod_eq_of_lt hfit]

/-- C2: for a 3x3 glyph box the 1000x1000 page has room for 333 * 333 = 110889
glyphs and `create_page` allocates an atlas of that many entries, but the
16-bit `glyph_capacity` field holds 110889 mod 65536 = 45353; for an 8x16 box
the field holds 125 * 62 = 7750. -/
theorem C2_glyph_capacity_is_truncated_to_16_bits :
    (1000 / 3) * (1000 / 3) = 110889 ∧
    (create_page 3 3).map FOX_Page.glyph_capacity = some 45353 ∧
    (create_page 3 3).map (fun page => page.atlas.length) = some 110889 ∧
    (create_page 8 16).map FOX_Page.glyph_capacity = some (125 * 62) := by
  have h3 := create_page_of_pos 3 3 (by decide) (by decide)
  have h8 := create_page_of_pos 8 16 (by decide) (by decide)
  simp only [Nat.cast_ofNat] at h3 h8
  refine ⟨by decide, ?_, ?_, ?_⟩
  · rw [h3]; simp only [Option.map_some']
  · rw [h3]; simp only [Option.map_some', List.length_replicate]
  · rw [h8]; simp only [Option.map_some']

theorem FOX_DrawGlyph_eq (renderer : SDL_Renderer) (provided : Nat → Bool) (font : FOX_Font)
    (position : SDL_Point) (glyph : Nat) :
    FOX_DrawGlyph renderer provided font position glyph =
      if position.x < renderer.width ∧ position.y < renderer.height ∧ provided glyph = true
      then render_glyph font position glyph else some (font, []) := by
  unfold FOX_DrawGlyph position_is_within_bounds
  by_cases h1 : position.x < renderer.width <;> by_cases h2 : position.y < renderer.height <;>
    by_cases h3 : provided glyph = true <;> simp [h1, h2, h3]

/-- C4: `FOX_DrawGlyph` is a no-op when `x >= width`, `y >= height` or the
font does not provide the codepoint, and renders otherwise; the bounds test has
no lower bound, so at the position (-500, 0), left of a 800x600 output, a
provided codepoint is rasterized, cached and blitted. -/
theorem C4_negative_position_is_drawn :
    (∀ (renderer : SDL_Renderer) (provided : Nat → Bool) (font : FOX_Font)
        (position : SDL_Point) (glyph : Nat),
      FOX_DrawGlyph renderer provided font position glyph =
        if position.x < renderer.width ∧ position.y < renderer.height ∧ provided glyph = true
        then render_glyph font position glyph else some (font, [])) ∧
    FOX_DrawGlyph ⟨800, 600⟩ (fun _ => true) (FOX_OpenFont 500 500) ⟨-500, 0⟩ 65 =
      some ({ pages := [{ atlas := [65, 0, 0, 0], num_glyphs := 1, glyph_capacity := 4,
                          texture_width := 1000, texture_height := 1000 }]
              font_height := 500
              font_width := 500 },
        [FOX_Effect.create_glyph 65,
         FOX_Effect.copy_to_page 0 ⟨0, 0, 500, 500⟩,
         FOX_Effect.copy_to_screen 0 ⟨0, 0, 500, 500⟩ ⟨-500, 0, 500, 500⟩]) :=
  ⟨FOX_DrawGlyph_eq, by decide⟩

/-! ## Packing of distinct glyphs into pages -/

theorem packed_nil_right (C A : Nat) (pages : List FOX_Page) (h : Packed C A pages []) :
    pages = [] := by
  cases pages with
  | nil => rfl
  | cons page rest => exact absurd rfl h.1

theorem store_used (page : FOX_Page) (glyph : Nat) (h1 : page.num_glyphs < page.atlas.length)
    (h2 : page.num_glyphs + 1 < 65536) :
    (page.store glyph).used = page.used ++ [glyph] ∧
      (page.store glyph).num_glyphs = page.num_glyphs + 1 ∧
      (page.store glyph).atlas.length = page.atlas.length ∧
      (page.store glyph).glyph_capacity = page.glyph_capacity := by
  refine ⟨?_, ?_, ?_, rfl⟩
  · simp only [FOX_Page.used, FOX_Page.store, Nat.mod_eq_of_lt h2]
    apply List.ext_getElem?
    intro i
    simp only [List.getElem?_take, List.getElem?_set, List.getElem?_append, List.length_take]
    have hm : min page.num_glyphs page.atlas.length = page.num_glyphs := by omega
    rw [hm]
    by_cases h3 : i < page.num_glyphs
    · have h4 : i < page.num_glyphs + 1 := by omega
      have h5 : ¬ page.num_glyphs = i := by omega
      simp [h3, h4, h5]
    · by_cases h6 : i = page.num_glyphs
      · subst h6
        simp [h1]
      · have h7 : ¬ i < page.num_glyphs + 1 := by omega
        have h8 : ¬ i - page.num_glyphs = 0 := by omega
        simp [h3, h7]
        cases hh : i - page.num_glyphs with
        | zero => exact absurd hh h8
        | succ m => simp
  · simp only [FOX_Page.store, Nat.mod_eq_of_lt h2]
  · simp [FOX_Page.store]

theorem packed_store (C A : Nat) (hC : 1 ≤ C) (hCA : C ≤ A) (hC16 : C < 65536) (g : Nat)
    (pages : List FOX_Page) (gs : List Nat) (h : Packed C A pages gs)
    (hm : gs.length % C ≠ 0) :
    ∃ page, first_free_page pages = some (gs.length / C) ∧
      pages[gs.length / C]? = some page ∧ page.num_glyphs = gs.length % C ∧
      page.atlas.length = A ∧
      Packed C A (pages.set (gs.length / C) (page.store g)) (gs ++ [g]) := by
  induction pages generalizing gs with
  | nil =>
    have : gs = [] := h
    subst this
    simp at hm
  | cons page rest ih =>
    obtain ⟨hne, hcap, hlen, hnum, hused, hrest⟩ := h
    have hpos : 0 < gs.length := List.length_pos.2 hne
    by_cases hlt : gs.length < C
    · -- the first page is the last one and has room
      have hd : gs.drop C = [] := List.drop_eq_nil_of_le (by omega)
      rw [hd] at hrest
      have hr := packed_nil_right C A rest hrest
      subst hr
      have hn : page.num_glyphs = gs.length := by omega
      have hfree : page.num_glyphs < page.glyph_capacity := by omega
      obtain ⟨s1, s2, s3, s4⟩ := store_used page g (by omega) (by omega)
      refine ⟨page, ?_, ?_, ?_, hlen, ?_⟩
      · simp [first_free_page, hfree, Nat.div_eq_of_lt hlt]
      · simp [Nat.div_eq_of_lt hlt]
      · rw [Nat.mod_eq_of_lt hlt, hn]
      · rw [Nat.div_eq_of_lt hlt]
        simp only [List.set_cons_zero]
        refine ⟨by simp, by rw [s4, hcap], by rw [s3, hlen], ?_, ?_, ?_⟩
        · rw [s2, hn, List.length_append]
          simp only [List.length_singleton]
          omega
        · rw [s1, hused, List.take_of_length_le (by omega),
            List.take_of_length_le (by simp; omega)]
        · rw [List.drop_eq_nil_of_le (by simp; omega)]
          rfl
    · -- the first page is full
      have hge : C ≤ gs.length := by omega
      have hn : page.num_glyphs = C := by omega
      have hfull : ¬ page.num_glyphs < page.glyph_capacity := by omega
      have hl : (gs.drop C).length = gs.length - C := List.length_drop C gs
      have hmod : gs.length % C = (gs.length - C) % C := Nat.mod_eq_sub_mod hge
      have hdiv : gs.length / C = (gs.length - C) / C + 1 := Nat.div_eq_sub_div (by omega) hge
      obtain ⟨page2, f1, f2, f3, f4, f5⟩ := ih (gs.drop C) hrest (by rw [hl, ← hmod]; exact hm)
      rw [hl] at f1 f2 f3 f5
      refine ⟨page2, ?_, ?_, ?_, f4, ?_⟩
      · simp [first_free_page, hfull, f1, hdiv]
      · rw [hdiv]
        simpa using f2
      · rw [hmod, f3]
      · rw [hdiv]
        simp only [List.set_cons_succ]
        refine ⟨by simp, hcap, hlen, ?_, ?_, ?_⟩
        · rw [hn, List.length_append]
          simp only [List.length_singleton]
          omega
        · rw [hused, List.take_append_of_le_length hge]
        · rw [List.drop_append_of_le_length hge]
          exact f5

theorem packed_full (C A : Nat) (hC : 1 ≤ C) (hCA : C ≤ A) (hC16 : C < 65536) (g : Nat)
    (pages : List FOX_Page) (gs : List Nat) (h : Packed C A pages gs)
    (hm : gs.length % C = 0) :
    first_free_page pages = none ∧ pages.length = gs.length / C ∧
      ∀ p0 : FOX_Page, p0.atlas.length = A → p0.num_glyphs = 0 → p0.glyph_capacity = C →
        Packed C A (pages ++ [p0.store g]) (gs ++ [g]) := by
  induction pages generalizing gs with
  | nil =>
    have : gs = [] := h
    subst this
    refine ⟨rfl, by simp, ?_⟩
    intro p0 hA h0 hcap
    obtain ⟨s1, s2, s3, s4⟩ := store_used p0 g (by omega) (by omega)
    refine ⟨by simp, by rw [s4, hcap], by rw [s3, hA], ?_, ?_, ?_⟩
    · rw [s2, h0]
      simp only [List.nil_append, List.length_singleton]
      omega
    · rw [s1]
      simp only [FOX_Page.used, h0, List.take_zero, List.nil_append]
      rw [List.take_of_length_le (by simp; omega)]
    · rw [List.drop_eq_nil_of_le (by simp; omega)]
      rfl
  | cons page rest ih =>
    obtain ⟨hne, hcap, hlen, hnum, hused, hrest⟩ := h
    have hpos : 0 < gs.length := List.length_pos.2 hne
    have hge : C ≤ gs.length := by
      by_contra hc
      rw [Nat.mod_eq_of_lt (by omega)] at hm
      omega
    have hn : page.num_glyphs = C := by omega
    have hfull : ¬ page.num_glyphs < page.glyph_capacity := by omega
    have hl : (gs.drop C).length = gs.length - C := List.length_drop C gs
    have hmod : gs.length % C = (gs.length - C) % C := Nat.mod_eq_sub_mod hge
    have hdiv : gs.length / C = (gs.length - C) / C + 1 := Nat.div_eq_sub_div (by omega) hge
    obtain ⟨f1, f2, f3⟩ := ih (gs.drop C) hrest (by rw [hl, ← hmod]; exact hm)
    rw [hl] at f2
    refine ⟨by simp [first_free_page, hfull, f1], by simp [f2, hdiv], ?_⟩
    intro p0 hA h0 hcap0
    refine ⟨by simp, hcap, hlen, ?_, ?_, ?_⟩
    · rw [hn, List.length_append]
      simp only [List.length_singleton]
      omega
    · rw [hused, List.take_append_of_le_length hge]
    · rw [List.drop_append_of_le_length hge]
      exact f3 p0 hA h0 hcap0

theorem packed_length (C A : Nat) (hC : 1 ≤ C) (pages : List FOX_Page) (gs : List Nat)
    (h : Packed C A pages gs) : pages.length = (gs.length + C - 1) / C := by
  induction pages generalizing gs with
  | nil =>
    have : gs = [] := h
    subst this
    simp only [List.length_nil]
    rw [Nat.div_eq_of_lt (by omega)]
  | cons page rest ih =>
    obtain ⟨hne, _, _, _, _, hrest⟩ := h
    have hpos : 0 < gs.length := List.length_pos.2 hne
    have hl : (gs.drop C).length = gs.length - C := List.length_drop C gs
    rw [List.length_cons, ih (gs.drop C) hrest, hl]
    by_cases hlt : gs.length < C
    · have e1 : gs.length - C + C - 1 = C - 1 := by omega
      rw [e1, Nat.div_eq_of_lt (by omega)]
      have e2 : gs.length + C - 1 = (gs.length - 1) + C := by omega
      rw [e2, Nat.add_div_right _ (by omega), Nat.div_eq_of_lt (by omega)]
    · have e2 : gs.length + C - 1 = (gs.length - C + C - 1) + C := by omega
      rw [e2, Nat.add_div_right _ (by omega)]

theorem packed_used (C A : Nat) (pages : List FOX_Page) (gs : List Nat)
    (h : Packed C A pages gs) (j s x : Nat) (page : FOX_Page)
    (hj : pages[j]? = some page) (hs : page.used[s]? = some x) :
    s < C ∧ gs[j * C + s]? = some x := by
  induction pages generalizing gs j with
  | nil => simp at hj
  | cons page0 rest ih =>
    obtain ⟨hne, _, _, _, hused, hrest⟩ := h
    cases j with
    | zero =>
      simp only [List.getElem?_cons_zero, Option.some.injEq] at hj
      subst hj
      rw [hused, List.getElem?_take] at hs
      split at hs
      · next hlt => exact ⟨hlt, by simpa using hs⟩
      · cases hs
    | succ j =>
      simp only [List.getElem?_cons_succ] at hj
      obtain ⟨h1, h2⟩ := ih (gs.drop C) hrest j hj
      refine ⟨h1, ?_⟩
      rw [List.getElem?_drop] at h2
      have e : (j + 1) * C + s = C + (j * C + s) := by ring
      rw [e]
      exact h2

theorem packed_slot (C A : Nat) (hC : 1 ≤ C) (pages : List FOX_Page) (gs : List Nat)
    (h : Packed C A pages gs) (k : Nat) (hk : k < gs.length) :
    ∃ page, pages[k / C]? = some page ∧ page.used[k % C]? = gs[k]? := by
  induction pages generalizing gs k with
  | nil =>
    have : gs = [] := h
    subst this
    simp at hk
  | cons page0 rest ih =>
    obtain ⟨hne, _, _, _, hused, hrest⟩ := h
    by_cases hlt : k < C
    · refine ⟨page0, by simp [Nat.div_eq_of_lt hlt], ?_⟩
      rw [Nat.mod_eq_of_lt hlt, hused, List.getElem?_take]
      simp [hlt]
    · have hge : C ≤ k := by omega
      have hl : (gs.drop C).length = gs.length - C := List.length_drop C gs
      obtain ⟨page, h1, h2⟩ := ih (gs.drop C) hrest (k - C) (by omega)
      refine ⟨page, ?_, ?_⟩
      · rw [Nat.div_eq_sub_div (by omega) hge]
        simpa using h1
      · rw [Nat.mod_eq_sub_mod hge, h2, List.getElem?_drop]
        congr 1
        omega

theorem create_page_some (fw fh : Int) (p0 : FOX_Page) (h : create_page fw fh = some p0) :
    p0.num_glyphs = 0 ∧ p0.glyph_capacity ≤ p0.atlas.length ∧ p0.glyph_capacity < 65536 := by
  simp only [create_page] at h
  split_ifs at h with h1 h2
  simp only [Option.some.injEq] at h
  subst h
  simp only [List.length_replicate]
  refine ⟨trivial, ?_, ?_⟩ <;> omega

theorem not_cached_of_packed (C A : Nat) (font : FOX_Font) (gs : List Nat)
    (h : Packed C A font.pages gs) (g : Nat) (hg : g ∉ gs) : find_glyph font g = none := by
  refine (find_glyph_pages_eq_none g font.pages).2 ?_
  intro page hp hu
  obtain ⟨j, hj⟩ := List.mem_iff_getElem?.1 hp
  obtain ⟨s, hs⟩ := List.mem_iff_getElem?.1 hu
  exact hg (List.getElem?_mem (packed_used C A font.pages gs h j s g page hj hs).2)

theorem render_glyph_of_append (font font1 : FOX_Font) (position : SDL_Point)
    (g i index : Nat) (effects : List FOX_Effect) (hf : find_glyph font g = none)
    (ha : append_glyph font g = some (font1, i, index, effects))
    (hi : i < font1.pages.length) :
    ∃ e, render_glyph font position g = some (font1, effects ++ [e]) ∧
      rasterizations [e] = 0 := by
  obtain ⟨page, hp⟩ : ∃ page, font1.pages[i]? = some page :=
    ⟨font1.pages[i], List.getElem?_eq_getElem hi⟩
  refine ⟨FOX_Effect.copy_to_screen i (get_srcrect font1 page index)
      { x := position.x, y := position.y, w := font1.font_width, h := font1.font_height },
    ?_, rfl⟩
  simp [render_glyph, hf, ha, blit_glyph, hp]

theorem render_glyph_packed (C A : Nat) (hC : 1 ≤ C) (hCA : C ≤ A) (hC16 : C < 65536)
    (font : FOX_Font) (p0 : FOX_Page)
    (hcp : create_page font.font_width font.font_height = some p0)
    (hA : p0.atlas.length = A) (hcap : p0.glyph_capacity = C)
    (gs : List Nat) (h : Packed C A font.pages gs) (g : Nat) (hg : g ∉ gs)
    (hN : gs.length + 1 ≤ 10 * C) (position : SDL_Point) :
    ∃ font1 effects, render_glyph font position g = some (font1, effects) ∧
      Packed C A font1.pages (gs ++ [g]) ∧ font1.font_width = font.font_width ∧
      font1.font_height = font.font_height ∧ rasterizations effects = 1 := by
  have hfind := not_cached_of_packed C A font gs h g hg
  have h0 := (create_page_some _ _ p0 hcp).1
  by_cases hm : gs.length % C = 0
  · obtain ⟨f1, f2, f3⟩ := packed_full C A hC hCA hC16 g font.pages gs h hm
    have h10 : font.pages.length < 10 := by
      rw [f2]
      exact (Nat.div_lt_iff_lt_mul (by omega)).2 (by omega)
    have hpk := f3 p0 hA h0 hcap
    have hlt : p0.num_glyphs < p0.atlas.length := by omega
    have hne : p0.atlas ≠ [] := List.length_pos.1 (by omega)
    have happ : append_glyph font g = some
        ({ font with pages := font.pages ++ [p0.store g] }, font.pages.length, 0,
          [FOX_Effect.create_glyph g, FOX_Effect.copy_to_page font.pages.length
            (append_glyph_dstrect { font with pages := font.pages ++ [p0] } p0)]) := by
      simp [append_glyph, find_free_page, f1, append_page, h10, hcp, hne, h0, FOX_Page.store]
    obtain ⟨e, he, hr⟩ := render_glyph_of_append font _ position g _ _ _ hfind happ (by simp)
    exact ⟨_, _, he, hpk, rfl, rfl, by rw [rasterizations_append, hr]; rfl⟩
  · obtain ⟨page, f1, f2, f3, f4, f5⟩ := packed_store C A hC hCA hC16 g font.pages gs h hm
    have hlt : page.num_glyphs < page.atlas.length := by
      have := Nat.mod_lt gs.length (by omega : 0 < C)
      omega
    have hi : gs.length / C < font.pages.length := by
      by_contra hc
      rw [List.getElem?_eq_none (by omega)] at f2
      cases f2
    have happ : append_glyph font g = some
        ({ font with pages := font.pages.set (gs.length / C) (page.store g) },
          gs.length / C, page.num_glyphs,
          [FOX_Effect.create_glyph g, FOX_Effect.copy_to_page (gs.length / C)
            (append_glyph_dstrect font page)]) := by
      simp [append_glyph, find_free_page, f1, f2, hlt, FOX_Page.store]
    obtain ⟨e, he, hr⟩ :=
      render_glyph_of_append font _ position g _ _ _ hfind happ (by simpa using hi)
    exact ⟨_, _, he, f5, rfl, rfl, by rw [rasterizations_append, hr]; rfl⟩

theorem FOX_DrawGlyphs_packed (C A : Nat) (hC : 1 ≤ C) (hCA : C ≤ A) (hC16 : C < 65536)
    (renderer : SDL_Renderer) (provided : Nat → Bool) (fw fh : Int) (p0 : FOX_Page)
    (hcp : create_page fw fh = some p0) (hA : p0.atlas.length = A)
    (hcap : p0.glyph_capacity = C) (draws : List (SDL_Point × Nat)) :
    ∀ (font : FOX_Font) (gs : List Nat), font.font_width = fw → font.font_height = fh →
      Packed C A font.pages gs → (gs ++ draws.map Prod.snd).Nodup →
      (gs ++ draws.map Prod.snd).length ≤ 10 * C →
      (∀ d ∈ draws, position_is_within_bounds renderer d.1 = true ∧ provided d.2 = true) →
      ∃ font1 effects, FOX_DrawGlyphs renderer provided font draws = some (font1, effects) ∧
        Packed C A font1.pages (gs ++ draws.map Prod.snd) ∧ font1.font_width = fw ∧
        font1.font_height = fh ∧ rasterizations effects = draws.length := by
  induction draws with
  | nil =>
    intro font gs hw hh hp _ _ _
    exact ⟨font, [], rfl, by simpa using hp, hw, hh, rfl⟩
  | cons d rest ih =>
    intro font gs hw hh hp hnd hlen hok
    have e : gs ++ (d :: rest).map Prod.snd = (gs ++ [d.2]) ++ rest.map Prod.snd := by simp
    rw [e] at hnd hlen
    have hg : d.2 ∉ gs := by
      have h1 := (List.nodup_append.1 hnd).1
      have h2 := List.nodup_append.1 h1
      intro hc
      exact h2.2.2 hc (List.mem_singleton_self d.2) 
    have hn1 : gs.length + 1 ≤ 10 * C := by
      simp only [List.length_append, List.length_singleton] at hlen
      omega
    obtain ⟨hb, hpr⟩ := hok d (List.mem_cons_self d rest)
    obtain ⟨font1, e1, r1, r2, r3, r4, r5⟩ :=
      render_glyph_packed C A hC hCA hC16 font p0 (by rw [hw, hh]; exact hcp) hA hcap gs hp
        d.2 hg hn1 d.1
    obtain ⟨font2, e2, s1, s2, s3, s4, s5⟩ :=
      ih font1 (gs ++ [d.2]) (r3.trans hw) (r4.trans hh) r2 hnd hlen
        (fun d1 hd1 => hok d1 (List.mem_cons_of_mem d hd1))
    have hdraw : FOX_DrawGlyph renderer provided font d.1 d.2 = some (font1, e1) := by
      simp only [FOX_DrawGlyph, hb, hpr, not_true_eq_false, if_false]
      exact r1
    refine ⟨font2, e1 ++ e2, ?_, by rw [e]; exact s2, s3, s4, ?_⟩
    · simp only [FOX_DrawGlyphs, hdraw, s1]
    · rw [rasterizations_append, r5, s5, List.length_cons]
      omega

theorem packed_num_glyphs (C A : Nat) (pages : List FOX_Page) (gs : List Nat)
    (h : Packed C A pages gs) (j : Nat) (page : FOX_Page) (hj : pages[j]? = some page) :
    page.num_glyphs = min C (gs.length - j * C) ∧ page.glyph_capacity = C := by
  induction pages generalizing gs j with
  | nil => simp at hj
  | cons page0 rest ih =>
    obtain ⟨_, hcap, _, hnum, _, hrest⟩ := h
    cases j with
    | zero =>
      simp only [List.getElem?_cons_zero, Option.some.injEq] at hj
      subst hj
      exact ⟨by simpa using hnum, hcap⟩
    | succ j =>
      simp only [List.getElem?_cons_succ] at hj
      obtain ⟨h1, h2⟩ := ih (gs.drop C) hrest j hj
      refine ⟨?_, h2⟩
      rw [h1, List.length_drop]
      have e : (j + 1) * C = j * C + C := by ring
      rw [e]
      congr 1
      omega

/-- Where a packed atlas keeps the `k`-th of the distinct codepoints `gs`. -/
theorem packed_layout (C A : Nat) (hC : 1 ≤ C) (font : FOX_Font) (gs : List Nat)
    (h : Packed C A font.pages gs) (hnd : gs.Nodup) (k : Nat) (hk : k < gs.length) :
    find_glyph font gs[k] = some (k / C, k % C) ∧
      ∃ page, font.pages[k / C]? = some page ∧ k % C < page.num_glyphs ∧
        page.atlas[k % C]? = some gs[k] := by
  obtain ⟨page, h1, h2⟩ := packed_slot C A hC font.pages gs h k hk
  rw [List.getElem?_eq_getElem hk] at h2
  have hdm : k / C * C + k % C = k := by
    rw [Nat.mul_comm]
    exact Nat.div_add_mod k C
  have huniq : ∀ j s page1, font.pages[j]? = some page1 → page1.used[s]? = some gs[k] →
      j * C + s = k ∧ s < C := by
    intro j s page1 hj hs
    obtain ⟨a1, a2⟩ := packed_used C A font.pages gs h j s gs[k] page1 hj hs
    rw [← List.getElem?_eq_getElem hk] at a2
    have hlt : j * C + s < gs.length := by
      by_contra hc
      rw [List.getElem?_eq_none (by omega), List.getElem?_eq_getElem hk] at a2
      cases a2
    exact ⟨List.getElem?_inj hlt hnd a2, a1⟩
  refine ⟨?_, page, h1, ?_, ?_⟩
  · refine (find_glyph_pages_eq_some gs[k] font.pages (k / C) (k % C)).2 ⟨page, h1, ?_, ?_⟩
    · refine (find_slot_eq_some gs[k] page.used (k % C)).2 ⟨h2, ?_⟩
      intro s hs hc
      have := (huniq (k / C) s page h1 hc).1
      omega
    · intro j page1 hj hp hm
      obtain ⟨s, hs⟩ := List.mem_iff_getElem?.1 hm
      obtain ⟨b1, b2⟩ := huniq j s page1 hp hs
      have c1 : (j + 1) * C ≤ k / C * C := Nat.mul_le_mul_right C hj
      have c2 : (j + 1) * C = j * C + C := by ring
      omega
  · simp only [FOX_Page.used, List.getElem?_take] at h2
    by_contra hc
    simp [hc] at h2
  · simp only [FOX_Page.used, List.getElem?_take] at h2
    split at h2
    · exact h2
    · cases h2

/-- The general part of C1, as a lemma. -/
theorem FOX_DrawGlyphs_layout (renderer : SDL_Renderer) (provided : Nat → Bool) (fw fh : Int)
    (p0 : FOX_Page) (draws : List (SDL_Point × Nat)) (hcp : create_page fw fh = some p0)
    (hC : 1 ≤ p0.glyph_capacity) (hnd : (draws.map Prod.snd).Nodup)
    (hlen : draws.length ≤ 10 * p0.glyph_capacity)
    (hok : ∀ d ∈ draws, position_is_within_bounds renderer d.1 = true ∧ provided d.2 = true) :
    ∃ font effects,
      FOX_DrawGlyphs renderer provided (FOX_OpenFont fw fh) draws = some (font, effects) ∧
      font.num_pages = (draws.length + p0.glyph_capacity - 1) / p0.glyph_capacity ∧
      rasterizations effects = draws.length ∧
      (∀ j page, font.pages[j]? = some page →
        page.num_glyphs = min p0.glyph_capacity (draws.length - j * p0.glyph_capacity)) ∧
      ∀ k d, draws[k]? = some d →
        find_glyph font d.2 = some (k / p0.glyph_capacity, k % p0.glyph_capacity) ∧
        ∃ page, font.pages[k / p0.glyph_capacity]? = some page ∧
          k % p0.glyph_capacity < page.num_glyphs ∧
          page.atlas[k % p0.glyph_capacity]? = some d.2 := by
  obtain ⟨_, hCA, hC16⟩ := create_page_some fw fh p0 hcp
  obtain ⟨font, effects, h1, h2, _, _, h5⟩ :=
    FOX_DrawGlyphs_packed p0.glyph_capacity p0.atlas.length hC hCA hC16 renderer provided fw fh
      p0 hcp rfl rfl draws (FOX_OpenFont fw fh) [] rfl rfl rfl (by simpa using hnd)
      (by simpa using hlen) hok
  simp only [List.nil_append] at h2
  refine ⟨font, effects, h1, ?_, h5, ?_, ?_⟩
  · have := packed_length p0.glyph_capacity p0.atlas.length hC font.pages _ h2
    simpa [FOX_Font.num_pages] using this
  · intro j page hj
    have := (packed_num_glyphs p0.glyph_capacity p0.atlas.length font.pages _ h2 j page hj).1
    simpa using this
  · intro k d hd
    have hk : k < (draws.map Prod.snd).length := by
      by_contra hc
      rw [List.getElem?_eq_none (by simpa using hc)] at hd
      cases hd
    have hg : (draws.map Prod.snd)[k] = d.2 := by
      have : (draws.map Prod.snd)[k]? = some d.2 := by simp [hd]
      rw [List.getElem?_eq_getElem hk] at this
      exact Option.some.inj this
    have := packed_layout p0.glyph_capacity p0.atlas.length hC font _ h2 hnd k hk
    rw [hg] at this
    exact this

/-- C1 (amended): starting from a freshly opened font whose pages have capacity
`C >= 1`, drawing `N <= 10 * C` pairwise-distinct font-provided codepoints in
order (at positions within bounds) succeeds, rasterizes each once and stores the
`k`-th one (0-based) on page `k / C` at slot `k % C`, so the atlas ends with
exactly `ceil(N / C)` pages; for an 8x16 glyph box (`C = 7750`) drawing 7751
distinct codepoints yields exactly 2 pages with the 7751st glyph on the second
page at slot 0. -/
theorem C1_distinct_glyphs_fill_pages_in_order :
    (∀ (renderer : SDL_Renderer) (provided : Nat → Bool) (fw fh : Int) (p0 : FOX_Page)
        (draws : List (SDL_Point × Nat)),
      create_page fw fh = some p0 → 1 ≤ p0.glyph_capacity →
      (draws.map Prod.snd).Nodup → draws.length ≤ 10 * p0.glyph_capacity →
      (∀ d ∈ draws, position_is_within_bounds renderer d.1 = true ∧ provided d.2 = true) →
      ∃ font effects,
        FOX_DrawGlyphs renderer provided (FOX_OpenFont fw fh) draws = some (font, effects) ∧
        font.num_pages = (draws.length + p0.glyph_capacity - 1) / p0.glyph_capacity ∧
        rasterizations effects = draws.length ∧
        (∀ j page, font.pages[j]? = some page →
          page.num_glyphs = min p0.glyph_capacity (draws.length - j * p0.glyph_capacity)) ∧
        ∀ k d, draws[k]? = some d →
          find_glyph font d.2 = some (k / p0.glyph_capacity, k % p0.glyph_capacity) ∧
          ∃ page, font.pages[k / p0.glyph_capacity]? = some page ∧
            k % p0.glyph_capacity < page.num_glyphs ∧
            page.atlas[k % p0.glyph_capacity]? = some d.2) ∧
    (∀ (renderer : SDL_Renderer) (provided : Nat → Bool) (draws : List (SDL_Point × Nat)),
      draws.length = 7751 → (draws.map Prod.snd).Nodup →
      (∀ d ∈ draws, position_is_within_bounds renderer d.1 = true ∧ provided d.2 = true) →
      (create_page 8 16).map FOX_Page.glyph_capacity = some 7750 ∧
      ∃ font effects,
        FOX_DrawGlyphs renderer provided (FOX_OpenFont 8 16) draws = some (font, effects) ∧
        font.num_pages = 2 ∧
        ∀ d, draws[7750]? = some d →
          find_glyph font d.2 = some (1, 0) ∧
          ∃ page, font.pages[1]? = some page ∧ page.num_glyphs = 1 ∧
            page.atlas[0]? = some d.2) := by
  refine ⟨FOX_DrawGlyphs_layout, ?_⟩
  intro renderer provided draws hlen hnd hok
  have h8 := create_page_of_pos 8 16 (by decide) (by decide)
  simp only [Nat.cast_ofNat] at h8
  have hc : (1000 / 8) * (1000 / 16) % 65536 = 7750 := by norm_num
  rw [hc] at h8
  refine ⟨by rw [h8]; rfl, ?_⟩
  obtain ⟨font, effects, h1, h2, h3, hn, h4⟩ :=
    FOX_DrawGlyphs_layout renderer provided 8 16 _ draws h8 (by norm_num) hnd
      (by rw [hlen]; norm_num) hok
  simp only [hlen] at h2
  refine ⟨font, effects, h1, by rw [h2], ?_⟩
  intro d hd
  obtain ⟨a1, page, a2, a3, a4⟩ := h4 7750 d hd
  simp only [Nat.reduceDiv, Nat.reduceMod] at a1 a2 a3 a4
  refine ⟨a1, page, a2, ?_, a4⟩
  have := hn 1 page a2
  simp only [hlen] at this
  simpa using this

theorem glyph_draws_snd (n : Nat) : (glyph_draws n).map Prod.snd = List.range n := by
  simp [glyph_draws, List.map_map, Function.comp_def]

/-- C1 fails as stated: with a 1000x1000 glyph box a page holds one glyph
(`C = 1`), and drawing 11 distinct provided codepoints does not end with
`ceil(11 / 1) = 11` pages: the `pages` array has 10 slots, ten draws fill it,
and the eleventh `append_page` writes `pages[10]`, which is undefined. -/
theorem C1_counterexample_eleven_pages :
    (create_page 1000 1000).map FOX_Page.glyph_capacity = some 1 ∧
    ((glyph_draws 11).map Prod.snd).Nodup ∧
    (∀ d ∈ glyph_draws 11, position_is_within_bounds ⟨800, 600⟩ d.1 = true) ∧
    (FOX_DrawGlyphs ⟨800, 600⟩ (fun _ => true) (FOX_OpenFont 1000 1000)
      (glyph_draws 10)).map (fun r => r.1.num_pages) = some 10 ∧
    FOX_DrawGlyphs ⟨800, 600⟩ (fun _ => true) (FOX_OpenFont 1000 1000) (glyph_draws 11) = none ∧
    ¬ ∃ font effects, FOX_DrawGlyphs ⟨800, 600⟩ (fun _ => true) (FOX_OpenFont 1000 1000)
        (glyph_draws 11) = some (font, effects) ∧ font.num_pages = (11 + 1 - 1) / 1 := by
  have h : FOX_DrawGlyphs ⟨800, 600⟩ (fun _ => true) (FOX_OpenFont 1000 1000)
      (glyph_draws 11) = none := by decide
  refine ⟨by decide, by decide, by decide, by decide, h, ?_⟩
  rintro ⟨font, effects, h1, _⟩
  rw [h] at h1
  cases h1

/-- C1 at concrete inputs: five codepoints on 500x500 boxes (four to a page)
end on two pages with the fifth at page 1, slot 0; and the 7751 codepoints
`0 .. 7750` on 8x16 boxes end on two pages with codepoint 7750 at page 1,
slot 0. -/
theorem C1_distinct_glyphs_fill_pages_in_order_witness :
    (∃ font effects,
      FOX_DrawGlyphs ⟨800, 600⟩ (fun _ => true) (FOX_OpenFont 500 500) (glyph_draws 5) =
        some (font, effects) ∧
      font.num_pages = 2 ∧ rasterizations effects = 5 ∧ find_glyph font 4 = some (1, 0)) ∧
    (∃ font effects,
      FOX_DrawGlyphs ⟨800, 600⟩ (fun _ => true) (FOX_OpenFont 8 16) (glyph_draws 7751) =
        some (font, effects) ∧
      font.num_pages = 2 ∧ find_glyph font 7750 = some (1, 0)) := by
  constructor
  · obtain ⟨font, effects, h1, h2, h3, _, h5⟩ :=
      C1_distinct_glyphs_fill_pages_in_order.1 ⟨800, 600⟩ (fun _ => true) 500 500
        { atlas := [0, 0, 0, 0], num_glyphs := 0, glyph_capacity := 4,
          texture_width := 1000, texture_height := 1000 }
        (glyph_draws 5) (by decide) (by decide) (by decide) (by decide) (by decide)
    exact ⟨font, effects, h1, h2, h3, (h5 4 (⟨0, 0⟩, 4) (by decide)).1⟩
  · obtain ⟨_, font, effects, h1, h2, h3⟩ :=
      C1_distinct_glyphs_fill_pages_in_order.2 ⟨800, 600⟩ (fun _ => true) (glyph_draws 7751)
        (by simp [glyph_draws])
        (by rw [glyph_draws_snd]; exact List.nodup_range 7751)
        (by
          intro d hd
          simp only [glyph_draws, List.mem_map] at hd
          obtain ⟨g, _, rfl⟩ := hd
          exact ⟨rfl, rfl⟩)
    exact ⟨font, effects, h1, h2,
      (h3 (⟨0, 0⟩, 7750) (by simp [glyph_draws, List.getElem?_range])).1⟩

/-! ## Scrollback history and mouse selection -/

/-- C5: with 3 stored lines and the view at offset 2, a wheel event with
`y = 2` passes the guard (`2 < 3`) and adds 2, leaving offset 4 > length, where
the specified clamp gives 3; the `render_terminal_history` call that follows
then reads `elements[2 ^ 64 - 1]`. At offset 1 a wheel event with `y = -3`
wraps the `size_t` offset to `2 ^ 64 - 2`, where the clamp gives 0. -/
theorem C5_wheel_offset_leaves_the_range :
    history_of_three.offset = 2 ∧ history_of_three.length = 3 ∧
    (mouse_wheel_offset history_of_three 2).offset = 4 ∧
    clamped_offset 2 3 2 = 3 ∧
    on_mouse_wheel blank_screen history_of_three 2 2 2 = none ∧
    (mouse_wheel_offset { history_of_three with offset := 1 } (-3)).offset = 2 ^ 64 - 2 ∧
    clamped_offset 1 3 (-3) = 0 := by
  refine ⟨rfl, rfl, by decide, by decide, by decide, by decide, by decide⟩

theorem terminal_sb_pushline_disabled (configuration : HistoryConfiguration)
    (h : configuration.enable = false) (history : TerminalHistory) (cols : Int)
    (cells : List VTermScreenCell) :
    terminal_sb_pushline configuration history cols cells = some history := by
  simp [terminal_sb_pushline, h]

/-- C7: with `configuration.history.enable` false, `terminal_sb_pushline`
returns the history unchanged for every `cols` and `cells`, so after any
sequence of scrollback-push notifications an empty history is still empty,
with length 0. -/
theorem C7_disabled_history_ignores_pushes (configuration : HistoryConfiguration)
    (h : configuration.enable = false) :
    (∀ (history : TerminalHistory) (cols : Int) (cells : List VTermScreenCell),
      terminal_sb_pushline configuration history cols cells = some history) ∧
    (∀ (history : TerminalHistory) (pushes : List (Int × List VTermScreenCell)),
      terminal_sb_pushlines configuration history pushes = some history) ∧
    (∀ pushes : List (Int × List VTermScreenCell),
      (terminal_sb_pushlines configuration TerminalHistory.empty pushes).map
        TerminalHistory.length = some 0) := by
  have hall : ∀ (pushes : List (Int × List VTermScreenCell)) (history : TerminalHistory),
      terminal_sb_pushlines configuration history pushes = some history := by
    intro pushes
    induction pushes with
    | nil => intro history; rfl
    | cons p rest ih =>
      intro history
      simp only [terminal_sb_pushlines,
        terminal_sb_pushline_disabled configuration h history p.1 p.2, ih history]
  refine ⟨terminal_sb_pushline_disabled configuration h, fun history pushes => hall pushes history,
    ?_⟩
  intro pushes
  rw [hall pushes TerminalHistory.empty]
  rfl

/-- C7 at a concrete input: three pushes, one of them with a negative `cols`,
into a disabled history. -/
theorem C7_disabled_history_ignores_pushes_witness :
    terminal_sb_pushline ⟨1000, false, false⟩ history_of_three (-1) [] = some history_of_three ∧
    (terminal_sb_pushlines ⟨1000, false, false⟩ TerminalHistory.empty
      [(2, [plain_cell 97, plain_cell 98]), (-1, []), (80, [])]).map
        TerminalHistory.length = some 0 :=
  ⟨(C7_disabled_history_ignores_pushes ⟨1000, false, false⟩ rfl).1 history_of_three (-1) [],
   (C7_disabled_history_ignores_pushes ⟨1000, false, false⟩ rfl).2.2 _⟩

theorem terminal_sb_pushline_enabled (configuration : HistoryConfiguration)
    (he : configuration.enable = true) (history : TerminalHistory) (cols : Int)
    (cells : List VTermScreenCell) (h0 : 0 ≤ cols) (h1 : cols ≤ cells.length) :
    terminal_sb_pushline configuration history cols cells = some
      { history with
        size := if history.length = history.size then (history.size + 100) * 2
          else history.size
        elements := history.elements ++ [{ line := cells.take cols.toNat }] } := by
  have hn : ¬ (cols < 0 ∨ (cells.length : Int) < cols) := by omega
  simp [terminal_sb_pushline, he, hn]

/-- C8: with history enabled, `terminal_sb_pushline(cols, cells)` on a buffer
of at least `cols >= 0` cells increases the history length by exactly 1, stores
as the new last line a copy of the first `cols` cells with recorded length
`cols`, and leaves every previously stored line and the view offset unchanged. -/
theorem C8_enabled_push_appends_one_line (configuration : HistoryConfiguration)
    (history : TerminalHistory) (cols : Int) (cells : List VTermScreenCell)
    (he : configuration.enable = true) (h0 : 0 ≤ cols) (h1 : cols ≤ cells.length) :
    ∃ history1 item,
      terminal_sb_pushline configuration history cols cells = some history1 ∧
      history1.length = history.length + 1 ∧
      history1.elements[history.length]? = some item ∧
      history1.elements.getLast? = some item ∧
      item.line = cells.take cols.toNat ∧ (item.length : Int) = cols ∧
      (∀ i, i < history.length → history1.elements[i]? = history.elements[i]?) ∧
      history1.elements = history.elements ++ [item] ∧
      history1.offset = history.offset := by
  refine ⟨_, { line := cells.take cols.toNat },
    terminal_sb_pushline_enabled configuration he history cols cells h0 h1, ?_, ?_, ?_, rfl, ?_,
    ?_, rfl, rfl⟩
  · simp [TerminalHistory.length]
  · simp [TerminalHistory.length]
  · simp
  · simp only [TerminalHistoryItem.length, List.length_take]
    omega
  · intro i hi
    simp only [TerminalHistory.length] at hi
    simp [List.getElem?_append_left hi]

/-- C8 at a concrete input: pushing the first 2 of 3 cells onto the three-line
history at offset 2. -/
theorem C8_enabled_push_appends_one_line_witness :
    ∃ history1,
      terminal_sb_pushline ⟨1000, false, true⟩ history_of_three 2
        [plain_cell 120, plain_cell 121, plain_cell 122] = some history1 ∧
      history1.length = 4 ∧
      history1.elements[3]? = some { line := [plain_cell 120, plain_cell 121] } ∧
      history1.offset = 2 := by
  obtain ⟨history1, item, h1, h2, h3, _, h5, _, _, _, h9⟩ :=
    C8_enabled_push_appends_one_line ⟨1000, false, true⟩ history_of_three 2
      [plain_cell 120, plain_cell 121, plain_cell 122] rfl (by decide) (by decide)
  refine ⟨history1, h1, h2, ?_, h9⟩
  have e : item = { line := [plain_cell 120, plain_cell 121] } := by
    cases item
    simp only [TerminalHistoryItem.mk.injEq]
    exact h5
  rw [← e]
  exact h3

theorem drag_rect_normalized (rect : VTermRect) (cell : VTermPos) (h : rect.normalized) :
    (drag_rect rect cell).normalized := by
  obtain ⟨h1, h2⟩ := h
  unfold drag_rect VTermRect.normalized
  by_cases hr : cell.row > rect.start_row <;> by_cases hc : cell.col > rect.start_col <;>
    simp only [hr, hc, if_true, if_false] <;> constructor <;> omega

theorem on_mouse_motion_dragging (glyph_width glyph_height : Int) (screen : VTermScreen)
    (mouse : MouseState) (x y : Int) (hw : glyph_width ≠ 0) (hh : glyph_height ≠ 0)
    (hl : mouse.lmb = true) :
    ∃ mouse1 calls, on_mouse_motion glyph_width glyph_height screen mouse x y =
        some (mouse1, calls) ∧ mouse1.lmb = true ∧
      mouse1.cell = { row := map_to_row glyph_height y, col := map_to_col glyph_width x } ∧
      mouse1.rect = drag_rect mouse.rect mouse1.cell := by
  have hn : ¬ (glyph_width = 0 ∨ glyph_height = 0) := by
    rintro (h | h)
    · exact hw h
    · exact hh h
  simp [on_mouse_motion, hn, hl]

theorem on_mouse_motions_normalized (glyph_width glyph_height : Int) (screen : VTermScreen)
    (hw : glyph_width ≠ 0) (hh : glyph_height ≠ 0) (motions : List (Int × Int)) :
    ∀ mouse : MouseState, mouse.lmb = true → mouse.rect.normalized →
      ∃ mouse2, on_mouse_motions glyph_width glyph_height screen mouse motions = some mouse2 ∧
        mouse2.lmb = true ∧ mouse2.rect.normalized := by
  induction motions with
  | nil => intro mouse hl hn; exact ⟨mouse, rfl, hl, hn⟩
  | cons m rest ih =>
    intro mouse hl hn
    obtain ⟨mouse1, calls, h1, h2, _, h4⟩ :=
      on_mouse_motion_dragging glyph_width glyph_height screen mouse m.1 m.2 hw hh hl
    obtain ⟨mouse2, k1, k2, k3⟩ :=
      ih mouse1 h2 (by rw [h4]; exact drag_rect_normalized mouse.rect mouse1.cell hn)
    exact ⟨mouse2, by simp only [on_mouse_motions, h1, k1], k2, k3⟩

/-- C9: for every cell under the pointer at a primary-button press and every
subsequent sequence of drag motions (to any pixel positions, so every prefix of
a drag is covered), the selection rectangle has `start_row <= end_row` and
`start_col <= end_col` after the press and after the motions. -/
theorem C9_selection_rectangle_stays_normalized (glyph_width glyph_height : Int)
    (screen : VTermScreen) (mouse : MouseState) (motions : List (Int × Int))
    (hw : glyph_width ≠ 0) (hh : glyph_height ≠ 0) :
    (on_mouse_button_down mouse 1).rect.normalized ∧
    ∃ mouse2, on_mouse_motions glyph_width glyph_height screen
        (on_mouse_button_down mouse 1) motions = some mouse2 ∧
      mouse2.rect.normalized := by
  have hp : (on_mouse_button_down mouse 1).rect.normalized := by
    simp [on_mouse_button_down, VTermRect.normalized]
  obtain ⟨mouse2, h1, _, h3⟩ :=
    on_mouse_motions_normalized glyph_width glyph_height screen hw hh motions
      (on_mouse_button_down mouse 1) (by simp [on_mouse_button_down]) hp
  exact ⟨hp, mouse2, h1, h3⟩

/-- C9 at a concrete drag on 8x16 glyph boxes: press at cell (5, 5), then up and
left to (3, 2), then down and right to (7, 9). -/
theorem C9_selection_rectangle_stays_normalized_witness :
    (on_mouse_button_down mouse_at_5_5 1).rect.normalized ∧
    ∃ mouse2, on_mouse_motions 8 16 blank_screen (on_mouse_button_down mouse_at_5_5 1)
        [(16, 48), (72, 112)] = some mouse2 ∧
      mouse2.rect.normalized :=
  C9_selection_rectangle_stays_normalized 8 16 blank_screen mouse_at_5_5 [(16, 48), (72, 112)]
    (by decide) (by decide)

/-- C10: after a press at cell (row 5, col 5) and drag motions to cell (3, 5)
and then (4, 5), the code leaves the rectangle rows [3, 4], where anchor (5, 5)
and last cell (4, 5) span rows [4, 5]: the motion handler compares the cell
with `rect.start_row`, which the first motion had moved off the anchor. The
same happens per column. A drag to (3, 5) and then (7, 5) leaves rows [3, 7]
instead of [5, 7]. -/
theorem C10_rectangle_depends_on_intermediate_cells :
    (on_mouse_button_down mouse_at_5_5 1).rect = ⟨5, 5, 5, 5⟩ ∧
    (on_mouse_motions 8 16 blank_screen (on_mouse_button_down mouse_at_5_5 1)
      [(40, 48), (40, 64)]).map (fun m => (m.cell, m.rect)) =
        some (⟨4, 5⟩, ⟨3, 4, 5, 5⟩) ∧
    ((min 5 4 : Int), (max 5 4 : Int)) = (4, 5) ∧
    (on_mouse_motions 8 16 blank_screen (on_mouse_button_down mouse_at_5_5 1)
      [(40, 64)]).map (fun m => (m.cell, m.rect)) = some (⟨4, 5⟩, ⟨4, 5, 5, 5⟩) ∧
    (on_mouse_motions 8 16 blank_screen (on_mouse_button_down mouse_at_5_5 1)
      [(40, 48), (40, 112)]).map (fun m => (m.cell, m.rect)) =
        some (⟨7, 5⟩, ⟨3, 7, 5, 5⟩) ∧
    (on_mouse_motions 8 16 blank_screen (on_mouse_button_down mouse_at_5_5 1)
      [(24, 80), (32, 80)]).map (fun m => (m.cell, m.rect)) =
        some (⟨5, 4⟩, ⟨5, 5, 3, 4⟩) := by
  refine ⟨by decide, by decide, by decide, by decide, by decide, by decide⟩

theorem render_history_lines_eq (history : TerminalHistory) (fuel : Nat) :
    ∀ index row, index ≤ history.length →
      render_history_lines history fuel index row = some
        (render_history_items ((history.elements.drop index).take fuel) row,
          row + min fuel (history.length - index)) := by
  induction fuel with
  | zero =>
    intro index row _
    simp [render_history_lines, render_history_items]
  | succ fuel ih =>
    intro index row hle
    by_cases he : index = history.length
    · subst he
      simp [render_history_lines, render_history_items, TerminalHistory.length]
    · have hlt : index < history.elements.length := by
        simp only [TerminalHistory.length] at hle he
        omega
      have hd : history.elements.drop index =
          history.elements[index] :: history.elements.drop (index + 1) :=
        List.drop_eq_getElem_cons hlt
      have hi := ih (index + 1) (row + 1) (by simp only [TerminalHistory.length]; omega)
      simp only [render_history_lines, he, if_false, List.getElem?_eq_getElem hlt, hi, hd,
        List.take_succ_cons, render_history_items, List.enumFrom_cons, List.flatMap_cons,
        Option.some.injEq, Prod.mk.injEq, true_and]
      simp only [TerminalHistory.length]
      omega

/-- What `render_terminal_history` draws at an offset within `[0, length]`:
the visible history lines in the top rows, then live screen rows beneath. -/
theorem render_terminal_history_eq (screen : VTermScreen) (history : TerminalHistory)
    (rows cols : Int) (ho : history.offset ≤ history.length) (hl : history.length < 2 ^ 64) :
    render_terminal_history screen history rows cols = some
      (render_history_items (history.visible rows) 0 ++
        render_live_rows screen rows cols (min history.offset rows.toNat)) ∧
    (history.visible rows).length = min history.offset rows.toNat := by
  have hidx : (((history.length : Int) - (history.offset : Int)) % 2 ^ 64).toNat =
      history.length - history.offset := by
    have h1 : (0 : Int) ≤ (history.length : Int) - (history.offset : Int) := by omega
    have h2 : (history.length : Int) - (history.offset : Int) < 2 ^ 64 := by
      have : ((history.length : Nat) : Int) < 2 ^ 64 := by exact_mod_cast hl
      omega
    rw [Int.emod_eq_of_lt h1 h2]
    omega
  constructor
  · simp only [render_terminal_history, hidx]
    rw [render_history_lines_eq history rows.toNat (history.length - history.offset) 0
      (by omega)]
    simp only [TerminalHistory.visible, Nat.zero_add]
    have : history.length - (history.length - history.offset) = history.offset := by omega
    rw [this, Nat.min_comm]
  · simp only [TerminalHistory.visible, List.length_take, List.length_drop,
      TerminalHistory.length] at *
    omega

theorem terminal_sb_pushlines_enabled (configuration : HistoryConfiguration)
    (he : configuration.enable = true) (pushes : List (Int × List VTermScreenCell)) :
    ∀ history : TerminalHistory, (∀ p ∈ pushes, 0 ≤ p.1 ∧ p.1 ≤ p.2.length) →
      ∃ history1, terminal_sb_pushlines configuration history pushes = some history1 ∧
        history1.elements = history.elements ++ pushes.map pushed_item ∧
        history1.offset = history.offset := by
  induction pushes with
  | nil => intro history _; exact ⟨history, rfl, by simp, rfl⟩
  | cons p rest ih =>
    intro history hv
    obtain ⟨h0, h1⟩ := hv p (List.mem_cons_self p rest)
    obtain ⟨history1, k1, k2, k3⟩ := ih
      { history with
        size := if history.length = history.size then (history.size + 100) * 2
          else history.size
        elements := history.elements ++ [{ line := p.2.take p.1.toNat }] }
      (fun q hq => hv q (List.mem_cons_of_mem p hq))
    refine ⟨history1, ?_, ?_, k3⟩
    · simp only [terminal_sb_pushlines,
        terminal_sb_pushline_enabled configuration he history p.1 p.2 h0 h1, k1]
    · rw [k2]
      simp [pushed_item]

/-- C6 fails as stated: after one pushed line `ab` the view at offset 0 of a
1-row, 2-column viewport draws the live screen row 0 (two spaces here) and no
history line, where the claim has the most recent min(1, 1) = 1 history line
in the top row. -/
theorem C6_counterexample_offset_zero_is_live :
    ∃ history, terminal_sb_pushlines ⟨1000, false, true⟩ TerminalHistory.empty
        [(2, [plain_cell 97, plain_cell 98])] = some history ∧
      history.length = 1 ∧ history.offset = 0 ∧
      render_terminal_history blank_screen history 1 2 =
        some [⟨plain_cell 32, ⟨0, 0⟩⟩, ⟨plain_cell 32, ⟨0, 1⟩⟩] ∧
      render_terminal_history blank_screen history 1 2 ≠
        some [⟨plain_cell 97, ⟨0, 0⟩⟩, ⟨plain_cell 98, ⟨0, 1⟩⟩] :=
  ⟨_, rfl, by decide, by decide, by decide, by decide⟩

/-- C6 (amended): after pushing `K` lines into an enabled, empty history the
history holds them in push order with the view at offset 0, and
`render_terminal_history` at an offset `o` in `[0, K]` draws, with
`h = min(o, rows)`, the history lines `K - o, .., K - o + h - 1` in the viewport
rows `0 .. h - 1` followed by the live screen rows `0 .. rows - h - 1` in the
viewport rows `h .. rows - 1`, every viewport row once; at offset 0 it draws no
history line, only the live screen rows; at offset `K` (with at least one
row) the first row drawn is the oldest history line, index 0. -/
theorem C6_history_lines_then_live_rows (screen : VTermScreen)
    (configuration : HistoryConfiguration) (pushes : List (Int × List VTermScreenCell))
    (rows cols : Int) (he : configuration.enable = true)
    (hv : ∀ p ∈ pushes, 0 ≤ p.1 ∧ p.1 ≤ p.2.length) (hK : pushes.length < 2 ^ 64) :
    ∃ history, terminal_sb_pushlines configuration TerminalHistory.empty pushes = some history ∧
      history.length = pushes.length ∧ history.offset = 0 ∧
      history.elements = pushes.map pushed_item ∧
      (∀ offset, offset ≤ pushes.length →
        render_terminal_history screen { history with offset := offset } rows cols = some
          (render_history_items
              ((history.elements.drop (pushes.length - offset)).take rows.toNat) 0 ++
            render_live_rows screen rows cols (min offset rows.toNat)) ∧
        ((history.elements.drop (pushes.length - offset)).take rows.toNat).length =
          min offset rows.toNat) ∧
      render_terminal_history screen history rows cols =
        some (render_live_rows screen rows cols 0) ∧
      (∀ first rest, pushes = first :: rest → 0 < rows →
        ∃ more, render_terminal_history screen { history with offset := pushes.length }
          rows cols = some (render_history_item (pushed_item first) 0 ++ more)) := by
  obtain ⟨history, h1, h2, h3⟩ :=
    terminal_sb_pushlines_enabled configuration he pushes TerminalHistory.empty hv
  simp only [TerminalHistory.empty, List.nil_append] at h2 h3
  have hlen : history.length = pushes.length := by
    simp [TerminalHistory.length, h2]
  have hat : ∀ offset, offset ≤ pushes.length →
      render_terminal_history screen { history with offset := offset } rows cols = some
        (render_history_items
            ((history.elements.drop (pushes.length - offset)).take rows.toNat) 0 ++
          render_live_rows screen rows cols (min offset rows.toNat)) ∧
      ((history.elements.drop (pushes.length - offset)).take rows.toNat).length =
        min offset rows.toNat := by
    intro offset ho
    have hl2 : ({ history with offset := offset } : TerminalHistory).length = pushes.length :=
      hlen
    have := render_terminal_history_eq screen { history with offset := offset } rows cols
      (by rw [hl2]; exact ho) (by rw [hl2]; exact hK)
    simpa only [TerminalHistory.visible, hl2] using this
  refine ⟨history, h1, hlen, h3, h2, hat, ?_, ?_⟩
  · have h0 := (hat 0 (Nat.zero_le _)).1
    have e : ({ history with offset := 0 } : TerminalHistory) = history := by
      cases history
      simp only [TerminalHistory.mk.injEq, true_and] at h3 ⊢
      simp [h3]
    rw [e] at h0
    rw [h0]
    simp [render_history_items, List.drop_eq_nil_of_le, h2]
  · intro first rest hp hr
    have hk := (hat pushes.length (Nat.le_refl _)).1
    obtain ⟨n, hn⟩ : ∃ n, rows.toNat = n + 1 := ⟨rows.toNat - 1, by omega⟩
    refine ⟨render_history_items ((rest.map pushed_item).take n) 1 ++
      render_live_rows screen rows cols (min pushes.length rows.toNat), ?_⟩
    rw [hk, hn, h2, hp]
    simp only [Nat.sub_self, List.drop_zero, List.map_cons, List.take_succ_cons,
      render_history_items, List.enumFrom_cons, List.flatMap_cons, List.append_assoc]

/-- C6 at a concrete input: the three pushed lines `ab`, `c`, `de` in a 2x2
viewport: scrolled back by one line the top row shows `de` and the second row
the live row 0; at offset 0 both rows are live rows. -/
theorem C6_history_lines_then_live_rows_witness :
    ∃ history, terminal_sb_pushlines ⟨1000, false, true⟩ TerminalHistory.empty three_pushes =
        some history ∧
      history.length = 3 ∧
      render_terminal_history blank_screen { history with offset := 1 } 2 2 = some
        [⟨plain_cell 100, ⟨0, 0⟩⟩, ⟨plain_cell 101, ⟨0, 1⟩⟩,
         ⟨plain_cell 32, ⟨1, 0⟩⟩, ⟨plain_cell 32, ⟨1, 1⟩⟩] ∧
      render_terminal_history blank_screen history 2 2 = some
        [⟨plain_cell 32, ⟨0, 0⟩⟩, ⟨plain_cell 32, ⟨0, 1⟩⟩,
         ⟨plain_cell 32, ⟨1, 0⟩⟩, ⟨plain_cell 32, ⟨1, 1⟩⟩] := by
  obtain ⟨history, h1, h2, _, h4, h5, h6, _⟩ :=
    C6_history_lines_then_live_rows blank_screen ⟨1000, false, true⟩ three_pushes 2 2 rfl
      (by decide) (by decide)
  refine ⟨history, h1, h2, ?_, ?_⟩
  · rw [(h5 1 (by decide)).1, h4]
    decide
  · rw [h6]
    decide

/-! ## `ini.c`: the configuration-file reader -/

theorem under_section_from_false (items : List IniFileItem) (section_name : String) (i : Nat) :
    under_section_from false items section_name i ↔ under_section items section_name i := by
  simp [under_section_from]

theorem under_section_from_zero (b : Bool) (items : List IniFileItem) (section_name : String) :
    under_section_from b items section_name 0 ↔ b = true := by
  constructor
  · rintro (⟨h, _⟩ | ⟨j, _, hj, _⟩)
    · exact h
    · omega
  · intro h
    exact Or.inl ⟨h, by intro k _ hk; omega⟩

theorem under_section_from_cons_header (b : Bool) (x : IniFileItem) (rest : List IniFileItem)
    (section_name : String) (i : Nat) (hx : x.kind = IniFileItemKind.IniFile_Section) :
    under_section_from b (x :: rest) section_name (i + 1) ↔
      under_section_from (decide (x.name = section_name)) rest section_name i := by
  constructor
  · rintro (⟨_, h⟩ | ⟨j, header, hj, hh, hk, hn, hb⟩)
    · exact absurd hx (h 0 x (Nat.succ_pos i) (by simp))
    · cases j with
      | zero =>
        simp only [List.getElem?_cons_zero, Option.some.injEq] at hh
        subst hh
        refine Or.inl ⟨by simpa using hn, ?_⟩
        intro k item hki hitem
        exact hb (k + 1) item (by omega) (by omega) (by simpa using hitem)
      | succ j =>
        refine Or.inr ⟨j, header, by omega, by simpa using hh, hk, hn, ?_⟩
        intro k item hjk hki hitem
        exact hb (k + 1) item (by omega) (by omega) (by simpa using hitem)
  · rintro (⟨hn, h⟩ | ⟨j, header, hj, hh, hk, hn, hb⟩)
    · refine Or.inr ⟨0, x, Nat.succ_pos i, by simp, hx, by simpa using hn, ?_⟩
      intro k item hk0 hki hitem
      cases k with
      | zero => omega
      | succ k => exact h k item (by omega) (by simpa using hitem)
    · refine Or.inr ⟨j + 1, header, by omega, by simpa using hh, hk, hn, ?_⟩
      intro k item hjk hki hitem
      cases k with
      | zero => omega
      | succ k => exact hb k item (by omega) (by omega) (by simpa using hitem)

theorem under_section_from_cons_item (b : Bool) (x : IniFileItem) (rest : List IniFileItem)
    (section_name : String) (i : Nat) (hx : x.kind = IniFileItemKind.IniFile_Item) :
    under_section_from b (x :: rest) section_name (i + 1) ↔
      under_section_from b rest section_name i := by
  have hne : x.kind ≠ IniFileItemKind.IniFile_Section := by rw [hx]; decide
  constructor
  · rintro (⟨hb, h⟩ | ⟨j, header, hj, hh, hk, hn, hb⟩)
    · refine Or.inl ⟨hb, ?_⟩
      intro k item hki hitem
      exact h (k + 1) item (by omega) (by simpa using hitem)
    · cases j with
      | zero =>
        simp only [List.getElem?_cons_zero, Option.some.injEq] at hh
        subst hh
        exact absurd hk hne
      | succ j =>
        refine Or.inr ⟨j, header, by omega, by simpa using hh, hk, hn, ?_⟩
        intro k item hjk hki hitem
        exact hb (k + 1) item (by omega) (by omega) (by simpa using hitem)
  · rintro (⟨hb, h⟩ | ⟨j, header, hj, hh, hk, hn, hb⟩)
    · refine Or.inl ⟨hb, ?_⟩
      intro k item hki hitem
      cases k with
      | zero =>
        simp only [List.getElem?_cons_zero, Option.some.injEq] at hitem
        subst hitem
        exact hne
      | succ k => exact h k item (by omega) (by simpa using hitem)
    · refine Or.inr ⟨j + 1, header, by omega, by simpa using hh, hk, hn, ?_⟩
      intro k item hjk hki hitem
      cases k with
      | zero => omega
      | succ k => exact hb k item (by omega) (by omega) (by simpa using hitem)

/-- What the loop of `ini_get_value` returns on fully written slots, for any
starting value of `in_section`. -/
theorem ini_get_value_loop_spec (section_name key : String) (items : List IniFileItem) :
    ∀ b : Bool,
      (∀ i item, items[i]? = some item → item.kind = IniFileItemKind.IniFile_Item →
        item.name = key → under_section_from b items section_name i →
        (∀ i1 item1, i1 < i → items[i1]? = some item1 →
          item1.kind = IniFileItemKind.IniFile_Item → item1.name = key →
          ¬ under_section_from b items section_name i1) →
        ini_get_value_loop section_name key b (items.map some) = some item.value) ∧
      ((∀ i item, items[i]? = some item → item.kind = IniFileItemKind.IniFile_Item →
        item.name = key → ¬ under_section_from b items section_name i) →
        ini_get_value_loop section_name key b (items.map some) = some none) := by
  induction items with
  | nil =>
    intro b
    exact ⟨by intro i item h; simp at h, fun _ => rfl⟩
  | cons x rest ih =>
    intro b
    cases hx : x.kind with
    | IniFile_Section =>
      have hstep : ini_get_value_loop section_name key b ((x :: rest).map some) =
          ini_get_value_loop section_name key (decide (x.name = section_name))
            (rest.map some) := by
        simp [ini_get_value_loop, hx]
      obtain ⟨ih1, ih2⟩ := ih (decide (x.name = section_name))
      rw [hstep]
      constructor
      · intro i item hi hk hn hu hmin
        cases i with
        | zero =>
          simp only [List.getElem?_cons_zero, Option.some.injEq] at hi
          subst hi
          rw [hx] at hk
          cases hk
        | succ i =>
          refine ih1 i item (by simpa using hi) hk hn
            ((under_section_from_cons_header b x rest section_name i hx).1 hu) ?_
          intro i1 item1 hlt h1 hk1 hn1 hu1
          exact hmin (i1 + 1) item1 (by omega) (by simpa using h1) hk1 hn1
            ((under_section_from_cons_header b x rest section_name i1 hx).2 hu1)
      · intro hnone
        refine ih2 ?_
        intro i item hi hk hn hu
        exact hnone (i + 1) item (by simpa using hi) hk hn
          ((under_section_from_cons_header b x rest section_name i hx).2 hu)
    | IniFile_Item =>
      by_cases hhit : b = true ∧ x.name = key
      · have hstep : ini_get_value_loop section_name key b ((x :: rest).map some) =
            some x.value := by
          simp [ini_get_value_loop, hx, hhit]
        have h0 : under_section_from b (x :: rest) section_name 0 :=
          (under_section_from_zero b (x :: rest) section_name).2 hhit.1
        rw [hstep]
        constructor
        · intro i item hi hk hn hu hmin
          cases i with
          | zero =>
            simp only [List.getElem?_cons_zero, Option.some.injEq] at hi
            subst hi
            rfl
          | succ i => exact absurd h0 (hmin 0 x (Nat.succ_pos i) (by simp) hx hhit.2)
        · intro hnone
          exact absurd h0 (hnone 0 x (by simp) hx hhit.2)
      · have hstep : ini_get_value_loop section_name key b ((x :: rest).map some) =
            ini_get_value_loop section_name key b (rest.map some) := by
          simp only [List.map_cons, ini_get_value_loop, hx]
          rw [if_neg hhit]
        obtain ⟨ih1, ih2⟩ := ih b
        rw [hstep]
        constructor
        · intro i item hi hk hn hu hmin
          cases i with
          | zero =>
            simp only [List.getElem?_cons_zero, Option.some.injEq] at hi
            subst hi
            exact absurd ⟨(under_section_from_zero b _ section_name).1 hu, hn⟩ hhit
          | succ i =>
            refine ih1 i item (by simpa using hi) hk hn
              ((under_section_from_cons_item b x rest section_name i hx).1 hu) ?_
            intro i1 item1 hlt h1 hk1 hn1 hu1
            exact hmin (i1 + 1) item1 (by omega) (by simpa using h1) hk1 hn1
              ((under_section_from_cons_item b x rest section_name i1 hx).2 hu1)
        · intro hnone
          refine ih2 ?_
          intro i item hi hk hn hu
          exact hnone (i + 1) item (by simpa using hi) hk hn
            ((under_section_from_cons_item b x rest section_name i hx).2 hu)

/-- Items before the first section header are skipped by the scan. -/
theorem ini_get_value_loop_skip (section_name key : String) (pre : List IniFileItem)
    (rest : List (Option IniFileItem))
    (hpre : ∀ item ∈ pre, item.kind = IniFileItemKind.IniFile_Item) :
    ini_get_value_loop section_name key false (pre.map some ++ rest) =
      ini_get_value_loop section_name key false rest := by
  induction pre with
  | nil => rfl
  | cons x pre ih =>
    have hx := hpre x (List.mem_cons_self x pre)
    simp only [List.map_cons, List.cons_append, ini_get_value_loop, hx]
    rw [if_neg (by simp)]
    exact ih (fun item hi => hpre item (List.mem_cons_of_mem x hi))

/-- C16: on an item list whose slots are all written, `ini_get_value` returns
the value of the first item named `key` that lies under a section header named
`section` (after that header and before the next header), and `NULL` when no
item named `key` lies under such a header, so also when the section does not
exist; items that precede every section header are skipped and never
returned. -/
theorem C16_ini_get_value_first_key_under_section (items : List IniFileItem)
    (section_name key : String) :
    (∀ i item, items[i]? = some item → key_under_section items section_name key i →
      (∀ i1, i1 < i → ¬ key_under_section items section_name key i1) →
      ini_get_value (IniFile.of_items items) section_name key = some item.value) ∧
    ((∀ i, ¬ key_under_section items section_name key i) →
      ini_get_value (IniFile.of_items items) section_name key = some none) ∧
    ((∀ (j : Nat) (header : IniFileItem), items[j]? = some header →
        header.kind = IniFileItemKind.IniFile_Section → header.name ≠ section_name) →
      ini_get_value (IniFile.of_items items) section_name key = some none) ∧
    (∀ pre rest : List IniFileItem,
      (∀ item ∈ pre, item.kind = IniFileItemKind.IniFile_Item) →
      ini_get_value (IniFile.of_items (pre ++ rest)) section_name key =
        ini_get_value (IniFile.of_items rest) section_name key) := by
  obtain ⟨h1, h2⟩ := ini_get_value_loop_spec section_name key items false
  have hnone : (∀ i, ¬ key_under_section items section_name key i) →
      ini_get_value (IniFile.of_items items) section_name key = some none := by
    intro hno
    refine h2 ?_
    intro i item hi hk hn hu
    exact hno i ⟨⟨item, hi, hk, hn⟩, (under_section_from_false items section_name i).1 hu⟩
  refine ⟨?_, hnone, ?_, ?_⟩
  · rintro i item hi ⟨⟨item1, hi1, hk, hn⟩, hu⟩ hmin
    rw [hi] at hi1
    cases hi1
    refine h1 i item hi hk hn ((under_section_from_false items section_name i).2 hu) ?_
    intro i1 item1 hlt hi1 hk1 hn1 hu1
    exact hmin i1 hlt ⟨⟨item1, hi1, hk1, hn1⟩,
      (under_section_from_false items section_name i1).1 hu1⟩
  · intro hnosec
    refine hnone ?_
    rintro i ⟨_, j, header, _, hj, hk, hn, _⟩
    exact hnosec j header hj hk hn
  · intro pre rest hpre
    simp only [ini_get_value, IniFile.of_items, List.map_append]
    exact ini_get_value_loop_skip section_name key pre (rest.map some) hpre

/-- C16 on the sample file: `width` under `[window]` is the first one, 800, not
the 640 of the second `[window]` block nor the 7 under `[font]`; `height` is
found in the second `[window]` block; `a`, which precedes every header, is not
returned for any section. -/
theorem C16_ini_get_value_first_key_under_section_witness :
    ini_get_value (IniFile.of_items sample_items) "window" "width" = some (some "800") ∧
    ini_get_value (IniFile.of_items sample_items) "window" "height" = some (some "480") ∧
    ini_get_value (IniFile.of_items sample_items) "nosuch" "width" = some none ∧
    ini_get_value (IniFile.of_items sample_items) "window" "a" =
      ini_get_value (IniFile.of_items sample_items.tail) "window" "a" := by
  refine ⟨?_, ?_, ?_, ?_⟩
  · exact (C16_ini_get_value_first_key_under_section sample_items "window" "width").1 2
      ⟨IniFileItemKind.IniFile_Item, "width", some "800"⟩ rfl
      ⟨⟨_, rfl, rfl, rfl⟩, 1, ⟨IniFileItemKind.IniFile_Section, "window", none⟩,
        by decide, rfl, rfl, rfl, by intro k item h1 h2; omega⟩
      (by
        rintro i1 hlt ⟨⟨item, hi, hk, hn⟩, _⟩
        have : i1 = 0 ∨ i1 = 1 := by omega
        rcases this with rfl | rfl
        · simp only [sample_items, List.getElem?_cons_zero, Option.some.injEq] at hi
          subst hi
          exact absurd hn (by decide)
        · simp only [sample_items, List.getElem?_cons_succ, List.getElem?_cons_zero,
            Option.some.injEq] at hi
          subst hi
          exact absurd hk (by decide))
  · decide
  · exact (C16_ini_get_value_first_key_under_section sample_items "nosuch" "width").2.2.1
      (by
        intro j header hj hk
        have hlt : j < sample_items.length := by
          by_contra hc
          rw [List.getElem?_eq_none (by omega)] at hj
          cases hj
        simp only [sample_items, List.length_cons, List.length_nil] at hlt
        interval_cases j <;>
          simp only [sample_items, List.getElem?_cons_succ, List.getElem?_cons_zero,
            Option.some.injEq] at hj <;> subst hj <;> first | (exact absurd hk (by decide)) | decide)
  · exact (C16_ini_get_value_first_key_under_section sample_items "window" "a").2.2.2
      [⟨IniFileItemKind.IniFile_Item, "a", some "0"⟩] sample_items.tail
      (by intro item hi; rw [List.mem_singleton.1 hi])

/-! ## Slot rectangles of the atlas -/

theorem to_uint32_mul (index : Nat) (a : Nat) (h : index * a < 2 ^ 31) :
    (index * to_uint32 (a : Int)) % 2 ^ 32 = index * a := by
  have e : to_uint32 (a : Int) = a % 2 ^ 32 := by
    simp only [to_uint32]
    omega
  rw [e, Nat.mul_mod, Nat.mod_mod, ← Nat.mul_mod]
  exact Nat.mod_eq_of_lt (by omega)

/-- Within the `int` range the unsigned arithmetic of `get_srcrect` and the
`int` arithmetic of `append_glyph` give the same rectangle for a slot. -/
theorem get_srcrect_eq_dstrect (font : FOX_Font) (page : FOX_Page) (index : Nat)
    (hw : 0 ≤ font.font_width ∧ font.font_width < 32768)
    (hh : 0 ≤ font.font_height ∧ font.font_height < 32768) (hi : index < 65536)
    (htw : 0 < page.texture_width ∧ page.texture_width < 2 ^ 31)
    (hth : 0 < page.texture_height ∧ page.texture_height < 2 ^ 31) :
    get_srcrect font page index =
      append_glyph_dstrect font { page with num_glyphs := index } := by
  obtain ⟨a, ha⟩ := Int.eq_ofNat_of_zero_le hw.1
  obtain ⟨b, hb⟩ := Int.eq_ofNat_of_zero_le hh.1
  obtain ⟨c, hc⟩ := Int.eq_ofNat_of_zero_le (le_of_lt htw.1)
  obtain ⟨d, hd⟩ := Int.eq_ofNat_of_zero_le (le_of_lt hth.1)
  have ha2 : a < 32768 := by omega
  have hb2 : b < 32768 := by omega
  have hc2 : 0 < c ∧ c < 2 ^ 31 := by omega
  have hd2 : 0 < d ∧ d < 2 ^ 31 := by omega
  have hpa : index * a < 2 ^ 31 := by
    calc index * a ≤ 65535 * 32767 := Nat.mul_le_mul (by omega) (by omega)
      _ < 2 ^ 31 := by norm_num
  have hpb : index * b < 2 ^ 31 := by
    calc index * b ≤ 65535 * 32767 := Nat.mul_le_mul (by omega) (by omega)
      _ < 2 ^ 31 := by norm_num
  have ec : to_uint32 (c : Int) = c := by
    simp only [to_uint32]
    omega
  have ed : to_uint32 (d : Int) = d := by
    simp only [to_uint32]
    omega
  have hx : index * a % c < 2 ^ 31 := lt_of_lt_of_le (Nat.mod_lt _ hc2.1) (by omega)
  have hy : index * b / d < 2 ^ 31 := lt_of_le_of_lt (Nat.div_le_self _ _) hpb
  simp only [get_srcrect, append_glyph_dstrect, ha, hb, hc, hd, to_uint32_mul index a hpa,
    to_uint32_mul index b hpb, ec, ed, to_int32, hx, hy, if_true]
  have e1 : Int.tmod ((index : Int) * (a : Int)) (c : Int) = ((index * a % c : Nat) : Int) := by
    rw [Int.tmod_eq_emod (by positivity) (by positivity)]
    norm_cast
  have e2 : Int.tdiv ((index : Int) * (b : Int)) (d : Int) = ((index * b / d : Nat) : Int) := by
    rw [Int.tdiv_eq_ediv (by positivity) (by positivity)]
    norm_cast
  rw [e1, e2]

theorem create_page_texture (fw fh : Int) (p0 : FOX_Page) (h : create_page fw fh = some p0) :
    p0.texture_width = 1000 ∧ p0.texture_height = 1000 := by
  simp only [create_page] at h
  split_ifs at h
  simp only [Option.some.injEq] at h
  subst h
  exact ⟨rfl, rfl⟩

/-- The page `find_free_page` returns: the first page with room, unchanged
font; or a new last page from `create_page`. -/
theorem find_free_page_eq_some (font font0 : FOX_Font) (i : Nat) (page : FOX_Page)
    (h : find_free_page font = some (font0, i)) (hp : font0.pages[i]? = some page) :
    font0.font_width = font.font_width ∧ font0.font_height = font.font_height ∧
    (∀ i0, first_free_page font.pages = some i0 →
      i0 = i ∧ font0 = font ∧ page.num_glyphs < page.glyph_capacity ∧
      ∀ j page1, j < i → font.pages[j]? = some page1 →
        ¬ page1.num_glyphs < page1.glyph_capacity) ∧
    (first_free_page font.pages = none →
      i = font.pages.length ∧ font0.pages = font.pages ++ [page] ∧
      create_page font.font_width font.font_height = some page) := by
  unfold find_free_page at h
  cases hf : first_free_page font.pages with
  | some i1 =>
    simp only [hf, Option.some.injEq, Prod.mk.injEq] at h
    obtain ⟨rfl, rfl⟩ := h
    obtain ⟨page2, h1, h2, h3⟩ := first_free_page_eq_some font.pages i1 hf
    rw [hp] at h1
    cases h1
    refine ⟨rfl, rfl, ?_, by intro hc; cases hc⟩
    intro i0 hi0
    cases hi0
    exact ⟨rfl, rfl, h2, h3⟩
  | none =>
    simp only [hf, append_page] at h
    by_cases h10 : font.pages.length < 10
    · simp only [h10, if_true] at h
      cases hc : create_page font.font_width font.font_height with
      | none => simp [hc] at h
      | some page0 =>
        simp only [hc, Option.some.injEq, Prod.mk.injEq] at h
        obtain ⟨rfl, rfl⟩ := h
        simp at hp
        subst hp
        exact ⟨rfl, rfl, (by intro i0 hc0; cases hc0), fun _ => ⟨rfl, rfl, rfl⟩⟩
    · simp [h10] at h

/-- C17: a successful `append_glyph` stores the codepoint at slot `s`, the
used-count of the page `find_free_page` returns (the first page with free
capacity, or a new page when none has room), copies the bitmap to the
rectangle with top-left `(s * fw mod pageW, s * fh / pageH)` and size
`fw x fh`, and increments that page's used-count by exactly 1, leaving the
other pages alone; and for every page and slot `get_srcrect` returns exactly
that rectangle, so the glyph is read back from where it was stored. -/
theorem C17_append_glyph_stores_at_next_slot :
    (∀ (font font1 : FOX_Font) (glyph i s : Nat) (effects : List FOX_Effect),
      font.well_typed →
      (0 ≤ font.font_width ∧ font.font_width < 32768) →
      (0 ≤ font.font_height ∧ font.font_height < 32768) →
      (∀ page ∈ font.pages, page.texture_width = 1000 ∧ page.texture_height = 1000) →
      append_glyph font glyph = some (font1, i, s, effects) →
      ∃ font0 page page1,
        find_free_page font = some (font0, i) ∧ font0.pages[i]? = some page ∧
        (∀ i0, first_free_page font.pages = some i0 →
          i0 = i ∧ font0 = font ∧ page.num_glyphs < page.glyph_capacity ∧
          ∀ j page2, j < i → font.pages[j]? = some page2 →
            ¬ page2.num_glyphs < page2.glyph_capacity) ∧
        (first_free_page font.pages = none →
          i = font.pages.length ∧ font0.pages = font.pages ++ [page] ∧
          create_page font.font_width font.font_height = some page) ∧
        s = page.num_glyphs ∧
        effects = [FOX_Effect.create_glyph glyph,
          FOX_Effect.copy_to_page i
            { x := Int.tmod (s * font.font_width) page.texture_width
              y := Int.tdiv (s * font.font_height) page.texture_height
              w := font.font_width, h := font.font_height }] ∧
        font1.pages[i]? = some page1 ∧
        page1.atlas[s]? = some glyph ∧
        page1.num_glyphs = page.num_glyphs + 1 ∧
        page1.glyph_capacity = page.glyph_capacity ∧
        (∀ k, k ≠ s → page1.atlas[k]? = page.atlas[k]?) ∧
        (∀ j, j ≠ i → font1.pages[j]? = font0.pages[j]?) ∧
        get_srcrect font1 page1 s =
          { x := Int.tmod (s * font.font_width) page.texture_width
            y := Int.tdiv (s * font.font_height) page.texture_height
            w := font.font_width, h := font.font_height }) ∧
    (∀ (font : FOX_Font) (page : FOX_Page) (index : Nat),
      (0 ≤ font.font_width ∧ font.font_width < 32768) →
      (0 ≤ font.font_height ∧ font.font_height < 32768) → index < 65536 →
      (0 < page.texture_width ∧ page.texture_width < 2 ^ 31) →
      (0 < page.texture_height ∧ page.texture_height < 2 ^ 31) →
      get_srcrect font page index =
        { x := Int.tmod (index * font.font_width) page.texture_width
          y := Int.tdiv (index * font.font_height) page.texture_height
          w := font.font_width, h := font.font_height }) := by
  constructor
  · intro font font1 glyph i s effects ht hw hh htex h
    obtain ⟨font0, page, h1, h2, h3, h4, rfl, rfl⟩ :=
      append_glyph_eq_some font font1 glyph i s effects h
    obtain ⟨f1, f2, f3, f4⟩ := find_free_page_eq_some font font0 i page h1 h2
    have hn := find_free_page_num_glyphs font font0 i page ht h1 h2
    have hi : i < font0.pages.length := by
      by_contra hc
      rw [List.getElem?_eq_none (by omega)] at h2
      cases h2
    have htp : page.texture_width = 1000 ∧ page.texture_height = 1000 := by
      cases hf : first_free_page font.pages with
      | some i0 =>
        obtain ⟨_, e, _, _⟩ := f3 i0 hf
        rw [e] at h2
        exact htex page (List.getElem?_mem h2)
      | none => exact create_page_texture _ _ page (f4 hf).2.2
    subst h3
    refine ⟨font0, page, page.store glyph, h1, h2, f3, f4, rfl, ?_, ?_, ?_, ?_, rfl, ?_, ?_, ?_⟩
    · simp only [append_glyph_dstrect, f1, f2]
    · simp [List.getElem?_set, hi]
    · simp [FOX_Page.store, h4]
    · simp only [FOX_Page.store, Nat.mod_eq_of_lt hn]
    · intro k hk
      simp only [FOX_Page.store]
      rw [List.getElem?_set_ne (fun e => hk e.symm)]
    · intro j hj
      simp only
      rw [List.getElem?_set_ne (fun e => hj e.symm)]
    · have := get_srcrect_eq_dstrect
        { font0 with pages := font0.pages.set i (page.store glyph) } (page.store glyph)
        page.num_glyphs (by simpa only [f1] using hw) (by simpa only [f2] using hh) (by omega)
        (by simp [FOX_Page.store, htp.1]) (by simp [FOX_Page.store, htp.2])
      rw [this]
      simp only [append_glyph_dstrect, FOX_Page.store, f1, f2]
  · intro font page index hw hh hi htw hth
    rw [get_srcrect_eq_dstrect font page index hw hh hi htw hth]
    rfl

/-- C17 at a concrete atlas: appending 67 to `font_with_two_glyphs` (two of
four slots used, 500x500 boxes) stores it at page 0, slot 2, copies it to the
rectangle at (0, 1), and `get_srcrect` gives that rectangle for slot 2. -/
theorem C17_append_glyph_stores_at_next_slot_witness :
    append_glyph font_with_two_glyphs 67 = some
      ({ font_with_two_glyphs with pages := [page_with [65, 66, 67, 0] 3] }, 0, 2,
        [FOX_Effect.create_glyph 67, FOX_Effect.copy_to_page 0 ⟨0, 1, 500, 500⟩]) ∧
    (∃ (font0 : FOX_Font) (page page1 : FOX_Page),
      find_free_page font_with_two_glyphs = some (font0, 0) ∧
      font0.pages[0]? = some page ∧ 2 = page.num_glyphs ∧
      page1.atlas[2]? = some 67 ∧ page1.num_glyphs = page.num_glyphs + 1) ∧
    get_srcrect font_with_two_glyphs (page_with [65, 66, 67, 0] 3) 2 = ⟨0, 1, 500, 500⟩ := by
  have h : append_glyph font_with_two_glyphs 67 = some
      ({ font_with_two_glyphs with pages := [page_with [65, 66, 67, 0] 3] }, 0, 2,
        [FOX_Effect.create_glyph 67, FOX_Effect.copy_to_page 0 ⟨0, 1, 500, 500⟩]) := by
    decide
  refine ⟨h, ?_, ?_⟩
  · obtain ⟨font0, page, page1, h1, h2, _, _, h5, _, _, h8, h9, _⟩ :=
      C17_append_glyph_stores_at_next_slot.1 font_with_two_glyphs _ 67 0 2 _
        (by decide) (by decide) (by decide) (by decide) h
    exact ⟨font0, page, page1, h1, h2, h5, h8, h9⟩
  · have h2 := C17_append_glyph_stores_at_next_slot.2 font_with_two_glyphs
      (page_with [65, 66, 67, 0] 3) 2 (by decide) (by decide) (by decide) (by decide)
      (by decide)
    rw [h2]
    decide

/-- C18: for 8x16 glyph boxes the page of `create_page` has capacity 7750, and
`get_srcrect` puts slot 0 at (0, 0) and slot 125 at (0, 2), so the two 8x16
rectangles overlap and the glyph stored at slot 125 overwrites most of the
glyph at slot 0: the row is `index * 16 / 1000`, not 16 times the row number.
For 7x14 boxes (capacity 142 * 71 = 10082) slot 142 is at x = 994 and ends at
1001, outside the 1000x1000 texture. -/
theorem C18_slot_rectangles_overlap :
    (create_page 8 16).map (fun page => (page.glyph_capacity,
      get_srcrect (FOX_OpenFont 8 16) page 0, get_srcrect (FOX_OpenFont 8 16) page 125)) =
      some (7750, ⟨0, 0, 8, 16⟩, ⟨0, 2, 8, 16⟩) ∧
    (0 : Nat) ≠ 125 ∧ 125 < 7750 ∧
    SDL_Rect.overlaps ⟨0, 0, 8, 16⟩ ⟨0, 2, 8, 16⟩ ∧
    (create_page 7 14).map (fun page => (page.glyph_capacity,
      get_srcrect (FOX_OpenFont 7 14) page 142)) = some (10082, ⟨994, 1, 7, 14⟩) ∧
    142 < 10082 ∧
    ¬ SDL_Rect.inside ⟨994, 1, 7, 14⟩ 1000 1000 := by
  have h8 := create_page_of_pos 8 16 (by decide) (by decide)
  have h7 := create_page_of_pos 7 14 (by decide) (by decide)
  simp only [Nat.cast_ofNat] at h8 h7
  refine ⟨?_, by decide, by decide, by decide, ?_, by decide, by decide⟩
  · rw [h8]
    simp only [Option.map_some', Option.some.injEq, Prod.mk.injEq]
    exact ⟨by norm_num, by decide, by decide⟩
  · rw [h7]
    simp only [Option.map_some', Option.some.injEq, Prod.mk.injEq]
    exact ⟨by norm_num, by decide⟩

/-! ## Viewport rows and history capacity -/

theorem flatMap_enumFrom_eq_range {α β : Type} (g : Nat × α → List β) (l : List α) :
    ∀ n, (l.enumFrom n).flatMap g =
      (List.range l.length).flatMap (fun r =>
        match l[r]? with
        | some x => g (n + r, x)
        | none => []) := by
  induction l with
  | nil => intro n; rfl
  | cons x t ih =>
    intro n
    rw [List.enumFrom_cons, List.flatMap_cons, ih (n + 1), List.length_cons,
      List.range_succ_eq_map, List.flatMap_cons, List.flatMap_map]
    simp only [List.getElem?_cons_zero, Nat.add_zero, List.getElem?_cons_succ]
    congr 1
    apply List.flatMap_congr
    intro r _
    have e : n + 1 + r = n + (r + 1) := by omega
    rw [e]

theorem render_history_items_eq_rows (screen : VTermScreen) (history : TerminalHistory)
    (rows cols : Int) (ho : history.offset ≤ history.length) :
    render_history_items (history.visible rows) 0 =
      (List.range (min history.offset rows.toNat)).flatMap
        (viewport_row screen history rows cols) := by
  have hlen : (history.visible rows).length = min history.offset rows.toNat := by
    simp only [TerminalHistory.visible, List.length_take, List.length_drop,
      TerminalHistory.length] at *
    omega
  rw [render_history_items, flatMap_enumFrom_eq_range, hlen]
  apply List.flatMap_congr
  intro r hr
  have hr2 : r < min history.offset rows.toNat := List.mem_range.1 hr
  have hget : (history.visible rows)[r]? =
      history.elements[history.length - history.offset + r]? := by
    simp only [TerminalHistory.visible, List.getElem?_take, List.getElem?_drop]
    rw [if_pos (by omega)]
  simp only [viewport_row, hr2, if_true, hget, Nat.zero_add]
  cases history.elements[history.length - history.offset + r]? <;> rfl

theorem render_live_rows_eq_rows (screen : VTermScreen) (history : TerminalHistory)
    (rows cols : Int) :
    render_live_rows screen rows cols (min history.offset rows.toNat) =
      ((List.range (rows.toNat - min history.offset rows.toNat)).map
        (fun i => min history.offset rows.toNat + i)).flatMap
        (viewport_row screen history rows cols) := by
  rw [render_live_rows, List.flatMap_map]
  apply List.flatMap_congr
  intro i _
  have hn : ¬ (min history.offset rows.toNat + i < min history.offset rows.toNat) := by omega
  simp only [viewport_row, hn, if_false, Nat.add_sub_cancel_left]

/-- C19: for every history state with `offset <= length` and a viewport of
`rows x cols`, `render_terminal_history` draws the viewport rows
`0, 1, .., rows - 1` in order, each once: with `h = min(offset, rows)`, a row
`r < h` from the history line of index `length - offset + r` (which exists)
over that line's stored width, and a row `r >= h` from the live screen row
`r - h` over `cols` columns. -/
theorem C19_viewport_rows_from_history_then_screen (screen : VTermScreen)
    (history : TerminalHistory) (rows cols : Int) (ho : history.offset ≤ history.length)
    (hl : history.length < 2 ^ 64) :
    render_terminal_history screen history rows cols =
      some ((List.range rows.toNat).flatMap (viewport_row screen history rows cols)) ∧
    (∀ r, r < min history.offset rows.toNat →
      ∃ item, history.elements[history.length - history.offset + r]? = some item ∧
        viewport_row screen history rows cols r =
          item.line.enum.map (fun (c : Nat × VTermScreenCell) =>
            { cell := c.2, position := { row := (r : Int), col := (c.1 : Int) } })) ∧
    (∀ r, min history.offset rows.toNat ≤ r →
      viewport_row screen history rows cols r =
        (List.range cols.toNat).map (fun (col : Nat) =>
          { cell := screen { row := ((r - min history.offset rows.toNat : Nat) : Int),
                             col := (col : Int) }
            position := { row := (r : Int), col := (col : Int) } })) := by
  refine ⟨?_, ?_, ?_⟩
  · rw [(render_terminal_history_eq screen history rows cols ho hl).1,
      render_history_items_eq_rows screen history rows cols ho,
      render_live_rows_eq_rows screen history rows cols, ← List.flatMap_append]
    congr 2
    have e : rows.toNat = min history.offset rows.toNat +
        (rows.toNat - min history.offset rows.toNat) := by omega
    conv_rhs => rw [e]
    rw [List.range_add]
  · intro r hr
    have hlt : history.length - history.offset + r < history.elements.length := by
      simp only [TerminalHistory.length] at *
      omega
    refine ⟨history.elements[history.length - history.offset + r],
      List.getElem?_eq_getElem hlt, ?_⟩
    simp only [viewport_row, hr, if_true, List.getElem?_eq_getElem hlt, render_history_item]
  · intro r hr
    have hn : ¬ r < min history.offset rows.toNat := by omega
    simp only [viewport_row, hn, if_false]

/-- C19 at a concrete state: the three-line history at offset 2 in a viewport
of 3 rows and 2 columns shows the lines `c` and `de` and then live row 0. -/
theorem C19_viewport_rows_from_history_then_screen_witness :
    render_terminal_history blank_screen history_of_three 3 2 = some
      [⟨plain_cell 99, ⟨0, 0⟩⟩,
       ⟨plain_cell 100, ⟨1, 0⟩⟩, ⟨plain_cell 101, ⟨1, 1⟩⟩,
       ⟨plain_cell 32, ⟨2, 0⟩⟩, ⟨plain_cell 32, ⟨2, 1⟩⟩] := by
  rw [(C19_viewport_rows_from_history_then_screen blank_screen history_of_three 3 2
    (by decide) (by decide)).1]
  decide

/-- One valid push: the capacity is unchanged or, when `length == size` in an
enabled history, becomes `(size + 100) * 2`; `length <= size` afterwards. -/
theorem terminal_sb_pushline_capacity (configuration : HistoryConfiguration)
    (history : TerminalHistory) (cols : Int) (cells : List VTermScreenCell)
    (h0 : 0 ≤ cols) (h1 : cols ≤ cells.length) (hinv : history.length ≤ history.size) :
    ∃ history1, terminal_sb_pushline configuration history cols cells = some history1 ∧
      history.size ≤ history1.size ∧
      (history1.size ≠ history.size →
        configuration.enable = true ∧ history.length = history.size ∧
        history1.size = (history.size + 100) * 2) ∧
      (configuration.enable = true → history.length = history.size →
        history1.size = (history.size + 100) * 2) ∧
      (configuration.enable = true → history.length ≠ history.size →
        history1.size = history.size) ∧
      history1.length ≤ history1.size := by
  cases he : configuration.enable with
  | false =>
    refine ⟨history, terminal_sb_pushline_disabled configuration he history cols cells,
      Nat.le_refl _, fun h => absurd rfl h, ?_, ?_, hinv⟩
    · intro h; cases h
    · intro h; cases h
  | true =>
    refine ⟨_, terminal_sb_pushline_enabled configuration he history cols cells h0 h1,
      ?_, ?_, ?_, ?_, ?_⟩
    · simp only
      split_ifs <;> omega
    · simp only
      split_ifs with hc
      · intro _
        exact ⟨by first | rfl | trivial, hc, rfl⟩
      · intro h
        exact absurd rfl h
    · intro _ hc
      simp only [hc, if_true]
    · intro _ hc
      simp only [hc, if_false]
    · simp only [TerminalHistory.length, List.length_append, List.length_singleton] at *
      split_ifs <;> omega

theorem terminal_sb_pushlines_capacity (configuration : HistoryConfiguration)
    (pushes : List (Int × List VTermScreenCell)) :
    ∀ history : TerminalHistory, (∀ p ∈ pushes, 0 ≤ p.1 ∧ p.1 ≤ p.2.length) →
      history.length ≤ history.size →
      ∃ history1, terminal_sb_pushlines configuration history pushes = some history1 ∧
        history.size ≤ history1.size ∧ history1.length ≤ history1.size := by
  induction pushes with
  | nil => intro history _ hinv; exact ⟨history, rfl, Nat.le_refl _, hinv⟩
  | cons p rest ih =>
    intro history hv hinv
    obtain ⟨h0, h1⟩ := hv p (List.mem_cons_self p rest)
    obtain ⟨history1, k1, k2, _, _, _, k6⟩ :=
      terminal_sb_pushline_capacity configuration history p.1 p.2 h0 h1 hinv
    obtain ⟨history2, m1, m2, m3⟩ :=
      ih history1 (fun q hq => hv q (List.mem_cons_of_mem p hq)) k6
    exact ⟨history2, by simp only [terminal_sb_pushlines, k1, m1], Nat.le_trans k2 m2, m3⟩

/-- C20: starting from the empty history buffer (length = size = 0), after
every sequence of valid pushes `length <= size` holds, and the next push
changes the capacity only when it is made with `length == size` (in an enabled
history), where the capacity becomes `(size + 100) * 2`; otherwise it keeps the
capacity; the capacity never decreases and `length <= size` holds again. -/
theorem C20_history_capacity_growth (configuration : HistoryConfiguration)
    (pushes : List (Int × List VTermScreenCell)) (cols : Int) (cells : List VTermScreenCell)
    (hv : ∀ p ∈ pushes, 0 ≤ p.1 ∧ p.1 ≤ p.2.length) (h0 : 0 ≤ cols)
    (h1 : cols ≤ cells.length) :
    TerminalHistory.empty.length = 0 ∧ TerminalHistory.empty.size = 0 ∧
    ∃ history history1,
      terminal_sb_pushlines configuration TerminalHistory.empty pushes = some history ∧
      history.length ≤ history.size ∧
      terminal_sb_pushline configuration history cols cells = some history1 ∧
      history.size ≤ history1.size ∧
      (history1.size ≠ history.size →
        configuration.enable = true ∧ history.length = history.size ∧
        history1.size = (history.size + 100) * 2) ∧
      (configuration.enable = true → history.length = history.size →
        history1.size = (history.size + 100) * 2) ∧
      (configuration.enable = true → history.length ≠ history.size →
        history1.size = history.size) ∧
      history1.length ≤ history1.size := by
  obtain ⟨history, k1, _, k3⟩ :=
    terminal_sb_pushlines_capacity configuration pushes TerminalHistory.empty hv
      (Nat.le_refl _)
  obtain ⟨history1, m1, m2, m3, m4, m5, m6⟩ :=
    terminal_sb_pushline_capacity configuration history cols cells h0 h1 k3
  exact ⟨rfl, rfl, history, history1, k1, k3, m1, m2, m3, m4, m5, m6⟩

/-- C20 at a concrete input: the first push into the empty history grows the
capacity from 0 to 200, and after three pushes a fourth keeps it at 200. -/
theorem C20_history_capacity_growth_witness :
    (∃ history1,
      terminal_sb_pushline ⟨1000, false, true⟩ TerminalHistory.empty 1 [plain_cell 97] =
        some history1 ∧ history1.size = 200 ∧ history1.length = 1) ∧
    (∃ history history1,
      terminal_sb_pushlines ⟨1000, false, true⟩ TerminalHistory.empty three_pushes =
        some history ∧
      terminal_sb_pushline ⟨1000, false, true⟩ history 1 [plain_cell 97] = some history1 ∧
      history.size = 200 ∧ history1.size = 200 ∧ history1.length = 4) := by
  constructor
  · obtain ⟨_, _, history, history1, k1, _, k3, _, _, k6, _, _⟩ :=
      C20_history_capacity_growth ⟨1000, false, true⟩ [] 1 [plain_cell 97]
        (by decide) (by decide) (by decide)
    cases k1
    exact ⟨history1, k3, k6 rfl rfl, by rw [k3.symm.trans (by decide :
      terminal_sb_pushline ⟨1000, false, true⟩ TerminalHistory.empty 1 [plain_cell 97] =
        some ⟨[⟨[plain_cell 97]⟩], 200, 0, false⟩) |> Option.some.inj]; rfl⟩
  · obtain ⟨_, _, history, history1, k1, _, k3, _, _, _, k7, _⟩ :=
      C20_history_capacity_growth ⟨1000, false, true⟩ three_pushes 1 [plain_cell 97]
        (by decide) (by decide) (by decide)
    have e : terminal_sb_pushlines ⟨1000, false, true⟩ TerminalHistory.empty three_pushes =
        some ⟨three_pushes.map pushed_item, 200, 0, false⟩ := by decide
    rw [e] at k1
    cases k1
    have e2 : terminal_sb_pushline ⟨1000, false, true⟩
        ⟨three_pushes.map pushed_item, 200, 0, false⟩ 1 [plain_cell 97] =
        some ⟨three_pushes.map pushed_item ++ [⟨[plain_cell 97]⟩], 200, 0, false⟩ := by decide
    rw [e2] at k3
    cases k3
    exact ⟨_, _, e, e2, rfl, rfl, rfl⟩

/-! ## The loop tail of `update_terminal_emulator`: timers, cursor, bell, release -/

theorem apply_resize_event_frame (screen : VTermScreen) (t : TerminalEmulator) :
    (apply_resize_event screen t).1.cursor = t.cursor ∧
    (apply_resize_event screen t).1.ticks = t.ticks ∧
    (apply_resize_event screen t).1.bell = t.bell := by
  unfold apply_resize_event
  split_ifs <;> exact ⟨rfl, rfl, rfl⟩

theorem trigger_screen_refresh_frame (t : TerminalEmulator) :
    (trigger_screen_refresh t).1.cursor = t.cursor ∧
    (trigger_screen_refresh t).1.bell = t.bell ∧
    (trigger_screen_refresh t).1.ticks_resize = t.ticks_resize := by
  unfold trigger_screen_refresh
  split_ifs <;> exact ⟨rfl, rfl, rfl⟩

/-- The cursor after the tail of a loop iteration, in terms of the old cursor. -/
theorem update_terminal_emulator_timers_cursor (interval : Int) (screen : VTermScreen)
    (t : TerminalEmulator) (now : Nat) :
    (update_terminal_emulator_timers interval screen t now).1.cursor =
      if (float_of_uint32 (uint32_sub now t.cursor.ticks) : Int) > interval then
        if interval > 0 then { t.cursor with ticks := now, visible := !t.cursor.visible }
        else { t.cursor with ticks := now }
      else t.cursor := by
  obtain ⟨h1, h2, _⟩ := apply_resize_event_frame screen { t with ticks := now }
  simp only [update_terminal_emulator_timers, (trigger_screen_refresh_frame _).1]
  generalize (apply_resize_event screen { t with ticks := now }).1 = t1 at h1 h2
  simp only at h1 h2
  unfold update_terminal_cursor
  rw [h1, h2]
  by_cases hc : (float_of_uint32 (uint32_sub now t.cursor.ticks) : Int) > interval
  · by_cases hi : interval > 0
    · simp only [hc, hi, if_true]
    · simp only [hc, hi, if_true, if_false]
  · simp only [hc, if_false, h1]

/-- C12 fails as stated: with interval 500, the cursor last toggled at tick
1000 and the tick 1500 sampled, the elapsed 500 ticks are greater than or
equal to the interval, but the loop iteration leaves the cursor as it was:
the test is `elapsed > interval`. -/
theorem C12_counterexample_elapsed_equal_to_interval :
    terminal_at_1000.cursor.ticks = 1000 ∧ uint32_sub 1500 1000 = 500 ∧
    (500 : Int) ≥ 500 ∧
    (update_terminal_emulator_timers 500 blank_screen terminal_at_1000 1500).1.cursor =
      terminal_at_1000.cursor := by
  refine ⟨rfl, by decide, by decide, ?_⟩
  rw [update_terminal_emulator_timers_cursor]
  decide

/-- C12 (amended): for every blink interval > 0, a loop iteration flips cursor
visibility (and records the sampled tick as the new last-toggle time) if and
only if the ticks elapsed since the last toggle, as converted to `float` for
the comparison (exact below `2 ^ 24`), are strictly greater than the interval;
otherwise it leaves the cursor as it was. -/
theorem C12_cursor_flips_iff_elapsed_exceeds_interval (interval : Int) (screen : VTermScreen)
    (t : TerminalEmulator) (now : Nat) (hi : 0 < interval) :
    ((update_terminal_emulator_timers interval screen t now).1.cursor.visible ≠
        t.cursor.visible ↔
      (float_of_uint32 (uint32_sub now t.cursor.ticks) : Int) > interval) ∧
    ((float_of_uint32 (uint32_sub now t.cursor.ticks) : Int) > interval →
      (update_terminal_emulator_timers interval screen t now).1.cursor =
        { t.cursor with ticks := now, visible := !t.cursor.visible }) ∧
    (¬ (float_of_uint32 (uint32_sub now t.cursor.ticks) : Int) > interval →
      (update_terminal_emulator_timers interval screen t now).1.cursor = t.cursor) ∧
    (uint32_sub now t.cursor.ticks < 2 ^ 24 →
      float_of_uint32 (uint32_sub now t.cursor.ticks) = uint32_sub now t.cursor.ticks) := by
  rw [update_terminal_emulator_timers_cursor]
  refine ⟨?_, ?_, ?_, ?_⟩
  · by_cases hc : (float_of_uint32 (uint32_sub now t.cursor.ticks) : Int) > interval
    · simp [hc, hi]
    · simp [hc]
  · intro hc
    simp [hc, hi]
  · intro hc
    simp [hc]
  · intro hlt
    unfold float_of_uint32
    rw [if_pos hlt]

/-- C12 at a concrete input: interval 500, last toggle at tick 1000; at tick
1501 the cursor flips and the toggle time becomes 1501. -/
theorem C12_cursor_flips_iff_elapsed_exceeds_interval_witness :
    (update_terminal_emulator_timers 500 blank_screen terminal_at_1000 1501).1.cursor =
      { cell := { x := 0, y := 0 }, visible := false, ticks := 1501 } := by
  rw [(C12_cursor_flips_iff_elapsed_exceeds_interval 500 blank_screen terminal_at_1000 1501
    (by decide)).2.1 (by decide)]
  rfl

theorem run_cursor_steps_visible (screen : VTermScreen) (steps : List CursorStep) :
    ∀ t : TerminalEmulator, t.cursor.visible = true →
      (run_cursor_steps 0 screen t steps).cursor.visible = true := by
  induction steps with
  | nil => intro t h; exact h
  | cons step rest ih =>
    intro t h
    cases step with
    | loop_iteration now =>
      refine ih _ ?_
      rw [update_terminal_emulator_timers_cursor]
      split_ifs with h1 h2
      · exact absurd h2 (by decide)
      · exact h
      · exact h
    | movecursor pos oldpos visible => exact ih _ rfl

/-- C13: with blink interval 0 a loop iteration leaves `cursor.visible` as it
was, and a cursor-move notification sets it, so from a visible cursor every
sequence of loop iterations and cursor-move notifications keeps the cursor
visible; and for any interval the cursor block of a loop iteration, the only
part of the iteration that writes `cursor.visible`, flips it at most once: it
makes at most one `render_terminal_cursor` call, and the flag is flipped
exactly when it makes one. -/
theorem C13_no_blink_at_interval_zero :
    (∀ (screen : VTermScreen) (t : TerminalEmulator) (now : Nat),
      (update_terminal_emulator_timers 0 screen t now).1.cursor.visible = t.cursor.visible) ∧
    (∀ (screen : VTermScreen) (t : TerminalEmulator) (steps : List CursorStep),
      t.cursor.visible = true → (run_cursor_steps 0 screen t steps).cursor.visible = true) ∧
    (∀ (interval : Int) (screen : VTermScreen) (t : TerminalEmulator),
      (update_terminal_cursor interval screen t).2.length ≤ 1 ∧
      (update_terminal_cursor interval screen t).1.cursor.visible =
        (if (update_terminal_cursor interval screen t).2.length = 1 then !t.cursor.visible
          else t.cursor.visible)) ∧
    (∀ (interval : Int) (screen : VTermScreen) (t : TerminalEmulator) (now : Nat),
      (update_terminal_emulator_timers interval screen t now).1.cursor.visible =
          t.cursor.visible ∨
        (update_terminal_emulator_timers interval screen t now).1.cursor.visible =
          !t.cursor.visible) := by
  refine ⟨?_, ?_, ?_, ?_⟩
  · intro screen t now
    rw [update_terminal_emulator_timers_cursor]
    split_ifs with h1 h2
    · exact absurd h2 (by decide)
    · rfl
    · rfl
  · intro screen t steps h
    exact run_cursor_steps_visible screen steps t h
  · intro interval screen t
    unfold update_terminal_cursor render_terminal_cursor
    by_cases h1 : (float_of_uint32 (uint32_sub t.ticks t.cursor.ticks) : Int) > interval
    · by_cases h2 : interval > 0
      · simp only [h1, h2, if_true]
        cases t.cursor.visible <;> simp
      · simp [h1, h2]
    · simp [h1]
  · intro interval screen t now
    rw [update_terminal_emulator_timers_cursor]
    split_ifs
    · exact Or.inr rfl
    · exact Or.inl rfl
    · exact Or.inl rfl

/-- C13 at a concrete run: interval 0, a visible cursor, three loop iterations
with a cursor move in between. -/
theorem C13_no_blink_at_interval_zero_witness :
    (run_cursor_steps 0 blank_screen terminal_at_1000
      [CursorStep.loop_iteration 1600, CursorStep.movecursor ⟨3, 4⟩ ⟨0, 0⟩ 1,
       CursorStep.loop_iteration 2200, CursorStep.loop_iteration 9000]).cursor.visible = true :=
  C13_no_blink_at_interval_zero.2.1 blank_screen terminal_at_1000 _ rfl

/-- C15: the bell callback of `main.c` records the tick and sets the bell
active and draws nothing, but no loop iteration of `main.c` ever changes the
bell: after a bell at tick 1000 the iteration at tick 2000 leaves `bell.active`
true, and so does every later one. The loop of `sdlterm.c` does clear it: the
bell statement of `TERM_Update` at tick 2000 (later than 1000 + 250) leaves
the bell inactive. -/
theorem C15_bell_is_never_cleared :
    terminal_bell terminal_at_1000 =
      ({ terminal_at_1000 with bell := { active := true, ticks := 1000 } }, []) ∧
    (update_terminal_emulator_timers 0 blank_screen (terminal_bell terminal_at_1000).1
      2000).1.bell = { active := true, ticks := 1000 } ∧
    (∀ (interval : Int) (screen : VTermScreen) (t : TerminalEmulator) (now : Nat),
      (update_terminal_emulator_timers interval screen t now).1.bell = t.bell) ∧
    TERM_Update_bell 2000 { active := true, ticks := 1000 } =
      { active := false, ticks := 1000 } := by
  have hall : ∀ (interval : Int) (screen : VTermScreen) (t : TerminalEmulator) (now : Nat),
      (update_terminal_emulator_timers interval screen t now).1.bell = t.bell := by
    intro interval screen t now
    obtain ⟨_, _, h3⟩ := apply_resize_event_frame screen { t with ticks := now }
    simp only [update_terminal_emulator_timers, (trigger_screen_refresh_frame _).2.1]
    generalize (apply_resize_event screen { t with ticks := now }).1 = t1 at h3
    simp only at h3
    unfold update_terminal_cursor
    split_ifs <;> exact h3
  refine ⟨rfl, ?_, hall, by decide⟩
  rw [hall]
  rfl

/-- C11: a press and release on cell (5, 5) selects and highlights that one
cell (codepoint 505), but the text set as clipboard content is empty; after a
drag from (5, 5) to (6, 6) the four cells 505, 506, 605, 606 are highlighted
and the clipboard receives only 505. The release passes the inclusive
rectangle of the selection to the engine, which reads it as half-open, so the
last row and the last column of the selection are not copied. -/
theorem C11_clipboard_misses_last_row_and_column :
    (on_mouse_button_down mouse_at_5_5 1).rect = ⟨5, 5, 5, 5⟩ ∧
    rendered_chars (highlight_cells grid_screen ⟨5, 5, 5, 5⟩ true) = [505] ∧
    rendered_chars (on_mouse_button_up grid_screen []
      (on_mouse_button_down mouse_at_5_5 1) 1).rendered = [505] ∧
    (on_mouse_button_up grid_screen [] (on_mouse_button_down mouse_at_5_5 1) 1).clipboard =
      some [] ∧
    (on_mouse_motions 8 16 grid_screen (on_mouse_button_down mouse_at_5_5 1) [(48, 96)]).map
      (fun m => (m.rect, rendered_chars (highlight_cells grid_screen m.rect true),
        (on_mouse_button_up grid_screen [] m 1).clipboard)) =
      some (⟨5, 6, 5, 6⟩, [505, 506, 605, 606], some [505]) := by
  refine ⟨by decide, by decide, by decide, by decide, by decide⟩

/-! ## Resize debouncing -/

theorem structural_resizes_append (a b : List TerminalEffect) :
    structural_resizes (a ++ b) = structural_resizes a ++ structural_resizes b := by
  simp [structural_resizes]

theorem structural_resizes_render (calls : List RenderCall) :
    structural_resizes
      (calls.map (fun call => TerminalEffect.render_terminal_cell call.cell call.position)) =
      [] := by
  induction calls with
  | nil => rfl
  | cons c rest ih =>
    simp only [structural_resizes, List.map_cons, List.filter_cons] at ih ⊢
    exact ih

theorem structural_resizes_cursor (interval : Int) (screen : VTermScreen)
    (t : TerminalEmulator) :
    structural_resizes (update_terminal_cursor interval screen t).2 = [] ∧
    (update_terminal_cursor interval screen t).1.ticks_resize = t.ticks_resize ∧
    (update_terminal_cursor interval screen t).1.dims = t.dims ∧
    (update_terminal_cursor interval screen t).1.ticks = t.ticks := by
  unfold update_terminal_cursor
  split_ifs
  · refine ⟨?_, rfl, rfl, rfl⟩
    simp only [render_terminal_cursor]
    split_ifs <;> rfl
  · exact ⟨rfl, rfl, rfl, rfl⟩
  · exact ⟨rfl, rfl, rfl, rfl⟩

theorem structural_resizes_refresh (t : TerminalEmulator) :
    structural_resizes (trigger_screen_refresh t).2 = [] ∧
    (trigger_screen_refresh t).1.ticks_resize = t.ticks_resize ∧
    (trigger_screen_refresh t).1.dims = t.dims ∧
    (trigger_screen_refresh t).1.ticks = t.ticks := by
  unfold trigger_screen_refresh
  split_ifs <;> exact ⟨rfl, rfl, rfl, rfl⟩

/-- The tail of an iteration: the structural resize it performs, if any, and
what it leaves of the resize state. -/
theorem update_terminal_emulator_timers_resize (interval : Int) (screen : VTermScreen)
    (t : TerminalEmulator) (now : Nat) :
    (update_terminal_emulator_timers interval screen t now).1.dims = t.dims ∧
    (update_terminal_emulator_timers interval screen t now).1.ticks = now ∧
    (resize_fires t now →
      (∃ after, (update_terminal_emulator_timers interval screen t now).2 =
          structural_resize_effects screen t.dims ++ after ∧ structural_resizes after = []) ∧
      (update_terminal_emulator_timers interval screen t now).1.ticks_resize = 0) ∧
    (¬ resize_fires t now →
      structural_resizes (update_terminal_emulator_timers interval screen t now).2 = [] ∧
      (update_terminal_emulator_timers interval screen t now).1.ticks_resize =
        t.ticks_resize) := by
  simp only [update_terminal_emulator_timers]
  obtain ⟨c1, c2, c3, c4⟩ := structural_resizes_cursor interval screen
    (apply_resize_event screen { t with ticks := now }).1
  obtain ⟨r1, r2, r3, r4⟩ := structural_resizes_refresh
    (update_terminal_cursor interval screen
      (apply_resize_event screen { t with ticks := now }).1).1
  rw [r2, r3, r4, c2, c3, c4]
  by_cases hf : resize_fires t now
  · have hf2 : ({ t with ticks := now } : TerminalEmulator).ticks_resize > 0 ∧
        uint32_sub ({ t with ticks := now } : TerminalEmulator).ticks
          ({ t with ticks := now } : TerminalEmulator).ticks_resize > 500 := hf
    have e : apply_resize_event screen { t with ticks := now } =
        ({ t with ticks := now, ticks_resize := 0, dirty := true },
          [TerminalEffect.ioctl_TIOCSWINSZ (t.cols % 65536).toNat (t.rows % 65536).toNat
              (t.width % 65536).toNat (t.height % 65536).toNat,
           TerminalEffect.vterm_set_size t.rows t.cols,
           TerminalEffect.clear_terminal_window] ++
          (render_terminal_screen screen t.rows t.cols).map
            (fun call => TerminalEffect.render_terminal_cell call.cell call.position)) := by
      unfold apply_resize_event
      rw [if_pos hf2]
    rw [e] at c1 r1 ⊢
    refine ⟨rfl, rfl, fun _ => ⟨⟨_, List.append_assoc _ _ _, ?_⟩, rfl⟩, fun h => absurd hf h⟩
    rw [structural_resizes_append, c1, r1]
    rfl
  · have hf2 : ¬ (({ t with ticks := now } : TerminalEmulator).ticks_resize > 0 ∧
        uint32_sub ({ t with ticks := now } : TerminalEmulator).ticks
          ({ t with ticks := now } : TerminalEmulator).ticks_resize > 500) := hf
    have e : apply_resize_event screen { t with ticks := now } =
        ({ t with ticks := now }, []) := by
      unfold apply_resize_event
      rw [if_neg hf2]
    rw [e] at c1 r1 ⊢
    refine ⟨rfl, rfl, fun h => absurd h hf, fun _ => ⟨?_, rfl⟩⟩
    rw [List.nil_append, structural_resizes_append, c1, r1]
    rfl

theorem dims_after_append (gw gh : Int) (dims : Int × Int × Int × Int)
    (a b : List SDL_WindowEvent) :
    dims_after gw gh (dims_after gw gh dims a) b = dims_after gw gh dims (a ++ b) := by
  cases hb : b.getLast? with
  | none =>
    have : b = [] := List.getLast?_eq_none_iff.1 hb
    subst this
    simp [dims_after]
  | some e =>
    have hne : b ≠ [] := by
      intro h
      subst h
      simp at hb
    simp only [dims_after, hb, List.getLast?_append]
    rfl

/-- The event loop over `SIZE_CHANGED` events: the sizes are those of the last
event, which is stamped with the tick of the previous iteration. -/
theorem handle_window_events_size_changed (gw gh : Int) (hw : gw ≠ 0) (hh : gh ≠ 0)
    (events : List SDL_WindowEvent) :
    ∀ t : TerminalEmulator,
      (∀ e ∈ events, e.event = SDL_WindowEventID.SDL_WINDOWEVENT_SIZE_CHANGED) →
      ∃ t1, handle_window_events gw gh t events = some t1 ∧
        t1.dims = dims_after gw gh t.dims events ∧ t1.ticks = t.ticks ∧
        t1.ticks_resize = (if events = [] then t.ticks_resize else t.ticks) := by
  induction events with
  | nil => intro t _; exact ⟨t, rfl, rfl, rfl, rfl⟩
  | cons e rest ih =>
    intro t hall
    have he := hall e (List.mem_cons_self e rest)
    have hn : ¬ (gw = 0 ∨ gh = 0) := by
      rintro (h | h)
      · exact hw h
      · exact hh h
    obtain ⟨t1, h1, h2, h3, h4⟩ := ih
      { t with
        width := e.data1
        height := e.data2
        cols := map_to_col gw e.data1
        rows := map_to_row gh e.data2
        ticks_resize := t.ticks }
      (fun e1 h1 => hall e1 (List.mem_cons_of_mem e h1))
    refine ⟨t1, ?_, ?_, h3, ?_⟩
    · simp only [handle_window_events, handle_window_event, he, hn, if_false]
      exact h1
    · rw [h2]
      have e2 : e :: rest = [e] ++ rest := rfl
      rw [e2, ← dims_after_append]
      rfl
    · rw [h4]
      simp only [List.cons_ne_nil, if_false]
      split_ifs <;> rfl

/-- One iteration of the loop, unfolded. -/
theorem run_loop_cons (gw gh interval : Int) (screen : VTermScreen) (t t1 : TerminalEmulator)
    (iteration : LoopIteration) (rest : List LoopIteration)
    (h : handle_window_events gw gh t iteration.events = some t1) :
    run_loop gw gh interval screen t (iteration :: rest) =
      match run_loop gw gh interval screen
          (update_terminal_emulator_timers interval screen t1 iteration.now).1 rest with
      | none => none
      | some (t2, e2) =>
        some (t2, (update_terminal_emulator_timers interval screen t1 iteration.now).2 ++ e2) := by
  simp only [run_loop, update_terminal_emulator_window, h]

/-- Iterations without events starting with no resize pending: no structural
resize happens and the sizes stay. -/
theorem run_loop_idle (gw gh interval : Int) (screen : VTermScreen) (nows : List Nat) :
    ∀ t : TerminalEmulator, t.ticks_resize = 0 →
      ∃ (t2 : TerminalEmulator) (effects : List TerminalEffect),
        run_loop gw gh interval screen t
          (nows.map (fun now => ({ events := [], now := now } : LoopIteration))) =
          some (t2, effects) ∧
        structural_resizes effects = [] ∧ t2.dims = t.dims ∧ t2.ticks_resize = 0 := by
  induction nows with
  | nil => intro t h0; exact ⟨t, [], rfl, rfl, rfl, h0⟩
  | cons now rest ih =>
    intro t h0
    have hnf : ¬ resize_fires t now := by
      intro h
      have h1 := h.1
      rw [h0] at h1
      exact absurd h1 (by decide)
    obtain ⟨d1, _, _, hq⟩ := update_terminal_emulator_timers_resize interval screen t now
    obtain ⟨q1, q2⟩ := hq hnf
    obtain ⟨t2, e2, r1, r2, r3, r4⟩ :=
      ih (update_terminal_emulator_timers interval screen t now).1 (by rw [q2, h0])
    refine ⟨t2, (update_terminal_emulator_timers interval screen t now).2 ++ e2, ?_, ?_, ?_, r4⟩
    · rw [List.map_cons, run_loop_cons gw gh interval screen t t
        { events := [], now := now } _ rfl]
      simp only [r1]
    · rw [structural_resizes_append, q1, r2]
      rfl
    · rw [r3, d1]

/-- The loop over a burst that is over in its last iteration: the effects up to
that iteration hold no structural resize, the last iteration performs one at
the sizes of the last event, and the resize is no longer pending. -/
theorem run_loop_resize_fires_first_in (gw gh interval : Int) (hw : gw ≠ 0) (hh : gh ≠ 0)
    (screen : VTermScreen) (final : LoopIteration)
    (hfinal : ∀ e ∈ final.events, e.event = SDL_WindowEventID.SDL_WINDOWEVENT_SIZE_CHANGED)
    (iterations : List LoopIteration) :
    ∀ t : TerminalEmulator,
      (∀ iteration ∈ iterations, ∀ e ∈ iteration.events,
        e.event = SDL_WindowEventID.SDL_WINDOWEVENT_SIZE_CHANGED) →
      resize_fires_first_in gw gh interval screen t iterations final →
      ∃ (t1 : TerminalEmulator) (before after : List TerminalEffect),
        run_loop gw gh interval screen t (iterations ++ [final]) =
          some (t1, before ++
            structural_resize_effects screen
              (dims_after gw gh t.dims
                ((iterations ++ [final]).flatMap LoopIteration.events)) ++ after) ∧
        structural_resizes before = [] ∧ structural_resizes after = [] ∧
        t1.ticks_resize = 0 ∧
        t1.dims = dims_after gw gh t.dims
          ((iterations ++ [final]).flatMap LoopIteration.events) := by
  induction iterations with
  | nil =>
    intro t _ hf
    obtain ⟨t3, h1, h2, _, _⟩ := handle_window_events_size_changed gw gh hw hh final.events t hfinal
    simp only [resize_fires_first_in, h1] at hf
    obtain ⟨d1, _, hfire, _⟩ := update_terminal_emulator_timers_resize interval screen t3 final.now
    obtain ⟨⟨after, ha, hs⟩, htr⟩ := hfire hf
    refine ⟨(update_terminal_emulator_timers interval screen t3 final.now).1, [], after,
      ?_, rfl, hs, htr, ?_⟩
    · rw [List.nil_append, run_loop_cons gw gh interval screen t t3 _ _ h1]
      simp only [run_loop, List.flatMap_cons, List.flatMap_nil, List.append_nil,
        List.nil_append, ha, h2]
    · rw [d1, h2]
      simp only [List.nil_append, List.flatMap_cons, List.flatMap_nil, List.append_nil]
  | cons iteration rest ih =>
    intro t hall hf
    obtain ⟨t3, h1, h2, _, _⟩ := handle_window_events_size_changed gw gh hw hh iteration.events t
      (hall iteration (List.mem_cons_self _ _))
    simp only [resize_fires_first_in, h1] at hf
    obtain ⟨hnf, hrest⟩ := hf
    obtain ⟨d1, _, _, hq⟩ :=
      update_terminal_emulator_timers_resize interval screen t3 iteration.now
    obtain ⟨q1, _⟩ := hq hnf
    obtain ⟨t1, before, after, r1, r2, r3, r4, r5⟩ :=
      ih (update_terminal_emulator_timers interval screen t3 iteration.now).1
        (fun it hit => hall it (List.mem_cons_of_mem _ hit)) hrest
    have hd : dims_after gw gh
        (update_terminal_emulator_timers interval screen t3 iteration.now).1.dims
        ((rest ++ [final]).flatMap LoopIteration.events) =
        dims_after gw gh t.dims
          ((iteration :: rest ++ [final]).flatMap LoopIteration.events) := by
      rw [d1, h2, dims_after_append]
      rfl
    rw [hd] at r1 r5
    refine ⟨t1, (update_terminal_emulator_timers interval screen t3 iteration.now).2 ++ before,
      after, ?_, ?_, r3, r4, r5⟩
    · rw [List.cons_append, run_loop_cons gw gh interval screen t t3 _ _ h1, r1]
      simp only [List.append_assoc, List.cons_append]
    · rw [structural_resizes_append, q1, r2]
      rfl

/-- The structural effects of one structural resize are the three calls. -/
theorem structural_resizes_structural_resize_effects (screen : VTermScreen)
    (dims : Int × Int × Int × Int) :
    structural_resizes (structural_resize_effects screen dims) =
      [TerminalEffect.ioctl_TIOCSWINSZ (dims.2.1 % 65536).toNat (dims.1 % 65536).toNat
          (dims.2.2.1 % 65536).toNat (dims.2.2.2 % 65536).toNat,
       TerminalEffect.vterm_set_size dims.1 dims.2.1,
       TerminalEffect.clear_terminal_window] := by
  unfold structural_resize_effects
  rw [structural_resizes_append, structural_resizes_render, List.append_nil]
  rfl

/-- C14 (as stated, refuted): two SIZE_CHANGED events that arrive 499 ms apart
yield two structural resizes when a loop iteration ends in between more than
500 ticks after the tick the first event was recorded with (the tick sampled
at the end of the iteration before it, 990, not its arrival time 1000); and a
single event handled while `terminal.ticks` is still 0 yields none at all. -/
theorem C14_counterexample_two_resizes_in_one_burst :
    (∀ iteration ∈ burst_499_apart, ∀ e ∈ iteration.events,
      e.event = SDL_WindowEventID.SDL_WINDOWEVENT_SIZE_CHANGED) ∧
    (burst_499_apart.flatMap LoopIteration.events).map SDL_WindowEvent.timestamp =
      [1000, 1499] ∧
    (run_loop 8 16 0 blank_screen { blank_terminal with ticks := 990 } burst_499_apart).map
      (fun r => structural_resizes r.2) =
      some [TerminalEffect.ioctl_TIOCSWINSZ 2 2 16 32, TerminalEffect.vterm_set_size 2 2,
        TerminalEffect.clear_terminal_window,
        TerminalEffect.ioctl_TIOCSWINSZ 3 3 24 48, TerminalEffect.vterm_set_size 3 3,
        TerminalEffect.clear_terminal_window] ∧
    (run_loop 8 16 0 blank_screen blank_terminal burst_at_startup).map
      (fun r => (structural_resizes r.2, r.1.ticks_resize)) = some ([], 0) := by
  refine ⟨by decide, by decide, ?_, ?_⟩
  · decide
  · decide

/-- C14 (amended): for a burst of N >= 1 SIZE_CHANGED events (glyph box not
zero) handled by the loop iterations `iterations ++ [final]`, where `final` is
the first iteration that ends with a resize pending (`ticks_resize > 0`) whose
recorded tick lies more than 500 ticks back, the loop performs exactly one
structural resize: the effects before it hold none, the final iteration makes
one TIOCSWINSZ update, one `vterm_set_size` call and one clear followed by the
full redraw, all with the rows and columns computed from the last event's pixel
dimensions, the effects after it hold none, the resize is no longer pending,
and later iterations without events resize no more. -/
theorem C14_one_structural_resize_when_burst_is_over
    (gw gh interval : Int) (screen : VTermScreen) (t : TerminalEmulator)
    (iterations : List LoopIteration) (final : LoopIteration)
    (last_event : SDL_WindowEvent) (later : List Nat)
    (hw : gw ≠ 0) (hh : gh ≠ 0)
    (hev : ∀ iteration ∈ iterations ++ [final], ∀ e ∈ iteration.events,
      e.event = SDL_WindowEventID.SDL_WINDOWEVENT_SIZE_CHANGED)
    (hlast : ((iterations ++ [final]).flatMap LoopIteration.events).getLast? = some last_event)
    (hburst : resize_fires_first_in gw gh interval screen t iterations final) :
    ∃ (t1 : TerminalEmulator) (before after : List TerminalEffect),
      run_loop gw gh interval screen t (iterations ++ [final]) =
        some (t1, before ++
          structural_resize_effects screen
            (map_to_row gh last_event.data2, map_to_col gw last_event.data1,
              last_event.data1, last_event.data2) ++ after) ∧
      structural_resizes before = [] ∧ structural_resizes after = [] ∧
      structural_resizes
        (before ++
          structural_resize_effects screen
            (map_to_row gh last_event.data2, map_to_col gw last_event.data1,
              last_event.data1, last_event.data2) ++ after) =
        [TerminalEffect.ioctl_TIOCSWINSZ (map_to_col gw last_event.data1 % 65536).toNat
            (map_to_row gh last_event.data2 % 65536).toNat
            (last_event.data1 % 65536).toNat (last_event.data2 % 65536).toNat,
         TerminalEffect.vterm_set_size (map_to_row gh last_event.data2)
            (map_to_col gw last_event.data1),
         TerminalEffect.clear_terminal_window] ∧
      t1.rows = map_to_row gh last_event.data2 ∧ t1.cols = map_to_col gw last_event.data1 ∧
      t1.ticks_resize = 0 ∧
      ∃ (t2 : TerminalEmulator) (effects : List TerminalEffect),
        run_loop gw gh interval screen t1
          (later.map (fun now => ({ events := [], now := now } : LoopIteration))) =
          some (t2, effects) ∧
        structural_resizes effects = [] := by
  obtain ⟨t1, before, after, r1, r2, r3, r4, r5⟩ :=
    run_loop_resize_fires_first_in gw gh interval hw hh screen final
      (hev final (List.mem_append_right _ (List.mem_singleton_self final))) iterations t
      (fun it hit => hev it (List.mem_append_left _ hit)) hburst
  have hd : dims_after gw gh t.dims ((iterations ++ [final]).flatMap LoopIteration.events) =
      (map_to_row gh last_event.data2, map_to_col gw last_event.data1,
        last_event.data1, last_event.data2) := by
    simp only [dims_after, hlast]
  rw [hd] at r1 r5
  obtain ⟨t2, effects, i1, i2, _, _⟩ := run_loop_idle gw gh interval screen later t1 r4
  refine ⟨t1, before, after, r1, r2, r3, ?_, ?_, ?_, r4, t2, effects, i1, i2⟩
  · rw [structural_resizes_append, structural_resizes_append, r2, r3,
      structural_resizes_structural_resize_effects]
    rfl
  · exact congrArg (fun d => d.1) r5
  · exact congrArg (fun d => d.2.1) r5

/-- C14 (amended) holds of a burst of two events handled in two consecutive
iterations, applied in the quiet iteration that ends at tick 1800. -/
theorem C14_one_structural_resize_when_burst_is_over_witness :
    ∃ (t1 : TerminalEmulator) (before after : List TerminalEffect),
      run_loop 8 16 0 blank_screen { blank_terminal with ticks := 990 }
          (burst_200_apart ++ [{ events := [], now := 1800 }]) =
        some (t1, before ++
          structural_resize_effects blank_screen
            (map_to_row 16 (size_changed 1200 24 48).data2,
              map_to_col 8 (size_changed 1200 24 48).data1,
              (size_changed 1200 24 48).data1, (size_changed 1200 24 48).data2) ++ after) ∧
      structural_resizes before = [] ∧ structural_resizes after = [] ∧
      structural_resizes
        (before ++
          structural_resize_effects blank_screen
            (map_to_row 16 (size_changed 1200 24 48).data2,
              map_to_col 8 (size_changed 1200 24 48).data1,
              (size_changed 1200 24 48).data1, (size_changed 1200 24 48).data2) ++ after) =
        [TerminalEffect.ioctl_TIOCSWINSZ
            (map_to_col 8 (size_changed 1200 24 48).data1 % 65536).toNat
            (map_to_row 16 (size_changed 1200 24 48).data2 % 65536).toNat
            ((size_changed 1200 24 48).data1 % 65536).toNat
            ((size_changed 1200 24 48).data2 % 65536).toNat,
         TerminalEffect.vterm_set_size (map_to_row 16 (size_changed 1200 24 48).data2)
            (map_to_col 8 (size_changed 1200 24 48).data1),
         TerminalEffect.clear_terminal_window] ∧
      t1.rows = map_to_row 16 (size_changed 1200 24 48).data2 ∧
      t1.cols = map_to_col 8 (size_changed 1200 24 48).data1 ∧
      t1.ticks_resize = 0 ∧
      ∃ (t2 : TerminalEmulator) (effects : List TerminalEffect),
        run_loop 8 16 0 blank_screen t1
          ([2500, 3000].map (fun now => ({ events := [], now := now } : LoopIteration))) =
          some (t2, effects) ∧
        structural_resizes effects = [] :=
  C14_one_structural_resize_when_burst_is_over 8 16 0 blank_screen
    { blank_terminal with ticks := 990 } burst_200_apart { events := [], now := 1800 }
    (size_changed 1200 24 48) [2500, 3000] (by decide) (by decide) (by decide) (by decide)
    (by decide)

/-! ## Resize events and cursor moves -/

/-- C21 (as stated, refuted): a SIZE_CHANGED event to 16x32 pixels, handled by
a terminal of 25 rows and 80 columns with 8x16 glyph boxes, changes
`terminal.rows` and `terminal.cols` at once, to 2 and 2. -/
theorem C21_counterexample_rows_and_cols_change_at_once :
    terminal_at_1000.rows = 25 ∧ terminal_at_1000.cols = 80 ∧
    (handle_window_event 8 16 terminal_at_1000 (size_changed 1005 16 32)).map
      (fun t => (t.rows, t.cols)) = some (2, 2) := by
  decide

/-- C21 (amended): handling a SIZE_CHANGED window event (glyph box not zero)
sets `terminal.width` and `terminal.height` to the event's pixel dimensions,
recomputes `terminal.cols` and `terminal.rows` from them at once, and sets
`ticks_resize` to `terminal.ticks`; every other field of the terminal state is
left unchanged; and the deferred structural resize does not recompute the rows
and columns, it leaves the size fields as the event set them. -/
theorem C21_size_changed_sets_sizes_and_timestamp (gw gh : Int) (t : TerminalEmulator)
    (event : SDL_WindowEvent) (hw : gw ≠ 0) (hh : gh ≠ 0)
    (he : event.event = SDL_WindowEventID.SDL_WINDOWEVENT_SIZE_CHANGED) :
    (∃ t1 : TerminalEmulator, handle_window_event gw gh t event = some t1 ∧
      t1.width = event.data1 ∧ t1.height = event.data2 ∧
      t1.cols = map_to_col gw event.data1 ∧ t1.rows = map_to_row gh event.data2 ∧
      t1.ticks_resize = t.ticks ∧
      t1.history = t.history ∧ t1.bell = t.bell ∧ t1.mouse = t.mouse ∧
      t1.cursor = t.cursor ∧ t1.batch_flush = t.batch_flush ∧
      t1.batch_rect = t.batch_rect ∧ t1.x = t.x ∧ t1.y = t.y ∧ t1.ticks = t.ticks ∧
      t1.fullscreen = t.fullscreen ∧ t1.dirty = t.dirty) ∧
    ∀ (screen : VTermScreen) (t2 : TerminalEmulator),
      (apply_resize_event screen t2).1.dims = t2.dims := by
  constructor
  · have hn : ¬ (gw = 0 ∨ gh = 0) := by
      rintro (h | h)
      · exact hw h
      · exact hh h
    have key : handle_window_event gw gh t event = some
        { t with
          width := event.data1
          height := event.data2
          cols := map_to_col gw event.data1
          rows := map_to_row gh event.data2
          ticks_resize := t.ticks } := by
      simp only [handle_window_event, he, hn, if_false]
    exact ⟨_, key, rfl, rfl, rfl, rfl, rfl, rfl, rfl, rfl, rfl, rfl, rfl, rfl, rfl, rfl, rfl, rfl⟩
  · intro screen t2
    unfold apply_resize_event
    split_ifs <;> rfl

/-- C21 (amended) at a concrete event: 16x32 pixels on 8x16 glyph boxes. -/
theorem C21_size_changed_sets_sizes_and_timestamp_witness :
    (∃ t1 : TerminalEmulator,
      handle_window_event 8 16 terminal_at_1000 (size_changed 1005 16 32) = some t1 ∧
      t1.width = (size_changed 1005 16 32).data1 ∧ t1.height = (size_changed 1005 16 32).data2 ∧
      t1.cols = map_to_col 8 (size_changed 1005 16 32).data1 ∧
      t1.rows = map_to_row 16 (size_changed 1005 16 32).data2 ∧
      t1.ticks_resize = terminal_at_1000.ticks ∧
      t1.history = terminal_at_1000.history ∧ t1.bell = terminal_at_1000.bell ∧
      t1.mouse = terminal_at_1000.mouse ∧
      t1.cursor = terminal_at_1000.cursor ∧ t1.batch_flush = terminal_at_1000.batch_flush ∧
      t1.batch_rect = terminal_at_1000.batch_rect ∧ t1.x = terminal_at_1000.x ∧
      t1.y = terminal_at_1000.y ∧ t1.ticks = terminal_at_1000.ticks ∧
      t1.fullscreen = terminal_at_1000.fullscreen ∧ t1.dirty = terminal_at_1000.dirty) ∧
    ∀ (screen : VTermScreen) (t2 : TerminalEmulator),
      (apply_resize_event screen t2).1.dims = t2.dims :=
  C21_size_changed_sets_sizes_and_timestamp 8 16 terminal_at_1000 (size_changed 1005 16 32)
    (by decide) (by decide) rfl

/-- C22: a SIZE_CHANGED event handled while `terminal.ticks` is 0 (its value
until the first loop iteration has finished) changes the rows and columns but
records `ticks_resize = 0`, the value that means "no resize pending": the
resize block never runs for it, however many quiet iterations follow. At any
other tick the event does leave the resize pending: the block runs in the
first iteration that ends more than 500 ticks later. -/
theorem C22_resize_at_tick_zero_is_never_applied :
    blank_terminal.ticks = 0 ∧
    (handle_window_event 8 16 blank_terminal (size_changed 5 16 32)).map
      (fun t => (t.rows, t.cols, t.ticks_resize)) = some (2, 2, 0) ∧
    (∀ t1 ∈ handle_window_event 8 16 blank_terminal (size_changed 5 16 32),
      (∀ now : Nat, ¬ resize_fires t1 now) ∧
      ∀ later : List Nat, ∃ (t2 : TerminalEmulator) (effects : List TerminalEffect),
        run_loop 8 16 0 blank_screen t1
          (later.map (fun now => ({ events := [], now := now } : LoopIteration))) =
          some (t2, effects) ∧
        structural_resizes effects = [] ∧ t2.ticks_resize = 0) ∧
    (∀ (gw gh : Int) (t : TerminalEmulator) (event : SDL_WindowEvent) (now : Nat),
      gw ≠ 0 → gh ≠ 0 → event.event = SDL_WindowEventID.SDL_WINDOWEVENT_SIZE_CHANGED →
      0 < t.ticks → uint32_sub now t.ticks > 500 →
      ∃ t1 : TerminalEmulator, handle_window_event gw gh t event = some t1 ∧
        resize_fires t1 now) := by
  refine ⟨rfl, by decide, ?_, ?_⟩
  · intro t1 h1
    have h0 : t1.ticks_resize = 0 := by
      have h2 : handle_window_event 8 16 blank_terminal (size_changed 5 16 32) = some t1 := h1
      simp only [handle_window_event, size_changed] at h2
      rw [if_neg (by decide)] at h2
      cases h2
      rfl
    refine ⟨?_, ?_⟩
    · intro now h
      have h3 := h.1
      rw [h0] at h3
      exact absurd h3 (by decide)
    · intro later
      obtain ⟨t2, effects, r1, r2, _, r4⟩ := run_loop_idle 8 16 0 blank_screen later t1 h0
      exact ⟨t2, effects, r1, r2, r4⟩
  · intro gw gh t event now hw hh he ht hnow
    have hn : ¬ (gw = 0 ∨ gh = 0) := by
      rintro (h | h)
      · exact hw h
      · exact hh h
    have key : handle_window_event gw gh t event = some
        { t with
          width := event.data1
          height := event.data2
          cols := map_to_col gw event.data1
          rows := map_to_row gh event.data2
          ticks_resize := t.ticks } := by
      simp only [handle_window_event, he, hn, if_false]
    exact ⟨_, key, ht, hnow⟩

/-- C25: for every cursor-move notification to `pos`, whatever its `oldpos`
and `visible` arguments, `terminal_movecursor` first renders the cell at the
stored cursor position in its normal form (the engine's cell, through
`render_terminal_cell`), then floods the cell at `pos` in white; afterwards the
cursor cell is `pos`, `cursor.visible` is true, `cursor.ticks` is
`terminal.ticks`, the dirty flag is set, and no other field has changed. -/
theorem C25_movecursor_redraws_old_cell_then_floods_new (screen : VTermScreen)
    (t : TerminalEmulator) (pos oldpos : VTermPos) (visible : Int) :
    (terminal_movecursor screen t pos oldpos visible).2 =
      [TerminalEffect.render_terminal_cell
          (screen { row := t.cursor.cell.y, col := t.cursor.cell.x })
          { row := t.cursor.cell.y, col := t.cursor.cell.x },
       TerminalEffect.flood_cell pos { r := 255, g := 255, b := 255, a := 255 }] ∧
    (terminal_movecursor screen t pos oldpos visible).1.cursor.cell =
      { x := pos.col, y := pos.row } ∧
    (terminal_movecursor screen t pos oldpos visible).1.cursor.visible = true ∧
    (terminal_movecursor screen t pos oldpos visible).1.cursor.ticks = t.ticks ∧
    (terminal_movecursor screen t pos oldpos visible).1.dirty = true ∧
    (terminal_movecursor screen t pos oldpos visible).1 =
      { t with
        cursor := (terminal_movecursor screen t pos oldpos visible).1.cursor
        dirty := true } := by
  refine ⟨?_, rfl, rfl, rfl, rfl, rfl⟩
  simp only [terminal_movecursor, render_terminal_cursor]
  rfl

/-! ## Highlighting during a drag -/

theorem highlight_cells_cell (screen : VTermScreen) (rect : VTermRect) (highlight : Bool)
    (call : RenderCall) (h : call ∈ highlight_cells screen rect highlight) :
    call.cell = if highlight then (screen call.position).flip_reverse
      else screen call.position := by
  simp only [highlight_cells, List.mem_flatMap, List.mem_map, List.mem_range] at h
  obtain ⟨i, _, j, _, rfl⟩ := h
  cases highlight <;> rfl

theorem highlight_cells_positions (screen : VTermScreen) (rect : VTermRect) :
    (highlight_cells screen rect true).map RenderCall.position =
      (highlight_cells screen rect false).map RenderCall.position := by
  simp only [highlight_cells, List.map_flatMap, List.map_map, Function.comp_def]

theorem last_render_append (a b : List RenderCall) (pos : VTermPos) :
    last_render (a ++ b) pos =
      match last_render b pos with
      | some cell => some cell
      | none => last_render a pos := by
  simp only [last_render, List.filter_append, List.getLast?_append]
  cases (List.filter (fun call => decide (call.position = pos)) b).getLast? <;> rfl

theorem last_render_eq_none (calls : List RenderCall) (pos : VTermPos) :
    last_render calls pos = none ↔ pos ∉ calls.map RenderCall.position := by
  simp only [last_render, Option.map_eq_none', List.getLast?_eq_none_iff,
    List.filter_eq_nil_iff, decide_eq_true_eq, List.mem_map, not_exists, not_and]

theorem last_render_position (calls : List RenderCall) (pos : VTermPos)
    (cell : VTermScreenCell) (h : last_render calls pos = some cell) :
    ∃ call ∈ calls, call.position = pos ∧ call.cell = cell := by
  simp only [last_render, Option.map_eq_some'] at h
  obtain ⟨call, h1, h2⟩ := h
  have h3 := List.mem_of_getLast?_eq_some h1
  simp only [List.mem_filter, decide_eq_true_eq] at h3
  exact ⟨call, h3.1, h3.2, h2⟩

/-- After an unhighlight, every position it rendered shows the engine's cell. -/
theorem last_render_unhighlight (screen : VTermScreen) (rect : VTermRect) (pos : VTermPos)
    (cell : VTermScreenCell) (h : last_render (highlight_cells screen rect false) pos = some cell) :
    cell = screen pos := by
  obtain ⟨call, h1, h2, h3⟩ := last_render_position _ _ _ h
  have h4 := highlight_cells_cell screen rect false call h1
  rw [← h3, ← h2, h4]
  rfl

/-- The invariant of a drag: every position that does not show the engine's
cell lies in the rectangle that the next unhighlight will render. -/
theorem drag_invariant_step (screen : VTermScreen) (calls : List RenderCall)
    (rect rect1 : VTermRect)
    (h : ∀ pos cell, last_render calls pos = some cell → cell ≠ screen pos →
      pos ∈ (highlight_cells screen rect false).map RenderCall.position) :
    (∀ pos cell, last_render (calls ++ highlight_cells screen rect false) pos = some cell →
      cell = screen pos) ∧
    ∀ pos cell,
      last_render (calls ++ (highlight_cells screen rect false ++
        highlight_cells screen rect1 true)) pos = some cell →
      cell ≠ screen pos →
      pos ∈ (highlight_cells screen rect1 false).map RenderCall.position := by
  have h1 : ∀ pos cell,
      last_render (calls ++ highlight_cells screen rect false) pos = some cell →
      cell = screen pos := by
    intro pos cell hc
    rw [last_render_append] at hc
    cases hu : last_render (highlight_cells screen rect false) pos with
    | some c =>
      rw [hu] at hc
      cases hc
      exact last_render_unhighlight screen rect pos _ hu
    | none =>
      rw [hu] at hc
      by_contra hne
      exact (last_render_eq_none _ _).1 hu (h pos cell hc hne)
  refine ⟨h1, ?_⟩
  intro pos cell hc hne
  rw [← List.append_assoc, last_render_append] at hc
  cases hu : last_render (highlight_cells screen rect1 true) pos with
  | some c =>
    rw [← highlight_cells_positions]
    by_contra hn
    rw [(last_render_eq_none _ _).2 hn] at hu
    cases hu
  | none =>
    rw [hu] at hc
    exact absurd (h1 pos cell hc) hne

theorem on_mouse_motions_calls_invariant (gw gh : Int) (screen : VTermScreen)
    (motions : List (Int × Int)) :
    ∀ (mouse mouse1 : MouseState) (calls0 calls1 : List RenderCall),
      (∀ pos cell, last_render calls0 pos = some cell → cell ≠ screen pos →
        pos ∈ (highlight_cells screen mouse.rect false).map RenderCall.position) →
      on_mouse_motions_calls gw gh screen mouse motions = some (mouse1, calls1) →
      ∀ pos cell, last_render (calls0 ++ calls1) pos = some cell → cell ≠ screen pos →
        pos ∈ (highlight_cells screen mouse1.rect false).map RenderCall.position := by
  induction motions with
  | nil =>
    intro mouse mouse1 calls0 calls1 hinv h
    simp only [on_mouse_motions_calls, Option.some.injEq, Prod.mk.injEq] at h
    obtain ⟨rfl, rfl⟩ := h
    rw [List.append_nil]
    exact hinv
  | cons m rest ih =>
    intro mouse mouse1 calls0 calls1 hinv h
    simp only [on_mouse_motions_calls] at h
    cases h1 : on_mouse_motion gw gh screen mouse m.1 m.2 with
    | none => rw [h1] at h; cases h
    | some r1 =>
      obtain ⟨mouse2, calls2⟩ := r1
      rw [h1] at h
      simp only at h
      cases h2 : on_mouse_motions_calls gw gh screen mouse2 rest with
      | none => rw [h2] at h; cases h
      | some r2 =>
        obtain ⟨mouse3, calls3⟩ := r2
        rw [h2] at h
        simp only [Option.some.injEq, Prod.mk.injEq] at h
        obtain ⟨rfl, rfl⟩ := h
        rw [← List.append_assoc]
        refine ih mouse2 mouse3 (calls0 ++ calls2) calls3 ?_ h2
        unfold on_mouse_motion at h1
        by_cases hz : gw = 0 ∨ gh = 0
        · rw [if_pos hz] at h1
          cases h1
        · rw [if_neg hz] at h1
          cases hl : mouse.lmb
          · simp only [hl, Bool.false_eq_true, if_false, Option.some.injEq,
              Prod.mk.injEq] at h1
            obtain ⟨rfl, rfl⟩ := h1
            rw [List.append_nil]
            exact hinv
          · simp only [hl, if_true, Option.some.injEq, Prod.mk.injEq] at h1
            obtain ⟨rfl, rfl⟩ := h1
            exact (drag_invariant_step screen calls0 mouse.rect _ hinv).2

/-- After a drag and the release, every rendered position shows the engine's
own cell. -/
theorem drag_and_release_normal (gw gh : Int) (screen : VTermScreen)
    (clipboard_text : List Nat) (mouse final : MouseState) (motions : List (Int × Int))
    (calls : List RenderCall)
    (h : drag_and_release gw gh screen clipboard_text mouse motions = some (final, calls)) :
    ∀ pos cell, last_render calls pos = some cell → cell = screen pos := by
  unfold drag_and_release at h
  cases h1 : on_mouse_motions_calls gw gh screen (on_mouse_button_down mouse 1) motions with
  | none => rw [h1] at h; cases h
  | some r1 =>
    obtain ⟨mouse1, calls1⟩ := r1
    rw [h1] at h
    simp only [Option.some.injEq, Prod.mk.injEq] at h
    obtain ⟨_, rfl⟩ := h
    have hinv := on_mouse_motions_calls_invariant gw gh screen motions
      (on_mouse_button_down mouse 1) mouse1 [] calls1
      (fun pos cell hc _ => by cases hc) h1
    rw [List.nil_append] at hinv
    have hup : (on_mouse_button_up screen clipboard_text mouse1 1).rendered =
        highlight_cells screen mouse1.rect false := by
      simp only [on_mouse_button_up, if_true]
    rw [hup]
    exact (drag_invariant_step screen calls1 mouse1.rect mouse1.rect hinv).1

/-- C23: `highlight_cells` reads the engine's cells and changes none of them:
with `highlight = true` every cell of the rectangle is rendered from a copy
whose `reverse` flag is flipped, with `highlight = false` it is rendered as the
engine holds it. So after highlighting a rectangle and unhighlighting the same
rectangle every cell of it shows the colours of the engine's own cell; and
after a whole drag (button down, any motions, so also overlapping rectangles,
button up) every cell that was rendered shows the colours of the engine's own
cell. -/
theorem C23_unhighlight_restores_rendered_colors (gw gh : Int) (screen : VTermScreen)
    (rect : VTermRect) (clipboard_text : List Nat) (mouse final : MouseState)
    (motions : List (Int × Int)) (calls : List RenderCall)
    (h : drag_and_release gw gh screen clipboard_text mouse motions = some (final, calls)) :
    (∀ call ∈ highlight_cells screen rect true,
      call.cell = (screen call.position).flip_reverse) ∧
    (∀ call ∈ highlight_cells screen rect false, call.cell = screen call.position) ∧
    (∀ pos ∈ (highlight_cells screen rect true).map RenderCall.position,
      (last_render (highlight_cells screen rect true ++ highlight_cells screen rect false)
        pos).map render_terminal_cell_colors = some (render_terminal_cell_colors (screen pos))) ∧
    (∀ pos ∈ calls.map RenderCall.position,
      (last_render calls pos).map render_terminal_cell_colors =
        some (render_terminal_cell_colors (screen pos))) := by
  refine ⟨fun call hc => highlight_cells_cell screen rect true call hc,
    fun call hc => highlight_cells_cell screen rect false call hc, ?_, ?_⟩
  · intro pos hpos
    rw [highlight_cells_positions] at hpos
    rw [last_render_append]
    cases hu : last_render (highlight_cells screen rect false) pos with
    | some cell =>
      rw [last_render_unhighlight screen rect pos cell hu]
      rfl
    | none => exact absurd hpos ((last_render_eq_none _ _).1 hu)
  · intro pos hpos
    cases hu : last_render calls pos with
    | some cell =>
      rw [drag_and_release_normal gw gh screen clipboard_text mouse final motions calls h
        pos cell hu]
      rfl
    | none => exact absurd hpos ((last_render_eq_none _ _).1 hu)

/-- C23 at a concrete drag over a screen with a reversed cell at (6, 6): from
cell (5, 5) to (5, 6) and on to (6, 6), so the two highlighted rectangles
overlap, then the release. -/
theorem C23_unhighlight_restores_rendered_colors_witness :
    ∃ (final : MouseState) (calls : List RenderCall),
      drag_and_release 8 16 screen_with_reversed_cell [] mouse_at_5_5 [(48, 80), (48, 96)] =
        some (final, calls) ∧
      calls.length = 13 ∧
      (∀ call ∈ highlight_cells screen_with_reversed_cell ⟨5, 6, 5, 6⟩ true,
        call.cell = (screen_with_reversed_cell call.position).flip_reverse) ∧
      (∀ call ∈ highlight_cells screen_with_reversed_cell ⟨5, 6, 5, 6⟩ false,
        call.cell = screen_with_reversed_cell call.position) ∧
      (∀ pos ∈ (highlight_cells screen_with_reversed_cell ⟨5, 6, 5, 6⟩ true).map
          RenderCall.position,
        (last_render (highlight_cells screen_with_reversed_cell ⟨5, 6, 5, 6⟩ true ++
          highlight_cells screen_with_reversed_cell ⟨5, 6, 5, 6⟩ false)
          pos).map render_terminal_cell_colors =
          some (render_terminal_cell_colors (screen_with_reversed_cell pos))) ∧
      (∀ pos ∈ calls.map RenderCall.position,
        (last_render calls pos).map render_terminal_cell_colors =
          some (render_terminal_cell_colors (screen_with_reversed_cell pos))) := by
  refine ⟨_, _, rfl, by decide, ?_⟩
  exact C23_unhighlight_restores_rendered_colors 8 16 screen_with_reversed_cell ⟨5, 6, 5, 6⟩ []
    mouse_at_5_5 _ [(48, 80), (48, 96)] _ rfl

/-! ## The whole of `update_terminal_emulator`: output, events, present -/

theorem presents_append (a b : List TerminalEffect) :
    presents (a ++ b) = presents a + presents b := by
  simp only [presents, List.count_append]

theorem dirty_tracks_refl (t : TerminalEmulator) : dirty_tracks t (t, []) := by
  simp [dirty_tracks, presents]

theorem dirty_tracks_trans (t : TerminalEmulator)
    (r1 r2 : TerminalEmulator × List TerminalEffect)
    (h1 : dirty_tracks t r1) (h2 : dirty_tracks r1.1 r2) :
    dirty_tracks t (r2.1, r1.2 ++ r2.2) := by
  obtain ⟨a1, a2⟩ := h1
  obtain ⟨b1, b2⟩ := h2
  refine ⟨?_, ?_⟩
  · simp only [b1, a1, List.any_append, Bool.or_assoc]
  · simp only [presents_append, a2, b2]

theorem dirty_tracks_render_terminal_cells (calls : List RenderCall) :
    ∀ t : TerminalEmulator, dirty_tracks t (render_terminal_cells t calls) ∧
      (render_terminal_cells t calls).2 =
        calls.map (fun call => TerminalEffect.render_terminal_cell call.cell call.position) ∧
      (render_terminal_cells t calls).1 =
        { t with dirty := t.dirty || !calls.isEmpty } := by
  induction calls with
  | nil =>
    intro t
    refine ⟨dirty_tracks_refl t, rfl, ?_⟩
    simp [render_terminal_cells]
  | cons call rest ih =>
    intro t
    obtain ⟨h1, h2, h3⟩ := ih (render_terminal_cell t call.cell call.position).1
    have e : render_terminal_cells t (call :: rest) =
        ((render_terminal_cells (render_terminal_cell t call.cell call.position).1 rest).1,
          (render_terminal_cell t call.cell call.position).2 ++
            (render_terminal_cells (render_terminal_cell t call.cell call.position).1 rest).2) :=
      rfl
    rw [e]
    refine ⟨?_, ?_, ?_⟩
    · have h0 : dirty_tracks t (render_terminal_cell t call.cell call.position) := by
        simp [dirty_tracks, render_terminal_cell, presents, TerminalEffect.changes_pixels]
      exact dirty_tracks_trans t _ _ h0 h1
    · show (render_terminal_cell t call.cell call.position).2 ++
        (render_terminal_cells (render_terminal_cell t call.cell call.position).1 rest).2 = _
      rw [h2]
      rfl
    · show (render_terminal_cells (render_terminal_cell t call.cell call.position).1 rest).1 = _
      rw [h3]
      simp only [render_terminal_cell, List.isEmpty_cons, Bool.not_false, Bool.or_true,
        Bool.true_or]

theorem presents_render (calls : List RenderCall) :
    presents
      (calls.map (fun call => TerminalEffect.render_terminal_cell call.cell call.position)) =
      0 := by
  induction calls with
  | nil => rfl
  | cons c rest ih =>
    simp only [presents, List.map_cons] at ih ⊢
    rw [List.count_cons, ih]
    rfl

theorem dirty_tracks_vterm_callback (configuration : HistoryConfiguration)
    (screen : VTermScreen) (t : TerminalEmulator) (callback : VTermScreenCallback)
    (r : TerminalEmulator × List TerminalEffect)
    (h : vterm_callback configuration screen t callback = some r) : dirty_tracks t r := by
  cases callback with
  | damage rect =>
    simp only [vterm_callback, Option.some.injEq] at h
    subst h
    exact (dirty_tracks_render_terminal_cells _ t).1
  | moverect dest src =>
    simp only [vterm_callback, Option.some.injEq] at h
    subst h
    simp [dirty_tracks, terminal_moverect, presents]
  | movecursor pos oldpos visible =>
    simp only [vterm_callback, Option.some.injEq] at h
    subst h
    simp [dirty_tracks, terminal_movecursor, render_terminal_cursor, presents,
      TerminalEffect.changes_pixels]
  | settermprop =>
    simp only [vterm_callback, Option.some.injEq] at h
    subst h
    exact dirty_tracks_refl t
  | bell =>
    simp only [vterm_callback, Option.some.injEq] at h
    subst h
    simp [dirty_tracks, terminal_bell, presents]
  | sb_pushline cols cells =>
    simp only [vterm_callback] at h
    cases h1 : terminal_sb_pushline configuration t.history cols cells with
    | none => rw [h1] at h; cases h
    | some history =>
      rw [h1] at h
      simp only [Option.some.injEq] at h
      subst h
      simp [dirty_tracks, presents]
  | sb_popline =>
    simp only [vterm_callback, Option.some.injEq] at h
    subst h
    exact dirty_tracks_refl t
  | sb_clear =>
    simp only [vterm_callback, Option.some.injEq] at h
    subst h
    simp [dirty_tracks, terminal_sb_clear, clear_terminal_window, presents,
      TerminalEffect.changes_pixels]

theorem dirty_tracks_vterm_callbacks (configuration : HistoryConfiguration)
    (screen : VTermScreen) (callbacks : List VTermScreenCallback) :
    ∀ (t : TerminalEmulator) (r : TerminalEmulator × List TerminalEffect),
      vterm_callbacks configuration screen t callbacks = some r → dirty_tracks t r := by
  induction callbacks with
  | nil =>
    intro t r h
    simp only [vterm_callbacks, Option.some.injEq] at h
    subst h
    exact dirty_tracks_refl t
  | cons callback rest ih =>
    intro t r h
    simp only [vterm_callbacks] at h
    cases h1 : vterm_callback configuration screen t callback with
    | none => rw [h1] at h; cases h
    | some r1 =>
      obtain ⟨t1, e1⟩ := r1
      rw [h1] at h
      simp only at h
      cases h2 : vterm_callbacks configuration screen t1 rest with
      | none => rw [h2] at h; cases h
      | some r2 =>
        obtain ⟨t2, e2⟩ := r2
        rw [h2] at h
        simp only [Option.some.injEq] at h
        subst h
        exact dirty_tracks_trans t (t1, e1) (t2, e2)
          (dirty_tracks_vterm_callback configuration screen t callback _ h1) (ih t1 _ h2)

theorem dirty_tracks_flush_batch (screen : VTermScreen) (t : TerminalEmulator) :
    dirty_tracks t (flush_batch screen t) := by
  unfold flush_batch
  split_ifs
  · exact (dirty_tracks_render_terminal_cells _ { t with batch_flush := false }).1
  · exact dirty_tracks_refl t

theorem dirty_tracks_process_child_output (configuration : HistoryConfiguration)
    (screen : VTermScreen) (t : TerminalEmulator) (running : Bool)
    (callbacks : List VTermScreenCallback) (r : TerminalEmulator × List TerminalEffect)
    (h : process_child_output configuration screen t running callbacks = some r) :
    dirty_tracks t r := by
  unfold process_child_output at h
  cases running with
  | false =>
    simp only [Bool.false_eq_true, if_false, Option.some.injEq] at h
    subst h
    exact dirty_tracks_refl t
  | true =>
    simp only [if_true] at h
    cases h1 : vterm_callbacks configuration screen t callbacks with
    | none => rw [h1] at h; cases h
    | some r1 =>
      obtain ⟨t1, e1⟩ := r1
      rw [h1] at h
      simp only [Option.some.injEq] at h
      subst h
      exact dirty_tracks_trans t (t1, e1) (flush_batch screen t1)
        (dirty_tracks_vterm_callbacks configuration screen callbacks t _ h1)
        (dirty_tracks_flush_batch screen t1)

theorem dirty_tracks_handle_event (gw gh : Int) (screen : VTermScreen)
    (t : TerminalEmulator) (event : SDL_Event) (r : TerminalEmulator × List TerminalEffect)
    (h : handle_event gw gh screen t event = some r) : dirty_tracks t r := by
  cases event with
  | SDL_QUIT =>
    simp only [handle_event, Option.some.injEq] at h
    subst h
    exact dirty_tracks_refl t
  | SDL_WINDOWEVENT window =>
    simp only [handle_event] at h
    cases h1 : handle_window_event gw gh t window with
    | none => rw [h1] at h; cases h
    | some t1 =>
      rw [h1] at h
      simp only [Option.some.injEq] at h
      subst h
      have hd : t1.dirty = t.dirty := by
        unfold handle_window_event at h1
        split at h1
        · cases h1; rfl
        · split_ifs at h1
          cases h1; rfl
        · cases h1; rfl
      simp [dirty_tracks, presents, hd]
  | SDL_KEYDOWN f11 =>
    simp only [handle_event, Option.some.injEq] at h
    subst h
    cases f11 <;> simp [dirty_tracks, presents]
  | SDL_MOUSEBUTTONDOWN button =>
    simp only [handle_event, Option.some.injEq] at h
    subst h
    simp [dirty_tracks, presents]
  | SDL_MOUSEBUTTONUP button clipboard_text =>
    simp only [handle_event, Option.some.injEq] at h
    subst h
    exact (dirty_tracks_render_terminal_cells _ _).1
  | SDL_MOUSEMOTION x y =>
    simp only [handle_event] at h
    cases h1 : on_mouse_motion gw gh screen t.mouse x y with
    | none => rw [h1] at h; cases h
    | some r1 =>
      obtain ⟨mouse, calls⟩ := r1
      rw [h1] at h
      simp only [Option.some.injEq] at h
      subst h
      exact (dirty_tracks_render_terminal_cells _ _).1
  | SDL_MOUSEWHEEL y =>
    simp only [handle_event] at h
    cases h1 : on_mouse_wheel screen t.history t.rows t.cols y with
    | none => rw [h1] at h; cases h
    | some r1 =>
      obtain ⟨history, calls⟩ := r1
      rw [h1] at h
      simp only [Option.some.injEq] at h
      subst h
      exact (dirty_tracks_render_terminal_cells _ _).1
  | SDL_TEXTINPUT =>
    simp only [handle_event, Option.some.injEq] at h
    subst h
    exact dirty_tracks_refl t
  | other =>
    simp only [handle_event, Option.some.injEq] at h
    subst h
    exact dirty_tracks_refl t

theorem dirty_tracks_handle_events (gw gh : Int) (screen : VTermScreen)
    (events : List SDL_Event) :
    ∀ (t : TerminalEmulator) (r : TerminalEmulator × List TerminalEffect),
      handle_events gw gh screen t events = some r → dirty_tracks t r := by
  induction events with
  | nil =>
    intro t r h
    simp only [handle_events, Option.some.injEq] at h
    subst h
    exact dirty_tracks_refl t
  | cons event rest ih =>
    intro t r h
    simp only [handle_events] at h
    cases h1 : handle_event gw gh screen t event with
    | none => rw [h1] at h; cases h
    | some r1 =>
      obtain ⟨t1, e1⟩ := r1
      rw [h1] at h
      simp only at h
      cases h2 : handle_events gw gh screen t1 rest with
      | none => rw [h2] at h; cases h
      | some r2 =>
        obtain ⟨t2, e2⟩ := r2
        rw [h2] at h
        simp only [Option.some.injEq] at h
        subst h
        exact dirty_tracks_trans t (t1, e1) (t2, e2)
          (dirty_tracks_handle_event gw gh screen t event _ h1) (ih t1 _ h2)

theorem dirty_tracks_before_refresh (interval : Int) (screen : VTermScreen)
    (t : TerminalEmulator) (now : Nat) :
    dirty_tracks t (update_terminal_emulator_before_refresh interval screen t now) := by
  have h1 : dirty_tracks t (apply_resize_event screen { t with ticks := now }) := by
    unfold apply_resize_event
    split_ifs
    · refine ⟨?_, ?_⟩
      · simp [TerminalEffect.changes_pixels]
      · rw [presents_append, presents_render]
        rfl
    · simp [dirty_tracks, presents]
  have h2 : ∀ t0 : TerminalEmulator,
      dirty_tracks t0 (update_terminal_cursor interval screen t0) := by
    intro t0
    unfold update_terminal_cursor
    split_ifs
    · simp only [dirty_tracks, render_terminal_cursor]
      split_ifs <;> simp [presents, TerminalEffect.changes_pixels]
    · simp [dirty_tracks, presents]
    · simp [dirty_tracks, presents]
  exact dirty_tracks_trans t _ _ h1 (h2 _)

theorem terminal_moverects_last (moves : List (VTermRect × VTermRect)) (dest src : VTermRect) :
    ∀ t : TerminalEmulator, terminal_moverects t (moves ++ [(dest, src)]) =
      { t with batch_rect := dest, batch_flush := true } := by
  induction moves with
  | nil => intro t; rfl
  | cons m rest ih =>
    intro t
    show terminal_moverects (terminal_moverect t m.1 m.2).1 (rest ++ [(dest, src)]) = _
    rw [ih]
    rfl

theorem vterm_callbacks_moverects (configuration : HistoryConfiguration)
    (screen : VTermScreen) (moves : List (VTermRect × VTermRect)) :
    ∀ t : TerminalEmulator, vterm_callbacks configuration screen t
        (moves.map (fun m => VTermScreenCallback.moverect m.1 m.2)) =
      some (terminal_moverects t moves, []) := by
  induction moves with
  | nil => intro t; rfl
  | cons m rest ih =>
    intro t
    simp only [List.map_cons, vterm_callbacks, vterm_callback, ih]
    rfl

theorem flush_batch_pending (screen : VTermScreen) (t : TerminalEmulator)
    (h : t.batch_flush = true) :
    flush_batch screen t =
      ({ t with
          batch_flush := false
          dirty := t.dirty || !(render_terminal_rect screen t.batch_rect).isEmpty },
        (render_terminal_rect screen t.batch_rect).map
          (fun call => TerminalEffect.render_terminal_cell call.cell call.position)) := by
  unfold flush_batch
  rw [if_pos h]
  obtain ⟨_, h2, h3⟩ := dirty_tracks_render_terminal_cells
    (render_terminal_rect screen t.batch_rect) { t with batch_flush := false }
  exact Prod.ext h3 h2

/-- C24: `terminal_moverect(dest, src)` only records `batch.rect := dest` and
`batch.flush := true`: it draws nothing and leaves the dirty flag and every
other field as they are. After k >= 1 move-rect notifications, the last one to
`dest`, the next output-processing cycle with a running child redraws exactly
once, the cells of `render_terminal_rect(dest)`, and clears `batch.flush`,
whether the notifications are delivered within that cycle or were pending when
it started; the cycle after it redraws nothing; and without a running child
the flush stays pending. -/
theorem C24_moverects_coalesce_into_one_redraw (configuration : HistoryConfiguration)
    (screen : VTermScreen) (t : TerminalEmulator) (moves : List (VTermRect × VTermRect))
    (dest src : VTermRect) :
    terminal_moverect t dest src =
      ({ t with batch_rect := dest, batch_flush := true }, []) ∧
    terminal_moverects t (moves ++ [(dest, src)]) =
      { t with batch_rect := dest, batch_flush := true } ∧
    process_child_output configuration screen
        (terminal_moverects t (moves ++ [(dest, src)])) true [] =
      some ({ t with
              batch_rect := dest
              batch_flush := false
              dirty := t.dirty || !(render_terminal_rect screen dest).isEmpty },
            (render_terminal_rect screen dest).map
              (fun call => TerminalEffect.render_terminal_cell call.cell call.position)) ∧
    process_child_output configuration screen t true
        ((moves ++ [(dest, src)]).map (fun m => VTermScreenCallback.moverect m.1 m.2)) =
      some ({ t with
              batch_rect := dest
              batch_flush := false
              dirty := t.dirty || !(render_terminal_rect screen dest).isEmpty },
            (render_terminal_rect screen dest).map
              (fun call => TerminalEffect.render_terminal_cell call.cell call.position)) ∧
    process_child_output configuration screen
        { t with
          batch_rect := dest
          batch_flush := false
          dirty := t.dirty || !(render_terminal_rect screen dest).isEmpty } true [] =
      some ({ t with
              batch_rect := dest
              batch_flush := false
              dirty := t.dirty || !(render_terminal_rect screen dest).isEmpty }, []) ∧
    process_child_output configuration screen
        (terminal_moverects t (moves ++ [(dest, src)])) false [] =
      some ({ t with batch_rect := dest, batch_flush := true }, []) := by
  have hflush : flush_batch screen { t with batch_rect := dest, batch_flush := true } =
      ({ t with
          batch_rect := dest
          batch_flush := false
          dirty := t.dirty || !(render_terminal_rect screen dest).isEmpty },
        (render_terminal_rect screen dest).map
          (fun call => TerminalEffect.render_terminal_cell call.cell call.position)) :=
    flush_batch_pending screen { t with batch_rect := dest, batch_flush := true } rfl
  refine ⟨rfl, terminal_moverects_last moves dest src t, ?_, ?_, ?_, ?_⟩
  · rw [terminal_moverects_last]
    simp only [process_child_output, if_true, vterm_callbacks, hflush, List.nil_append]
  · simp only [process_child_output, if_true, vterm_callbacks_moverects,
      terminal_moverects_last, hflush, List.nil_append]
  · simp only [process_child_output, if_true, vterm_callbacks, flush_batch,
      Bool.false_eq_true, if_false, List.nil_append]
  · rw [terminal_moverects_last]
    simp only [process_child_output, Bool.false_eq_true, if_false]

/-- C26: each of the primitives `clear_terminal_window`, `flood_cell` and
`render_terminal_cell` sets the dirty flag. One call of
`update_terminal_emulator` calls `SDL_RenderPresent` at most once: nothing
before the block "Trigger screen refresh" presents, the dirty flag at that
block is set exactly when it was set at the start of the iteration or the
iteration changed pixels, the block presents exactly when the flag is set, and
the iteration ends with the flag false. -/
theorem C26_dirty_flag_gates_one_present (gw gh interval : Int)
    (configuration : HistoryConfiguration) (screen : VTermScreen) (t t1 : TerminalEmulator)
    (input : UpdateInput) (effects : List TerminalEffect) (keep_running : Bool)
    (h : update_terminal_emulator gw gh interval configuration screen t input =
      some (t1, effects, keep_running)) :
    (∀ t0 : TerminalEmulator, (clear_terminal_window t0).1.dirty = true) ∧
    (∀ (t0 : TerminalEmulator) (position : VTermPos) (color : SDL_Color),
      (flood_cell t0 position color).1.dirty = true) ∧
    (∀ (t0 : TerminalEmulator) (cell : VTermScreenCell) (position : VTermPos),
      (render_terminal_cell t0 cell position).1.dirty = true) ∧
    presents effects ≤ 1 ∧
    (∃ (t2 : TerminalEmulator) (e2 : List TerminalEffect),
      update_terminal_emulator_events gw gh configuration screen t input =
        some (t2, e2, keep_running) ∧
      presents (e2 ++ (update_terminal_emulator_before_refresh interval screen t2 input.now).2)
        = 0 ∧
      (update_terminal_emulator_before_refresh interval screen t2 input.now).1.dirty =
        (t.dirty ||
          (e2 ++ (update_terminal_emulator_before_refresh interval screen t2 input.now).2).any
            TerminalEffect.changes_pixels) ∧
      (presents effects = 1 ↔
        (update_terminal_emulator_before_refresh interval screen t2 input.now).1.dirty = true) ∧
      effects =
        e2 ++ (update_terminal_emulator_before_refresh interval screen t2 input.now).2 ++
          (if (update_terminal_emulator_before_refresh interval screen t2 input.now).1.dirty
            then [TerminalEffect.SDL_RenderPresent] else [])) ∧
    t1.dirty = false := by
  refine ⟨fun _ => rfl, fun _ _ _ => rfl, fun _ _ _ => rfl, ?_⟩
  unfold update_terminal_emulator at h
  cases h1 : update_terminal_emulator_events gw gh configuration screen t input with
  | none => rw [h1] at h; cases h
  | some r =>
    obtain ⟨t2, e2, k⟩ := r
    rw [h1] at h
    simp only [Option.some.injEq, Prod.mk.injEq] at h
    obtain ⟨ht1, he, hk⟩ := h
    subst hk
    have htr : dirty_tracks t (t2, e2) := by
      unfold update_terminal_emulator_events at h1
      cases h2 : process_child_output configuration screen t input.running input.callbacks with
      | none => rw [h2] at h1; cases h1
      | some ra =>
        obtain ⟨ta, ea⟩ := ra
        rw [h2] at h1
        simp only at h1
        cases h3 : handle_events gw gh screen ta input.events with
        | none => rw [h3] at h1; cases h1
        | some rb =>
          obtain ⟨tb, eb⟩ := rb
          rw [h3] at h1
          simp only [Option.some.injEq, Prod.mk.injEq] at h1
          obtain ⟨rfl, rfl, _⟩ := h1
          exact dirty_tracks_trans t (ta, ea) (tb, eb)
            (dirty_tracks_process_child_output configuration screen t _ _ _ h2)
            (dirty_tracks_handle_events gw gh screen _ ta _ h3)
    have hmid := dirty_tracks_trans t (t2, e2) _ htr
      (dirty_tracks_before_refresh interval screen t2 input.now)
    obtain ⟨m1, m2⟩ := hmid
    simp only at m1 m2
    have htimers : update_terminal_emulator_timers interval screen t2 input.now =
        ((trigger_screen_refresh
            (update_terminal_emulator_before_refresh interval screen t2 input.now).1).1,
          (update_terminal_emulator_before_refresh interval screen t2 input.now).2 ++
          (trigger_screen_refresh
            (update_terminal_emulator_before_refresh interval screen t2 input.now).1).2) := rfl
    rw [htimers] at ht1 he
    simp only at ht1 he
    have heff : effects =
        e2 ++ (update_terminal_emulator_before_refresh interval screen t2 input.now).2 ++
        (if (update_terminal_emulator_before_refresh interval screen t2 input.now).1.dirty
          then [TerminalEffect.SDL_RenderPresent] else []) := by
      rw [← he, List.append_assoc]
      unfold trigger_screen_refresh
      split_ifs <;> rfl
    have hp : presents effects =
        if (update_terminal_emulator_before_refresh interval screen t2 input.now).1.dirty
          then 1 else 0 := by
      rw [heff, presents_append, m2]
      split_ifs <;> rfl
    refine ⟨?_, ⟨t2, e2, rfl, m2, m1, ?_, heff⟩, ?_⟩
    · rw [hp]
      split_ifs <;> decide
    · rw [hp]
      by_cases hd :
          (update_terminal_emulator_before_refresh interval screen t2 input.now).1.dirty = true
      · rw [if_pos hd]
        exact ⟨fun _ => hd, fun _ => rfl⟩
      · rw [if_neg hd]
        exact ⟨fun h0 => absurd h0 (by decide), fun h0 => absurd h0 hd⟩
    · rw [← ht1]
      unfold trigger_screen_refresh
      split_ifs with hd
      · rfl
      · simpa using hd

/-- C26 at a concrete iteration: damage, a move-rect and a bell from the
engine, a mouse motion and a key press, the tick 1500. -/
theorem C26_dirty_flag_gates_one_present_witness :
    ∃ (t1 : TerminalEmulator) (effects : List TerminalEffect) (keep_running : Bool),
      update_terminal_emulator 8 16 500 history_enabled blank_screen terminal_at_1000
        sample_update_input = some (t1, effects, keep_running) ∧
      presents effects = 1 ∧ effects.length = 4 ∧
      (∀ t0 : TerminalEmulator, (clear_terminal_window t0).1.dirty = true) ∧
      (∀ (t0 : TerminalEmulator) (position : VTermPos) (color : SDL_Color),
        (flood_cell t0 position color).1.dirty = true) ∧
      (∀ (t0 : TerminalEmulator) (cell : VTermScreenCell) (position : VTermPos),
        (render_terminal_cell t0 cell position).1.dirty = true) ∧
      presents effects ≤ 1 ∧
      (∃ (t2 : TerminalEmulator) (e2 : List TerminalEffect),
        update_terminal_emulator_events 8 16 history_enabled blank_screen terminal_at_1000
          sample_update_input = some (t2, e2, keep_running) ∧
        presents (e2 ++ (update_terminal_emulator_before_refresh 500 blank_screen t2
          sample_update_input.now).2) = 0 ∧
        (update_terminal_emulator_before_refresh 500 blank_screen t2
          sample_update_input.now).1.dirty =
          (terminal_at_1000.dirty ||
            (e2 ++ (update_terminal_emulator_before_refresh 500 blank_screen t2
              sample_update_input.now).2).any TerminalEffect.changes_pixels) ∧
        (presents effects = 1 ↔
          (update_terminal_emulator_before_refresh 500 blank_screen t2
            sample_update_input.now).1.dirty = true) ∧
        effects =
          e2 ++ (update_terminal_emulator_before_refresh 500 blank_screen t2
            sample_update_input.now).2 ++
            (if (update_terminal_emulator_before_refresh 500 blank_screen t2
              sample_update_input.now).1.dirty
              then [TerminalEffect.SDL_RenderPresent] else [])) ∧
      t1.dirty = false := by
  refine ⟨_, _, _, rfl, by decide, by decide, ?_⟩
  exact C26_dirty_flag_gates_one_present 8 16 500 history_enabled blank_screen
    terminal_at_1000 _ sample_update_input _ _ rfl

/-! ## The bound of the page array -/

/-- C27: with 500x500 glyph boxes a page holds four glyphs; forty distinct
codepoints fill ten pages, the whole `pages` array. The draw of a forty-first
codepoint finds it in no page and no page with room, so `find_free_page` calls
`append_page`, which has no bound check and writes `pages[10]`, past the
array: the draw is undefined. For every font with ten pages or more
`append_page` is undefined. -/
theorem C27_eleventh_page_is_written_past_the_array :
    (create_page 500 500).map FOX_Page.glyph_capacity = some 4 ∧
    (FOX_DrawGlyphs ⟨800, 600⟩ (fun _ => true) (FOX_OpenFont 500 500) (glyph_draws 40)).map
      (fun r => (r.1.num_pages, first_free_page r.1.pages, find_glyph r.1 40,
        append_page_index r.1, (append_page r.1).isSome,
        (FOX_DrawGlyph ⟨800, 600⟩ (fun _ => true) r.1 ⟨0, 0⟩ 40).isSome)) =
      some (10, (none : Option Nat), (none : Option (Nat × Nat)), 10, false, false) ∧
    FOX_DrawGlyphs ⟨800, 600⟩ (fun _ => true) (FOX_OpenFont 500 500) (glyph_draws 41) = none ∧
    (∀ font : FOX_Font, 10 ≤ font.num_pages → append_page font = none) := by
  refine ⟨by decide, rfl, by decide, ?_⟩
  intro font h
  unfold append_page
  rw [if_neg (by simpa [FOX_Font.num_pages] using h)]

/-! ## The loader `ini_load_file` -/

/-- C28: the capacity check of `ini_load_file` is `num_items > 32`, so it
lets the loop go on with `num_items = 32`, when the array `items[32]` is full:
32 key lines are stored, the 33rd key line is stored in `items[32]`, past the
array, which is undefined; and a 33rd line that does not parse is counted
without a store, so the file returned has `num_items = 33`. Only with
`num_items = 33` does the loop break. -/
theorem C28_thirty_third_item_is_stored_past_the_array :
    (ini_load_file (key_lines 32)).map IniFile.num_items = some 32 ∧
    ini_load_file (key_lines 33) = none ∧
    (ini_load_file (key_lines 32 ++ "oops\n".data)).map IniFile.num_items = some 33 ∧
    (∀ ini : IniFile, ini.num_items = 32 →
      ini_load_line ini "k=v\n".data = none ∧
      ini_load_line ini "oops\n".data = some (ini_skip_item ini, true) ∧
      (ini_skip_item ini).num_items = 33) ∧
    (∀ ini : IniFile, ini.num_items = 33 →
      ini_load_line ini "k=v\n".data = some (ini, false)) := by
  refine ⟨?_, ?_, ?_, ?_, ?_⟩
  · set_option maxRecDepth 100000 in decide
  · set_option maxRecDepth 100000 in decide
  · set_option maxRecDepth 100000 in decide
  · intro ini h
    have hc : ¬ (ini.num_items > ini_items_capacity) := by
      rw [h]
      decide
    refine ⟨?_, ?_, ?_⟩
    · unfold ini_load_line
      dsimp only
      rw [if_neg (by decide), if_neg hc, if_neg (by decide), if_pos (by decide),
        if_neg (by decide)]
      unfold ini_store_item
      rw [h, if_neg (by decide)]
      rfl
    · unfold ini_load_line
      dsimp only
      rw [if_neg (by decide), if_neg hc, if_neg (by decide), if_neg (by decide)]
    · simp only [ini_skip_item, IniFile.num_items, List.length_append, List.length_singleton]
      have h1 : ini.items.length = 32 := h
      rw [h1]
  · intro ini h
    have hc : ini.num_items > ini_items_capacity := by
      rw [h]
      decide
    unfold ini_load_line
    dsimp only
    rw [if_neg (by decide), if_pos hc]

/-- C29: `ini_load_file` counts the slot (`&ini->items[ini->num_items++]`)
before it looks at the line. Comment lines and blank lines do leave
`num_items` unchanged, and a section line and a key line are stored as
claimed. But a line that starts with `[` and has no `]`, and a line without
`=`, each add one to `num_items` and store nothing: the file read from
`[broken`, `k=v` has `num_items = 2` with `items[0]` never written (so that a
lookup in it reads an unset `kind`), and the file read from the one line
`novalue` has `num_items = 1` and no item set. -/
theorem C29_slot_is_counted_before_the_line_is_parsed :
    ini_load_file "# comment\n\n \t \n[window]\n width = 800 \n".data =
      some { items := [some ⟨IniFileItemKind.IniFile_Section, "window", none⟩,
        some ⟨IniFileItemKind.IniFile_Item, "width", some "800"⟩] } ∧
    ini_load_file "[broken\nk=v\n".data =
      some { items := [none, some ⟨IniFileItemKind.IniFile_Item, "k", some "v"⟩] } ∧
    (ini_load_file "[broken\nk=v\n".data).map IniFile.num_items = some 2 ∧
    ini_load_file "novalue\n".data = some { items := [none] } ∧
    ini_get_value { items := [none, some ⟨IniFileItemKind.IniFile_Item, "k", some "v"⟩] }
      "window" "k" = none ∧
    (∀ (ini : IniFile) (buffer : List Char),
      line_is_comment (c_string buffer) = true ∨ line_is_empty (c_string buffer) = true →
      ini_load_line ini buffer = some (ini, true)) ∧
    (∀ (ini : IniFile) (buffer : List Char),
      line_is_comment (c_string buffer) = false → line_is_empty (c_string buffer) = false →
      ini.num_items ≤ ini_items_capacity →
      ((c_string buffer).head? = some '[' ∧ ']' ∉ c_string buffer) ∨
        ((c_string buffer).head? ≠ some '[' ∧ '=' ∉ c_string buffer) →
      ini_load_line ini buffer = some (ini_skip_item ini, true) ∧
      (ini_skip_item ini).num_items = ini.num_items + 1 ∧
      (ini_skip_item ini).items.getLast? = some none) := by
  refine ⟨by decide, by decide, by decide, by decide, by decide, ?_, ?_⟩
  · intro ini buffer h
    unfold ini_load_line
    dsimp only
    rw [if_pos h]
  · intro ini buffer h1 h2 h3 h4
    have hn : ¬ (line_is_comment (c_string buffer) = true ∨
        line_is_empty (c_string buffer) = true) := by
      rw [h1, h2]
      decide
    have hc : ¬ (ini.num_items > ini_items_capacity) := Nat.not_lt.2 h3
    refine ⟨?_, ?_, ?_⟩
    · unfold ini_load_line
      dsimp only
      rw [if_neg hn, if_neg hc]
      rcases h4 with ⟨h5, h6⟩ | ⟨h5, h6⟩
      · rw [if_pos h5, if_neg h6]
      · have h7 : '=' ∉ List.dropWhile SDL_isspace (c_string buffer) :=
          fun hm => h6 ((List.dropWhile_sublist _).subset hm)
        rw [if_neg h5, if_neg h7]
    · simp only [ini_skip_item, IniFile.num_items, List.length_append, List.length_singleton]
    · simp only [ini_skip_item, List.getLast?_append, List.getLast?_singleton]
      rfl

/-! ## UTF-8 decoding in `FOX_DrawText` -/

theorem FOX_Utf8Length_table :
    ∀ b, b < 256 →
      (b < 128 → FOX_Utf8Length b = 1) ∧ (192 ≤ b → b < 224 → FOX_Utf8Length b = 2) ∧
      (224 ≤ b → b < 240 → FOX_Utf8Length b = 3) ∧
      (240 ≤ b → b < 248 → FOX_Utf8Length b = 4) := by
  set_option maxRecDepth 100000 in decide

theorem continuation_bits :
    ∀ b, b < 256 → to_uint32 (to_char b) &&& FOX_utf_0.mask = b % 64 := by
  set_option maxRecDepth 100000 in decide

theorem lor_eq_add (a b k : Nat) (h : b < 2 ^ k) : a * 2 ^ k ||| b = a * 2 ^ k + b := by
  rw [Nat.mul_comm]
  exact (Nat.mul_add_lt_is_or h a).symm

theorem utf8_core_2 (a b : Nat) (ha : a < 32) (hb : b < 64) :
    ((a <<< 6) % 2 ^ 32 ||| b <<< 0) % 2 ^ 32 = a * 64 + b := by
  rw [Nat.shiftLeft_eq, Nat.shiftLeft_zero,
    Nat.mod_eq_of_lt (show a * 2 ^ 6 < 2 ^ 32 by omega), lor_eq_add a b 6 (by omega),
    Nat.mod_eq_of_lt (show a * 2 ^ 6 + b < 2 ^ 32 by omega)]
  omega

theorem utf8_core_3 (a b c : Nat) (ha : a < 16) (hb : b < 64) (hc : c < 64) :
    (((a <<< 12) % 2 ^ 32 ||| b <<< 6) % 2 ^ 32 ||| c <<< 0) % 2 ^ 32 =
      a * 4096 + b * 64 + c := by
  have e : a * 2 ^ 12 + b * 2 ^ 6 = (a * 64 + b) * 2 ^ 6 := by omega
  rw [Nat.shiftLeft_eq, Nat.shiftLeft_eq, Nat.shiftLeft_zero,
    Nat.mod_eq_of_lt (show a * 2 ^ 12 < 2 ^ 32 by omega),
    lor_eq_add a (b * 2 ^ 6) 12 (by omega),
    Nat.mod_eq_of_lt (show a * 2 ^ 12 + b * 2 ^ 6 < 2 ^ 32 by omega),
    e, lor_eq_add (a * 64 + b) c 6 (by omega),
    Nat.mod_eq_of_lt (show (a * 64 + b) * 2 ^ 6 + c < 2 ^ 32 by omega)]
  omega

theorem utf8_core_4 (a b c d : Nat) (ha : a < 8) (hb : b < 64) (hc : c < 64) (hd : d < 64) :
    ((((a <<< 18) % 2 ^ 32 ||| b <<< 12) % 2 ^ 32 ||| c <<< 6) % 2 ^ 32 ||| d <<< 0) % 2 ^ 32 =
      a * 262144 + b * 4096 + c * 64 + d := by
  have e : a * 2 ^ 18 + b * 2 ^ 12 = (a * 64 + b) * 2 ^ 12 := by omega
  have e2 : (a * 64 + b) * 2 ^ 12 + c * 2 ^ 6 = ((a * 64 + b) * 64 + c) * 2 ^ 6 := by omega
  rw [Nat.shiftLeft_eq, Nat.shiftLeft_eq, Nat.shiftLeft_eq, Nat.shiftLeft_zero,
    Nat.mod_eq_of_lt (show a * 2 ^ 18 < 2 ^ 32 by omega),
    lor_eq_add a (b * 2 ^ 12) 18 (by omega),
    Nat.mod_eq_of_lt (show a * 2 ^ 18 + b * 2 ^ 12 < 2 ^ 32 by omega),
    e, lor_eq_add (a * 64 + b) (c * 2 ^ 6) 12 (by omega),
    Nat.mod_eq_of_lt (show (a * 64 + b) * 2 ^ 12 + c * 2 ^ 6 < 2 ^ 32 by omega),
    e2, lor_eq_add ((a * 64 + b) * 64 + c) d 6 (by omega),
    Nat.mod_eq_of_lt (show ((a * 64 + b) * 64 + c) * 2 ^ 6 + d < 2 ^ 32 by omega)]
  omega

theorem FOX_Utf8Decode_1 (b0 : Nat) (rest : List Nat) (h0 : b0 < 128) :
    FOX_Utf8Decode (b0 :: rest) = some (b0, 0) := by
  have hl := ((FOX_Utf8Length_table b0 (by omega)).1) h0
  have e1 : FOX_utf[Int.toNat 1]? = some ⟨0x7f, 0, 7⟩ := rfl
  have e2 : FOX_utf_0.bits_stored * (1 - 1) = 0 := rfl
  have e3 : Int.toNat 1 - 1 = 0 := rfl
  have m : b0 &&& 127 = b0 % 128 := Nat.and_pow_two_sub_one_eq_mod b0 7
  unfold FOX_Utf8Decode
  simp only [hl, e1, e2, e3]
  rw [if_neg (by decide), if_neg (by decide)]
  simp only [FOX_Utf8Decode_loop, m, Int.toNat_zero, Nat.shiftLeft_zero]
  rw [Nat.mod_eq_of_lt h0, Nat.mod_eq_of_lt (by omega)]

theorem FOX_Utf8Decode_2 (b0 b1 : Nat) (rest : List Nat) (h0 : 192 ≤ b0) (h0' : b0 < 224)
    (h1 : b1 < 256) :
    FOX_Utf8Decode (b0 :: b1 :: rest) = some (b0 % 32 * 64 + b1 % 64, 1) := by
  have hl := ((FOX_Utf8Length_table b0 (by omega)).2.1) h0 h0'
  have hc := continuation_bits b1 h1
  have e1 : FOX_utf[Int.toNat 2]? = some ⟨0x1f, 0xc0, 5⟩ := rfl
  have e2 : FOX_utf_0.bits_stored * (2 - 1) = 6 := rfl
  have e3 : Int.toNat 2 - 1 = 1 := rfl
  have e4 : (6 : Int) - FOX_utf_0.bits_stored = 0 := rfl
  have e5 : Int.toNat 6 = 6 := rfl
  have m : b0 &&& 31 = b0 % 32 := Nat.and_pow_two_sub_one_eq_mod b0 5
  unfold FOX_Utf8Decode
  simp only [hl, e1, e2, e3]
  rw [if_neg (by decide), if_neg (by decide)]
  simp only [FOX_Utf8Decode_loop, e4, hc, m, e5, Int.toNat_zero]
  rw [if_neg (by decide)]
  simp only [utf8_core_2 (b0 % 32) (b1 % 64) (Nat.mod_lt _ (by decide))
    (Nat.mod_lt _ (by decide))]

theorem FOX_Utf8Decode_3 (b0 b1 b2 : Nat) (rest : List Nat) (h0 : 224 ≤ b0) (h0' : b0 < 240)
    (h1 : b1 < 256) (h2 : b2 < 256) :
    FOX_Utf8Decode (b0 :: b1 :: b2 :: rest) =
      some (b0 % 16 * 4096 + b1 % 64 * 64 + b2 % 64, 2) := by
  have hl := ((FOX_Utf8Length_table b0 (by omega)).2.2.1) h0 h0'
  have hc1 := continuation_bits b1 h1
  have hc2 := continuation_bits b2 h2
  have e1 : FOX_utf[Int.toNat 3]? = some ⟨0xf, 0xe0, 4⟩ := rfl
  have e2 : FOX_utf_0.bits_stored * (3 - 1) = 12 := rfl
  have e3 : Int.toNat 3 - 1 = 2 := rfl
  have e4 : (12 : Int) - FOX_utf_0.bits_stored = 6 := rfl
  have e5 : (6 : Int) - FOX_utf_0.bits_stored = 0 := rfl
  have e6 : Int.toNat 6 = 6 := rfl
  have e7 : Int.toNat 12 = 12 := rfl
  have m : b0 &&& 15 = b0 % 16 := Nat.and_pow_two_sub_one_eq_mod b0 4
  unfold FOX_Utf8Decode
  simp only [hl, e1, e2, e3]
  rw [if_neg (by decide), if_neg (by decide)]
  simp only [FOX_Utf8Decode_loop, e4, e5, hc1, hc2, m, e6, e7, Int.toNat_zero]
  rw [if_neg (by decide), if_neg (by decide)]
  simp only [utf8_core_3 (b0 % 16) (b1 % 64) (b2 % 64) (Nat.mod_lt _ (by decide))
    (Nat.mod_lt _ (by decide)) (Nat.mod_lt _ (by decide))]

theorem FOX_Utf8Decode_4 (b0 b1 b2 b3 : Nat) (rest : List Nat) (h0 : 240 ≤ b0)
    (h0' : b0 < 248) (h1 : b1 < 256) (h2 : b2 < 256) (h3 : b3 < 256) :
    FOX_Utf8Decode (b0 :: b1 :: b2 :: b3 :: rest) =
      some (b0 % 8 * 262144 + b1 % 64 * 4096 + b2 % 64 * 64 + b3 % 64, 3) := by
  have hl := ((FOX_Utf8Length_table b0 (by omega)).2.2.2) h0 h0'
  have hc1 := continuation_bits b1 h1
  have hc2 := continuation_bits b2 h2
  have hc3 := continuation_bits b3 h3
  have e1 : FOX_utf[Int.toNat 4]? = some ⟨0x7, 0xf0, 3⟩ := rfl
  have e2 : FOX_utf_0.bits_stored * (4 - 1) = 18 := rfl
  have e3 : Int.toNat 4 - 1 = 3 := rfl
  have e4 : (18 : Int) - FOX_utf_0.bits_stored = 12 := rfl
  have e5 : (12 : Int) - FOX_utf_0.bits_stored = 6 := rfl
  have e6 : (6 : Int) - FOX_utf_0.bits_stored = 0 := rfl
  have e7 : Int.toNat 6 = 6 := rfl
  have e8 : Int.toNat 12 = 12 := rfl
  have e9 : Int.toNat 18 = 18 := rfl
  have m : b0 &&& 7 = b0 % 8 := Nat.and_pow_two_sub_one_eq_mod b0 3
  unfold FOX_Utf8Decode
  simp only [hl, e1, e2, e3]
  rw [if_neg (by decide), if_neg (by decide)]
  simp only [FOX_Utf8Decode_loop, e4, e5, e6, hc1, hc2, hc3, m, e7, e8, e9, Int.toNat_zero]
  rw [if_neg (by decide), if_neg (by decide), if_neg (by decide)]
  simp only [utf8_core_4 (b0 % 8) (b1 % 64) (b2 % 64) (b3 % 64) (Nat.mod_lt _ (by decide))
    (Nat.mod_lt _ (by decide)) (Nat.mod_lt _ (by decide)) (Nat.mod_lt _ (by decide))]

/-- The reference encoding agrees with the encoder of the Lean core library on
one code point of each length. -/
theorem utf8_encode_agrees_with_core :
    [0x41, 0xe9, 0x20ac, 0x1f600].map utf8_encode =
      [0x41, 0xe9, 0x20ac, 0x1f600].map
        (fun c => (String.utf8EncodeChar (Char.ofNat c)).map UInt8.toNat) := by
  decide

/-- The encoding of a code point up to 0x10FFFF: its bytes, the length that
`FOX_Utf8Length` finds for its first byte, and what `FOX_Utf8Decode` makes of
it. -/
theorem FOX_Utf8Decode_utf8_encode (c : Nat) (rest : List Nat) (h : c ≤ 0x10FFFF) :
    (∃ lead tail, utf8_encode c = lead :: tail ∧ (0 < c → lead ≠ 0) ∧
      FOX_Utf8Length lead = ((utf8_encode c).length : Int)) ∧
    1 ≤ (utf8_encode c).length ∧ (utf8_encode c).length ≤ 4 ∧
    FOX_Utf8Decode (utf8_encode c ++ rest) = some (c, (utf8_encode c).length - 1) := by
  unfold utf8_encode
  by_cases h1 : c < 0x80
  · rw [if_pos h1]
    refine ⟨⟨c, [], rfl, fun hc => by omega, ?_⟩, by simp, by simp, ?_⟩
    · exact (FOX_Utf8Length_table c (by omega)).1 h1
    · exact FOX_Utf8Decode_1 c rest h1
  · rw [if_neg h1]
    by_cases h2 : c < 0x800
    · rw [if_pos h2]
      refine ⟨⟨_, _, rfl, fun _ => by omega, ?_⟩, by simp, by simp, ?_⟩
      · exact (FOX_Utf8Length_table (0xc0 + c / 64) (by omega)).2.1 (by omega) (by omega)
      · have e := FOX_Utf8Decode_2 (0xc0 + c / 64) (0x80 + c % 64) rest (by omega) (by omega)
          (by omega)
        have e2 : (0xc0 + c / 64) % 32 * 64 + (0x80 + c % 64) % 64 = c := by omega
        rw [e2] at e
        exact e
    · rw [if_neg h2]
      by_cases h3 : c < 0x10000
      · rw [if_pos h3]
        refine ⟨⟨_, _, rfl, fun _ => by omega, ?_⟩, by simp, by simp, ?_⟩
        · exact (FOX_Utf8Length_table (0xe0 + c / 4096) (by omega)).2.2.1 (by omega) (by omega)
        · have e := FOX_Utf8Decode_3 (0xe0 + c / 4096) (0x80 + c / 64 % 64) (0x80 + c % 64) rest
            (by omega) (by omega) (by omega) (by omega)
          have e2 : (0xe0 + c / 4096) % 16 * 4096 + (0x80 + c / 64 % 64) % 64 * 64 +
              (0x80 + c % 64) % 64 = c := by omega
          rw [e2] at e
          exact e
      · rw [if_neg h3]
        refine ⟨⟨_, _, rfl, fun _ => by omega, ?_⟩, by simp, by simp, ?_⟩
        · exact (FOX_Utf8Length_table (0xf0 + c / 262144) (by omega)).2.2.2 (by omega)
            (by omega)
        · have e := FOX_Utf8Decode_4 (0xf0 + c / 262144) (0x80 + c / 4096 % 64)
            (0x80 + c / 64 % 64) (0x80 + c % 64) rest
            (by omega) (by omega) (by omega) (by omega) (by omega)
          have e2 : (0xf0 + c / 262144) % 8 * 262144 + (0x80 + c / 4096 % 64) % 64 * 4096 +
              (0x80 + c / 64 % 64) % 64 * 64 + (0x80 + c % 64) % 64 = c := by omega
          rw [e2] at e
          exact e

/-- The loop of `FOX_DrawText` over a buffer that holds the encodings of the
code points `cs`, none of them 0, and the terminating NUL: it decodes `cs`. -/
theorem FOX_DrawText_loop_utf8_encode (cs : List Nat) :
    ∀ fuel : Nat, (∀ x ∈ cs, 0 < x ∧ x ≤ 0x10FFFF) →
      (cs.flatMap utf8_encode).length < fuel →
      FOX_DrawText_loop fuel (cs.flatMap utf8_encode ++ [0]) = some cs := by
  induction cs with
  | nil =>
    intro fuel _ hf
    cases fuel with
    | zero => exact absurd hf (by decide)
    | succ f => rfl
  | cons c cs ih =>
    intro fuel hall hf
    obtain ⟨hc0, hc1⟩ := hall c (List.mem_cons_self _ _)
    obtain ⟨⟨lead, tail, he, hne, _⟩, hlen1, _, hd⟩ :=
      FOX_Utf8Decode_utf8_encode c (cs.flatMap utf8_encode ++ [0]) hc1
    cases fuel with
    | zero => exact absurd hf (by omega)
    | succ f =>
      simp only [List.flatMap_cons, List.length_append] at hf
      have hdrop : (utf8_encode c ++ (cs.flatMap utf8_encode ++ [0])).drop
          ((utf8_encode c).length - 1 + 1) = cs.flatMap utf8_encode ++ [0] := by
        rw [Nat.sub_add_cancel hlen1, List.drop_left]
      have hih := ih f (fun x hx => hall x (List.mem_cons_of_mem _ hx)) (by omega)
      simp only [List.flatMap_cons, List.append_assoc]
      rw [he] at hd hdrop ⊢
      simp only [List.cons_append] at hd hdrop ⊢
      simp only [FOX_DrawText_loop, if_neg (hne hc0), hd, hdrop, hih]

/-- C30: for every code point `c <= 0x10FFFF`, `FOX_Utf8Length` of the first
byte of the UTF-8 encoding of `c` is the number `n` of bytes of the encoding
(1 to 4), and `FOX_Utf8Decode` on a buffer that starts with the encoding
returns `c` and sets `*endptr` to the last byte of the sequence (offset
`n - 1`); so the loop of `FOX_DrawText`, which then increments the pointer,
decodes a buffer holding the encodings of any non-zero code points, followed
by the NUL, into these code points. -/
theorem C30_utf8_decode_inverts_encode (c : Nat) (rest : List Nat) (h : c ≤ 0x10FFFF) :
    (∃ lead tail, utf8_encode c = lead :: tail ∧
      FOX_Utf8Length lead = ((utf8_encode c).length : Int)) ∧
    1 ≤ (utf8_encode c).length ∧ (utf8_encode c).length ≤ 4 ∧
    FOX_Utf8Decode (utf8_encode c ++ rest) = some (c, (utf8_encode c).length - 1) ∧
    (∀ cs : List Nat, (∀ x ∈ cs, 0 < x ∧ x ≤ 0x10FFFF) →
      FOX_DrawText_decode (cs.flatMap utf8_encode ++ [0]) = some cs) := by
  obtain ⟨⟨lead, tail, h1, _, h2⟩, h3, h4, h5⟩ := FOX_Utf8Decode_utf8_encode c rest h
  refine ⟨⟨lead, tail, h1, h2⟩, h3, h4, h5, ?_⟩
  intro cs hall
  unfold FOX_DrawText_decode
  exact FOX_DrawText_loop_utf8_encode cs _ hall
    (by simp only [List.length_append, List.length_singleton]; omega)

/-- C30 at the euro sign U+20AC, encoded as E2 82 AC, followed by the NUL. -/
theorem C30_utf8_decode_inverts_encode_witness :
    (0x20ac ≤ 0x10FFFF) ∧ utf8_encode 0x20ac = [0xe2, 0x82, 0xac] ∧
    ((∃ lead tail, utf8_encode 0x20ac = lead :: tail ∧
      FOX_Utf8Length lead = ((utf8_encode 0x20ac).length : Int)) ∧
    1 ≤ (utf8_encode 0x20ac).length ∧ (utf8_encode 0x20ac).length ≤ 4 ∧
    FOX_Utf8Decode (utf8_encode 0x20ac ++ [0]) =
      some (0x20ac, (utf8_encode 0x20ac).length - 1) ∧
    (∀ cs : List Nat, (∀ x ∈ cs, 0 < x ∧ x ≤ 0x10FFFF) →
      FOX_DrawText_decode (cs.flatMap utf8_encode ++ [0]) = some cs)) :=
  ⟨by decide, by decide, C30_utf8_decode_inverts_encode 0x20ac [0] (by decide)⟩

end Sdlterm
